import Mathlib

/-!
# Redis client: wire encoder, pipelined send path and subscription listener

A shallow embedding of `command.go` and `pubsub.go`.

* Byte slices and Go strings are lists of bytes; a byte is a natural number
  and the conversion `byte(x)` is written `x % 256`.
* `int64` values are integers `v` with `-2^63 ≤ v < 2^63` (`isInt64`).
* Go maps are association lists; a `for ... range` loop over a map is a fold
  over the list, so a statement quantified over all lists covers every
  iteration order.
* Goroutines are interleaved at their blocking points: a state and a
  function `step` that performs one action of one goroutine.
-/

namespace Redis

/-! ## Bytes -/

/-- The contents of a `[]byte` or of a Go `string`: a list of octets, each a
natural number; `byte(x)` of a non-negative `x` is `x % 256`. -/
abbrev Bytes := List Nat

/-- The bytes of an ASCII string literal of the source. -/
def bytesOfString (s : String) : Bytes := s.toList.map Char.toNat

/-- The range of `int64`. -/
def isInt64 (v : Int) : Prop := -9223372036854775808 ≤ v ∧ v < 9223372036854775808

instance (v : Int) : Decidable (isInt64 v) := by unfold isInt64; infer_instance

/-! ## The parts of package `strconv` the encoder calls -/

namespace strconv

/-- The digit loop of `strconv.formatBits` in base 10: the least significant
digit of `u` is put in front of `acc` while `u ≥ 10`, then the leading digit.
The first argument bounds the number of iterations. -/
def formatBits : Nat → Nat → Bytes → Bytes
  | 0, u, acc => (48 + u) % 256 :: acc
  | fuel + 1, u, acc =>
    if 10 ≤ u then formatBits fuel (u / 10) ((48 + u % 10) % 256 :: acc)
    else (48 + u) % 256 :: acc

/-- The decimal text of an unsigned number, `strconv.FormatUint(u, 10)`. -/
def formatUint (u : Nat) : Bytes := formatBits u u []

/-- Go `strconv.AppendUint(dst, u, 10)`. -/
def AppendUint (dst : Bytes) (u : Nat) : Bytes := dst ++ formatUint u

/-- The decimal text of a signed number, `strconv.FormatInt(i, 10)`: the
value is converted to `uint64`, negated modulo `2^64` when negative, and a
minus sign is put in front. -/
def formatInt (i : Int) : Bytes :=
  let u : Nat := (i % 18446744073709551616).toNat
  if i < 0 then 45 :: formatUint ((18446744073709551616 - u) % 18446744073709551616)
  else formatUint u

/-- Go `strconv.AppendInt(dst, i, 10)`. -/
def AppendInt (dst : Bytes) (i : Int) : Bytes := dst ++ formatInt i

end strconv

/-! ## command.go: the argument encoders -/

/-- Go `writeBuffer`: a pooled buffer `p`, cut to length zero, then the
prefix. -/
def writeBuffer (p : Bytes) (pre : String) : Bytes := p.take 0 ++ bytesOfString pre

/-- Go `appendDecimal`: reserve a size field of one or two bytes, append the
number, then patch the size field. -/
def appendDecimal (buf : Bytes) (v : Int) : Bytes :=
  let sizeOffset := buf.length
  let sizeOneDecimal : Bool := decide (v > -100000000) && decide (v < 1000000000)
  let buf1 := if sizeOneDecimal then buf ++ [0, 13, 10] else buf ++ [0, 0, 13, 10]
  let intOffset := buf1.length
  let buf2 := strconv.AppendInt buf1 v
  let size := buf2.length - intOffset
  if sizeOneDecimal then
    buf2.set sizeOffset ((size + 48) % 256)
  else
    (buf2.set sizeOffset ((size / 10 + 48) % 256)).set (sizeOffset + 1) ((size % 10 + 48) % 256)

/-- Go `appendBytes`. -/
def appendBytes (buf a : Bytes) : Bytes :=
  let buf := strconv.AppendUint buf a.length
  let buf := buf ++ [13, 10]
  let buf := buf ++ a
  let buf := buf ++ [13, 10]
  buf

/-- Go `appendString`. -/
def appendString (buf : Bytes) (a : Bytes) : Bytes :=
  let buf := strconv.AppendUint buf a.length
  let buf := buf ++ [13, 10]
  let buf := buf ++ a
  let buf := buf ++ [13, 10]
  buf

/-- Go `appendBytesBytes`. -/
def appendBytesBytes (buf a1 a2 : Bytes) : Bytes :=
  let buf := strconv.AppendUint buf a1.length
  let buf := buf ++ [13, 10]
  let buf := buf ++ a1
  let buf := buf ++ [13, 10, 36]
  let buf := strconv.AppendUint buf a2.length
  let buf := buf ++ [13, 10]
  let buf := buf ++ a2
  let buf := buf ++ [13, 10]
  buf

/-- Go `appendBytesInt`. -/
def appendBytesInt (buf a1 : Bytes) (a2 : Int) : Bytes :=
  let buf := strconv.AppendUint buf a1.length
  let buf := buf ++ [13, 10]
  let buf := buf ++ a1
  let buf := buf ++ [13, 10, 36]
  let buf := appendDecimal buf a2
  let buf := buf ++ [13, 10]
  buf

/-- Go `appendStringBytes`. -/
def appendStringBytes (buf : Bytes) (a1 : Bytes) (a2 : Bytes) : Bytes :=
  let buf := strconv.AppendUint buf a1.length
  let buf := buf ++ [13, 10]
  let buf := buf ++ a1
  let buf := buf ++ [13, 10, 36]
  let buf := strconv.AppendUint buf a2.length
  let buf := buf ++ [13, 10]
  let buf := buf ++ a2
  let buf := buf ++ [13, 10]
  buf

/-- Go `appendStringInt`. -/
def appendStringInt (buf : Bytes) (a1 : Bytes) (a2 : Int) : Bytes :=
  let buf := strconv.AppendUint buf a1.length
  let buf := buf ++ [13, 10]
  let buf := buf ++ a1
  let buf := buf ++ [13, 10, 36]
  let buf := appendDecimal buf a2
  let buf := buf ++ [13, 10]
  buf

/-- Go `appendStringString`. -/
def appendStringString (buf : Bytes) (a1 a2 : Bytes) : Bytes :=
  let buf := strconv.AppendUint buf a1.length
  let buf := buf ++ [13, 10]
  let buf := buf ++ a1
  let buf := buf ++ [13, 10, 36]
  let buf := strconv.AppendUint buf a2.length
  let buf := buf ++ [13, 10]
  let buf := buf ++ a2
  let buf := buf ++ [13, 10]
  buf

/-- Go `appendBytesBytesBytes`. -/
def appendBytesBytesBytes (buf a1 a2 a3 : Bytes) : Bytes :=
  let buf := strconv.AppendUint buf a1.length
  let buf := buf ++ [13, 10]
  let buf := buf ++ a1
  let buf := buf ++ [13, 10, 36]
  let buf := strconv.AppendUint buf a2.length
  let buf := buf ++ [13, 10]
  let buf := buf ++ a2
  let buf := buf ++ [13, 10, 36]
  let buf := strconv.AppendUint buf a3.length
  let buf := buf ++ [13, 10]
  let buf := buf ++ a3
  let buf := buf ++ [13, 10]
  buf

/-- Go `appendBytesIntBytes`. -/
def appendBytesIntBytes (buf a1 : Bytes) (a2 : Int) (a3 : Bytes) : Bytes :=
  let buf := strconv.AppendUint buf a1.length
  let buf := buf ++ [13, 10]
  let buf := buf ++ a1
  let buf := buf ++ [13, 10, 36]
  let buf := appendDecimal buf a2
  let buf := buf ++ [13, 10, 36]
  let buf := strconv.AppendUint buf a3.length
  let buf := buf ++ [13, 10]
  let buf := buf ++ a3
  let buf := buf ++ [13, 10]
  buf

/-- Go `appendBytesIntInt`. -/
def appendBytesIntInt (buf a1 : Bytes) (a2 a3 : Int) : Bytes :=
  let buf := strconv.AppendUint buf a1.length
  let buf := buf ++ [13, 10]
  let buf := buf ++ a1
  let buf := buf ++ [13, 10, 36]
  let buf := appendDecimal buf a2
  let buf := buf ++ [13, 10, 36]
  let buf := appendDecimal buf a3
  let buf := buf ++ [13, 10]
  buf

/-- Go `appendStringIntBytes`. -/
def appendStringIntBytes (buf : Bytes) (a1 : Bytes) (a2 : Int) (a3 : Bytes) : Bytes :=
  let buf := strconv.AppendUint buf a1.length
  let buf := buf ++ [13, 10]
  let buf := buf ++ a1
  let buf := buf ++ [13, 10, 36]
  let buf := appendDecimal buf a2
  let buf := buf ++ [13, 10, 36]
  let buf := strconv.AppendUint buf a3.length
  let buf := buf ++ [13, 10]
  let buf := buf ++ a3
  let buf := buf ++ [13, 10]
  buf

/-- Go `appendStringIntInt`. -/
def appendStringIntInt (buf : Bytes) (a1 : Bytes) (a2 a3 : Int) : Bytes :=
  let buf := strconv.AppendUint buf a1.length
  let buf := buf ++ [13, 10]
  let buf := buf ++ a1
  let buf := buf ++ [13, 10, 36]
  let buf := appendDecimal buf a2
  let buf := buf ++ [13, 10, 36]
  let buf := appendDecimal buf a3
  let buf := buf ++ [13, 10]
  buf

/-- Go `appendStringIntString`. -/
def appendStringIntString (buf : Bytes) (a1 : Bytes) (a2 : Int) (a3 : Bytes) : Bytes :=
  let buf := strconv.AppendUint buf a1.length
  let buf := buf ++ [13, 10]
  let buf := buf ++ a1
  let buf := buf ++ [13, 10, 36]
  let buf := appendDecimal buf a2
  let buf := buf ++ [13, 10, 36]
  let buf := strconv.AppendUint buf a3.length
  let buf := buf ++ [13, 10]
  let buf := buf ++ a3
  let buf := buf ++ [13, 10]
  buf

/-- Go `appendStringStringBytes`. -/
def appendStringStringBytes (buf : Bytes) (a1 a2 : Bytes) (a3 : Bytes) : Bytes :=
  let buf := strconv.AppendUint buf a1.length
  let buf := buf ++ [13, 10]
  let buf := buf ++ a1
  let buf := buf ++ [13, 10, 36]
  let buf := strconv.AppendUint buf a2.length
  let buf := buf ++ [13, 10]
  let buf := buf ++ a2
  let buf := buf ++ [13, 10, 36]
  let buf := strconv.AppendUint buf a3.length
  let buf := buf ++ [13, 10]
  let buf := buf ++ a3
  let buf := buf ++ [13, 10]
  buf

/-- Go `appendStringStringString`. -/
def appendStringStringString (buf : Bytes) (a1 a2 a3 : Bytes) : Bytes :=
  let buf := strconv.AppendUint buf a1.length
  let buf := buf ++ [13, 10]
  let buf := buf ++ a1
  let buf := buf ++ [13, 10, 36]
  let buf := strconv.AppendUint buf a2.length
  let buf := buf ++ [13, 10]
  let buf := buf ++ a2
  let buf := buf ++ [13, 10, 36]
  let buf := strconv.AppendUint buf a3.length
  let buf := buf ++ [13, 10]
  let buf := buf ++ a3
  let buf := buf ++ [13, 10]
  buf

/-! ## command.go: the command wrappers

Each wrapper is the buffer it hands to `okCmd`, `intCmd`, `bulkCmd` or
`arrayCmd`, which pass it on to `send` unchanged. The argument `p` is the
buffer taken from the pool. -/

/-- Go `Client.GET`: the buffer handed to `bulkCmd`. -/
def Client.GET (p : Bytes) (key : Bytes) : Bytes :=
  let buf := writeBuffer p "*2\r\n$3\r\nGET\r\n$"
  let buf := appendString buf key
  buf

/-- Go `Client.BytesGET`: the buffer handed to `bulkCmd`. -/
def Client.BytesGET (p : Bytes) (key : Bytes) : Bytes :=
  let buf := writeBuffer p "*2\r\n$3\r\nGET\r\n$"
  let buf := appendBytes buf key
  buf

/-- Go `Client.SET`: the buffer handed to `okCmd`. -/
def Client.SET (p : Bytes) (key : Bytes) (value : Bytes) : Bytes :=
  let buf := writeBuffer p "*3\r\n$3\r\nSET\r\n$"
  let buf := appendStringBytes buf key value
  buf

/-- Go `Client.BytesSET`: the buffer handed to `okCmd`. -/
def Client.BytesSET (p : Bytes) (key : Bytes) (value : Bytes) : Bytes :=
  let buf := writeBuffer p "*3\r\n$3\r\nSET\r\n$"
  let buf := appendBytesBytes buf key value
  buf

/-- Go `Client.SETString`: the buffer handed to `okCmd`. -/
def Client.SETString (p : Bytes) (key : Bytes) (value : Bytes) : Bytes :=
  let buf := writeBuffer p "*3\r\n$3\r\nSET\r\n$"
  let buf := appendStringString buf key value
  buf

/-- Go `Client.DEL`: the buffer handed to `intCmd`. -/
def Client.DEL (p : Bytes) (key : Bytes) : Bytes :=
  let buf := writeBuffer p "*2\r\n$3\r\nDEL\r\n$"
  let buf := appendString buf key
  buf

/-- Go `Client.BytesDEL`: the buffer handed to `intCmd`. -/
def Client.BytesDEL (p : Bytes) (key : Bytes) : Bytes :=
  let buf := writeBuffer p "*2\r\n$3\r\nDEL\r\n$"
  let buf := appendBytes buf key
  buf

/-- Go `Client.INCR`: the buffer handed to `intCmd`. -/
def Client.INCR (p : Bytes) (key : Bytes) : Bytes :=
  let buf := writeBuffer p "*2\r\n$4\r\nINCR\r\n$"
  let buf := appendString buf key
  buf

/-- Go `Client.BytesINCR`: the buffer handed to `intCmd`. -/
def Client.BytesINCR (p : Bytes) (key : Bytes) : Bytes :=
  let buf := writeBuffer p "*2\r\n$4\r\nINCR\r\n$"
  let buf := appendBytes buf key
  buf

/-- Go `Client.INCRBY`: the buffer handed to `intCmd`. -/
def Client.INCRBY (p : Bytes) (key : Bytes) (increment : Int) : Bytes :=
  let buf := writeBuffer p "*3\r\n$6\r\nINCRBY\r\n$"
  let buf := appendStringInt buf key increment
  buf

/-- Go `Client.BytesINCRBY`: the buffer handed to `intCmd`. -/
def Client.BytesINCRBY (p : Bytes) (key : Bytes) (increment : Int) : Bytes :=
  let buf := writeBuffer p "*3\r\n$6\r\nINCRBY\r\n$"
  let buf := appendBytesInt buf key increment
  buf

/-- Go `Client.APPEND`: the buffer handed to `intCmd`. -/
def Client.APPEND (p : Bytes) (key : Bytes) (value : Bytes) : Bytes :=
  let buf := writeBuffer p "*3\r\n$6\r\nAPPEND\r\n$"
  let buf := appendStringBytes buf key value
  buf

/-- Go `Client.BytesAPPEND`: the buffer handed to `intCmd`. -/
def Client.BytesAPPEND (p : Bytes) (key : Bytes) (value : Bytes) : Bytes :=
  let buf := writeBuffer p "*3\r\n$6\r\nAPPEND\r\n$"
  let buf := appendBytesBytes buf key value
  buf

/-- Go `Client.APPENDString`: the buffer handed to `intCmd`. -/
def Client.APPENDString (p : Bytes) (key : Bytes) (value : Bytes) : Bytes :=
  let buf := writeBuffer p "*3\r\n$6\r\nAPPEND\r\n$"
  let buf := appendStringString buf key value
  buf

/-- Go `Client.LLEN`: the buffer handed to `intCmd`. -/
def Client.LLEN (p : Bytes) (key : Bytes) : Bytes :=
  let buf := writeBuffer p "*2\r\n$4\r\nLLEN\r\n$"
  let buf := appendString buf key
  buf

/-- Go `Client.BytesLLEN`: the buffer handed to `intCmd`. -/
def Client.BytesLLEN (p : Bytes) (key : Bytes) : Bytes :=
  let buf := writeBuffer p "*2\r\n$4\r\nLLEN\r\n$"
  let buf := appendBytes buf key
  buf

/-- Go `Client.LINDEX`: the buffer handed to `bulkCmd`. -/
def Client.LINDEX (p : Bytes) (key : Bytes) (index : Int) : Bytes :=
  let buf := writeBuffer p "*3\r\n$6\r\nLINDEX\r\n$"
  let buf := appendStringInt buf key index
  buf

/-- Go `Client.BytesLINDEX`: the buffer handed to `bulkCmd`. -/
def Client.BytesLINDEX (p : Bytes) (key : Bytes) (index : Int) : Bytes :=
  let buf := writeBuffer p "*3\r\n$6\r\nLINDEX\r\n$"
  let buf := appendBytesInt buf key index
  buf

/-- Go `Client.LRANGE`: the buffer handed to `arrayCmd`. -/
def Client.LRANGE (p : Bytes) (key : Bytes) (start : Int) (stop : Int) : Bytes :=
  let buf := writeBuffer p "*4\r\n$6\r\nLRANGE\r\n$"
  let buf := appendStringIntInt buf key start stop
  buf

/-- Go `Client.BytesLRANGE`: the buffer handed to `arrayCmd`. -/
def Client.BytesLRANGE (p : Bytes) (key : Bytes) (start : Int) (stop : Int) : Bytes :=
  let buf := writeBuffer p "*4\r\n$6\r\nLRANGE\r\n$"
  let buf := appendBytesIntInt buf key start stop
  buf

/-- Go `Client.LPOP`: the buffer handed to `bulkCmd`. -/
def Client.LPOP (p : Bytes) (key : Bytes) : Bytes :=
  let buf := writeBuffer p "*2\r\n$4\r\nLPOP\r\n$"
  let buf := appendString buf key
  buf

/-- Go `Client.BytesLPOP`: the buffer handed to `bulkCmd`. -/
def Client.BytesLPOP (p : Bytes) (key : Bytes) : Bytes :=
  let buf := writeBuffer p "*2\r\n$4\r\nLPOP\r\n$"
  let buf := appendBytes buf key
  buf

/-- Go `Client.RPOP`: the buffer handed to `bulkCmd`. -/
def Client.RPOP (p : Bytes) (key : Bytes) : Bytes :=
  let buf := writeBuffer p "*2\r\n$4\r\nRPOP\r\n$"
  let buf := appendString buf key
  buf

/-- Go `Client.BytesRPOP`: the buffer handed to `bulkCmd`. -/
def Client.BytesRPOP (p : Bytes) (key : Bytes) : Bytes :=
  let buf := writeBuffer p "*2\r\n$4\r\nRPOP\r\n$"
  let buf := appendBytes buf key
  buf

/-- Go `Client.LTRIM`: the buffer handed to `okCmd`. -/
def Client.LTRIM (p : Bytes) (key : Bytes) (start : Int) (stop : Int) : Bytes :=
  let buf := writeBuffer p "*4\r\n$5\r\nLTRIM\r\n$"
  let buf := appendStringIntInt buf key start stop
  buf

/-- Go `Client.BytesLTRIM`: the buffer handed to `okCmd`. -/
def Client.BytesLTRIM (p : Bytes) (key : Bytes) (start : Int) (stop : Int) : Bytes :=
  let buf := writeBuffer p "*4\r\n$5\r\nLTRIM\r\n$"
  let buf := appendBytesIntInt buf key start stop
  buf

/-- Go `Client.LSET`: the buffer handed to `okCmd`. -/
def Client.LSET (p : Bytes) (key : Bytes) (index : Int) (value : Bytes) : Bytes :=
  let buf := writeBuffer p "*4\r\n$4\r\nLSET\r\n$"
  let buf := appendStringIntBytes buf key index value
  buf

/-- Go `Client.LSETString`: the buffer handed to `okCmd`. -/
def Client.LSETString (p : Bytes) (key : Bytes) (index : Int) (value : Bytes) : Bytes :=
  let buf := writeBuffer p "*4\r\n$4\r\nLSET\r\n$"
  let buf := appendStringIntString buf key index value
  buf

/-- Go `Client.BytesLSET`: the buffer handed to `okCmd`. -/
def Client.BytesLSET (p : Bytes) (key : Bytes) (index : Int) (value : Bytes) : Bytes :=
  let buf := writeBuffer p "*4\r\n$4\r\nLSET\r\n$"
  let buf := appendBytesIntBytes buf key index value
  buf

/-- Go `Client.LPUSH`: the buffer handed to `intCmd`. -/
def Client.LPUSH (p : Bytes) (key : Bytes) (value : Bytes) : Bytes :=
  let buf := writeBuffer p "*3\r\n$5\r\nLPUSH\r\n$"
  let buf := appendStringBytes buf key value
  buf

/-- Go `Client.BytesLPUSH`: the buffer handed to `intCmd`. -/
def Client.BytesLPUSH (p : Bytes) (key : Bytes) (value : Bytes) : Bytes :=
  let buf := writeBuffer p "*3\r\n$5\r\nLPUSH\r\n$"
  let buf := appendBytesBytes buf key value
  buf

/-- Go `Client.LPUSHString`: the buffer handed to `intCmd`. -/
def Client.LPUSHString (p : Bytes) (key : Bytes) (value : Bytes) : Bytes :=
  let buf := writeBuffer p "*3\r\n$5\r\nLPUSH\r\n$"
  let buf := appendStringString buf key value
  buf

/-- Go `Client.RPUSH`: the buffer handed to `intCmd`. -/
def Client.RPUSH (p : Bytes) (key : Bytes) (value : Bytes) : Bytes :=
  let buf := writeBuffer p "*3\r\n$5\r\nRPUSH\r\n$"
  let buf := appendStringBytes buf key value
  buf

/-- Go `Client.BytesRPUSH`: the buffer handed to `intCmd`. -/
def Client.BytesRPUSH (p : Bytes) (key : Bytes) (value : Bytes) : Bytes :=
  let buf := writeBuffer p "*3\r\n$5\r\nRPUSH\r\n$"
  let buf := appendBytesBytes buf key value
  buf

/-- Go `Client.RPUSHString`: the buffer handed to `intCmd`. -/
def Client.RPUSHString (p : Bytes) (key : Bytes) (value : Bytes) : Bytes :=
  let buf := writeBuffer p "*3\r\n$5\r\nRPUSH\r\n$"
  let buf := appendStringString buf key value
  buf

/-- Go `Client.HGET`: the buffer handed to `bulkCmd`. -/
def Client.HGET (p : Bytes) (key : Bytes) (field : Bytes) : Bytes :=
  let buf := writeBuffer p "*3\r\n$4\r\nHGET\r\n$"
  let buf := appendStringString buf key field
  buf

/-- Go `Client.BytesHGET`: the buffer handed to `bulkCmd`. -/
def Client.BytesHGET (p : Bytes) (key : Bytes) (field : Bytes) : Bytes :=
  let buf := writeBuffer p "*3\r\n$4\r\nHGET\r\n$"
  let buf := appendBytesBytes buf key field
  buf

/-- Go `Client.HSET`: the buffer handed to `intCmd`. -/
def Client.HSET (p : Bytes) (key : Bytes) (field : Bytes) (value : Bytes) : Bytes :=
  let buf := writeBuffer p "*4\r\n$4\r\nHSET\r\n$"
  let buf := appendStringStringBytes buf key field value
  buf

/-- Go `Client.BytesHSET`: the buffer handed to `intCmd`. -/
def Client.BytesHSET (p : Bytes) (key : Bytes) (field : Bytes) (value : Bytes) : Bytes :=
  let buf := writeBuffer p "*4\r\n$4\r\nHSET\r\n$"
  let buf := appendBytesBytesBytes buf key field value
  buf

/-- Go `Client.HSETString`: the buffer handed to `intCmd`. -/
def Client.HSETString (p : Bytes) (key : Bytes) (field : Bytes) (value : Bytes) : Bytes :=
  let buf := writeBuffer p "*4\r\n$4\r\nHSET\r\n$"
  let buf := appendStringStringString buf key field value
  buf

/-- Go `Client.HDEL`: the buffer handed to `intCmd`. -/
def Client.HDEL (p : Bytes) (key : Bytes) (field : Bytes) : Bytes :=
  let buf := writeBuffer p "*3\r\n$4\r\nHDEL\r\n$"
  let buf := appendStringString buf key field
  buf

/-- Go `Client.BytesHDEL`: the buffer handed to `intCmd`. -/
def Client.BytesHDEL (p : Bytes) (key : Bytes) (field : Bytes) : Bytes :=
  let buf := writeBuffer p "*3\r\n$4\r\nHDEL\r\n$"
  let buf := appendBytesBytes buf key field
  buf

/-- An argument of a command wrapper: a `string` or `[]byte` value, or an
`int64`. -/
inductive Arg where
  | bytes (b : Bytes)
  | int (v : Int)
  deriving DecidableEq, Repr

/-- The wrappers of `command.go`, by name. -/
inductive Wrapper where
  | GET
  | BytesGET
  | SET
  | BytesSET
  | SETString
  | DEL
  | BytesDEL
  | INCR
  | BytesINCR
  | INCRBY
  | BytesINCRBY
  | APPEND
  | BytesAPPEND
  | APPENDString
  | LLEN
  | BytesLLEN
  | LINDEX
  | BytesLINDEX
  | LRANGE
  | BytesLRANGE
  | LPOP
  | BytesLPOP
  | RPOP
  | BytesRPOP
  | LTRIM
  | BytesLTRIM
  | LSET
  | LSETString
  | BytesLSET
  | LPUSH
  | BytesLPUSH
  | LPUSHString
  | RPUSH
  | BytesRPUSH
  | RPUSHString
  | HGET
  | BytesHGET
  | HSET
  | BytesHSET
  | HSETString
  | HDEL
  | BytesHDEL
  deriving DecidableEq, Repr

/-- A call of a command wrapper with its arguments. -/
inductive Call where
  | GET (key : Bytes)
  | BytesGET (key : Bytes)
  | SET (key : Bytes) (value : Bytes)
  | BytesSET (key : Bytes) (value : Bytes)
  | SETString (key : Bytes) (value : Bytes)
  | DEL (key : Bytes)
  | BytesDEL (key : Bytes)
  | INCR (key : Bytes)
  | BytesINCR (key : Bytes)
  | INCRBY (key : Bytes) (increment : Int)
  | BytesINCRBY (key : Bytes) (increment : Int)
  | APPEND (key : Bytes) (value : Bytes)
  | BytesAPPEND (key : Bytes) (value : Bytes)
  | APPENDString (key : Bytes) (value : Bytes)
  | LLEN (key : Bytes)
  | BytesLLEN (key : Bytes)
  | LINDEX (key : Bytes) (index : Int)
  | BytesLINDEX (key : Bytes) (index : Int)
  | LRANGE (key : Bytes) (start : Int) (stop : Int)
  | BytesLRANGE (key : Bytes) (start : Int) (stop : Int)
  | LPOP (key : Bytes)
  | BytesLPOP (key : Bytes)
  | RPOP (key : Bytes)
  | BytesRPOP (key : Bytes)
  | LTRIM (key : Bytes) (start : Int) (stop : Int)
  | BytesLTRIM (key : Bytes) (start : Int) (stop : Int)
  | LSET (key : Bytes) (index : Int) (value : Bytes)
  | LSETString (key : Bytes) (index : Int) (value : Bytes)
  | BytesLSET (key : Bytes) (index : Int) (value : Bytes)
  | LPUSH (key : Bytes) (value : Bytes)
  | BytesLPUSH (key : Bytes) (value : Bytes)
  | LPUSHString (key : Bytes) (value : Bytes)
  | RPUSH (key : Bytes) (value : Bytes)
  | BytesRPUSH (key : Bytes) (value : Bytes)
  | RPUSHString (key : Bytes) (value : Bytes)
  | HGET (key : Bytes) (field : Bytes)
  | BytesHGET (key : Bytes) (field : Bytes)
  | HSET (key : Bytes) (field : Bytes) (value : Bytes)
  | BytesHSET (key : Bytes) (field : Bytes) (value : Bytes)
  | HSETString (key : Bytes) (field : Bytes) (value : Bytes)
  | HDEL (key : Bytes) (field : Bytes)
  | BytesHDEL (key : Bytes) (field : Bytes)

/-- The wrapper a call invokes. -/
def Call.wrapper : Call → Wrapper
  | .GET _ => .GET
  | .BytesGET _ => .BytesGET
  | .SET _ _ => .SET
  | .BytesSET _ _ => .BytesSET
  | .SETString _ _ => .SETString
  | .DEL _ => .DEL
  | .BytesDEL _ => .BytesDEL
  | .INCR _ => .INCR
  | .BytesINCR _ => .BytesINCR
  | .INCRBY _ _ => .INCRBY
  | .BytesINCRBY _ _ => .BytesINCRBY
  | .APPEND _ _ => .APPEND
  | .BytesAPPEND _ _ => .BytesAPPEND
  | .APPENDString _ _ => .APPENDString
  | .LLEN _ => .LLEN
  | .BytesLLEN _ => .BytesLLEN
  | .LINDEX _ _ => .LINDEX
  | .BytesLINDEX _ _ => .BytesLINDEX
  | .LRANGE _ _ _ => .LRANGE
  | .BytesLRANGE _ _ _ => .BytesLRANGE
  | .LPOP _ => .LPOP
  | .BytesLPOP _ => .BytesLPOP
  | .RPOP _ => .RPOP
  | .BytesRPOP _ => .BytesRPOP
  | .LTRIM _ _ _ => .LTRIM
  | .BytesLTRIM _ _ _ => .BytesLTRIM
  | .LSET _ _ _ => .LSET
  | .LSETString _ _ _ => .LSETString
  | .BytesLSET _ _ _ => .BytesLSET
  | .LPUSH _ _ => .LPUSH
  | .BytesLPUSH _ _ => .BytesLPUSH
  | .LPUSHString _ _ => .LPUSHString
  | .RPUSH _ _ => .RPUSH
  | .BytesRPUSH _ _ => .BytesRPUSH
  | .RPUSHString _ _ => .RPUSHString
  | .HGET _ _ => .HGET
  | .BytesHGET _ _ => .BytesHGET
  | .HSET _ _ _ => .HSET
  | .BytesHSET _ _ _ => .BytesHSET
  | .HSETString _ _ _ => .HSETString
  | .HDEL _ _ => .HDEL
  | .BytesHDEL _ _ => .BytesHDEL

/-- The bytes a call hands to the send path. -/
def Call.frame (p : Bytes) : Call → Bytes
  | .GET key => Client.GET p key
  | .BytesGET key => Client.BytesGET p key
  | .SET key value => Client.SET p key value
  | .BytesSET key value => Client.BytesSET p key value
  | .SETString key value => Client.SETString p key value
  | .DEL key => Client.DEL p key
  | .BytesDEL key => Client.BytesDEL p key
  | .INCR key => Client.INCR p key
  | .BytesINCR key => Client.BytesINCR p key
  | .INCRBY key increment => Client.INCRBY p key increment
  | .BytesINCRBY key increment => Client.BytesINCRBY p key increment
  | .APPEND key value => Client.APPEND p key value
  | .BytesAPPEND key value => Client.BytesAPPEND p key value
  | .APPENDString key value => Client.APPENDString p key value
  | .LLEN key => Client.LLEN p key
  | .BytesLLEN key => Client.BytesLLEN p key
  | .LINDEX key index => Client.LINDEX p key index
  | .BytesLINDEX key index => Client.BytesLINDEX p key index
  | .LRANGE key start stop => Client.LRANGE p key start stop
  | .BytesLRANGE key start stop => Client.BytesLRANGE p key start stop
  | .LPOP key => Client.LPOP p key
  | .BytesLPOP key => Client.BytesLPOP p key
  | .RPOP key => Client.RPOP p key
  | .BytesRPOP key => Client.BytesRPOP p key
  | .LTRIM key start stop => Client.LTRIM p key start stop
  | .BytesLTRIM key start stop => Client.BytesLTRIM p key start stop
  | .LSET key index value => Client.LSET p key index value
  | .LSETString key index value => Client.LSETString p key index value
  | .BytesLSET key index value => Client.BytesLSET p key index value
  | .LPUSH key value => Client.LPUSH p key value
  | .BytesLPUSH key value => Client.BytesLPUSH p key value
  | .LPUSHString key value => Client.LPUSHString p key value
  | .RPUSH key value => Client.RPUSH p key value
  | .BytesRPUSH key value => Client.BytesRPUSH p key value
  | .RPUSHString key value => Client.RPUSHString p key value
  | .HGET key field => Client.HGET p key field
  | .BytesHGET key field => Client.BytesHGET p key field
  | .HSET key field value => Client.HSET p key field value
  | .BytesHSET key field value => Client.BytesHSET p key field value
  | .HSETString key field value => Client.HSETString p key field value
  | .HDEL key field => Client.HDEL p key field
  | .BytesHDEL key field => Client.BytesHDEL p key field

/-- The command keyword of a wrapper: the command named in its documentation. -/
def Wrapper.keyword : Wrapper → String
  | .GET => "GET"
  | .BytesGET => "GET"
  | .SET => "SET"
  | .BytesSET => "SET"
  | .SETString => "SET"
  | .DEL => "DEL"
  | .BytesDEL => "DEL"
  | .INCR => "INCR"
  | .BytesINCR => "INCR"
  | .INCRBY => "INCRBY"
  | .BytesINCRBY => "INCRBY"
  | .APPEND => "APPEND"
  | .BytesAPPEND => "APPEND"
  | .APPENDString => "APPEND"
  | .LLEN => "LLEN"
  | .BytesLLEN => "LLEN"
  | .LINDEX => "LINDEX"
  | .BytesLINDEX => "LINDEX"
  | .LRANGE => "LRANGE"
  | .BytesLRANGE => "LRANGE"
  | .LPOP => "LPOP"
  | .BytesLPOP => "LPOP"
  | .RPOP => "RPOP"
  | .BytesRPOP => "RPOP"
  | .LTRIM => "LTRIM"
  | .BytesLTRIM => "LTRIM"
  | .LSET => "LSET"
  | .LSETString => "LSET"
  | .BytesLSET => "LSET"
  | .LPUSH => "LPUSH"
  | .BytesLPUSH => "LPUSH"
  | .LPUSHString => "LPUSH"
  | .RPUSH => "RPUSH"
  | .BytesRPUSH => "RPUSH"
  | .RPUSHString => "RPUSH"
  | .HGET => "HGET"
  | .BytesHGET => "HGET"
  | .HSET => "HSET"
  | .BytesHSET => "HSET"
  | .HSETString => "HSET"
  | .HDEL => "HDEL"
  | .BytesHDEL => "HDEL"

/-- The arguments of a call, in call order. -/
def Call.args : Call → List Arg
  | .GET key => [.bytes key]
  | .BytesGET key => [.bytes key]
  | .SET key value => [.bytes key, .bytes value]
  | .BytesSET key value => [.bytes key, .bytes value]
  | .SETString key value => [.bytes key, .bytes value]
  | .DEL key => [.bytes key]
  | .BytesDEL key => [.bytes key]
  | .INCR key => [.bytes key]
  | .BytesINCR key => [.bytes key]
  | .INCRBY key increment => [.bytes key, .int increment]
  | .BytesINCRBY key increment => [.bytes key, .int increment]
  | .APPEND key value => [.bytes key, .bytes value]
  | .BytesAPPEND key value => [.bytes key, .bytes value]
  | .APPENDString key value => [.bytes key, .bytes value]
  | .LLEN key => [.bytes key]
  | .BytesLLEN key => [.bytes key]
  | .LINDEX key index => [.bytes key, .int index]
  | .BytesLINDEX key index => [.bytes key, .int index]
  | .LRANGE key start stop => [.bytes key, .int start, .int stop]
  | .BytesLRANGE key start stop => [.bytes key, .int start, .int stop]
  | .LPOP key => [.bytes key]
  | .BytesLPOP key => [.bytes key]
  | .RPOP key => [.bytes key]
  | .BytesRPOP key => [.bytes key]
  | .LTRIM key start stop => [.bytes key, .int start, .int stop]
  | .BytesLTRIM key start stop => [.bytes key, .int start, .int stop]
  | .LSET key index value => [.bytes key, .int index, .bytes value]
  | .LSETString key index value => [.bytes key, .int index, .bytes value]
  | .BytesLSET key index value => [.bytes key, .int index, .bytes value]
  | .LPUSH key value => [.bytes key, .bytes value]
  | .BytesLPUSH key value => [.bytes key, .bytes value]
  | .LPUSHString key value => [.bytes key, .bytes value]
  | .RPUSH key value => [.bytes key, .bytes value]
  | .BytesRPUSH key value => [.bytes key, .bytes value]
  | .RPUSHString key value => [.bytes key, .bytes value]
  | .HGET key field => [.bytes key, .bytes field]
  | .BytesHGET key field => [.bytes key, .bytes field]
  | .HSET key field value => [.bytes key, .bytes field, .bytes value]
  | .BytesHSET key field value => [.bytes key, .bytes field, .bytes value]
  | .HSETString key field value => [.bytes key, .bytes field, .bytes value]
  | .HDEL key field => [.bytes key, .bytes field]
  | .BytesHDEL key field => [.bytes key, .bytes field]

/-- The call of a wrapper with the given arguments, when they have the
wrapper's arity and types. -/
def Call.ofArgs : Wrapper → List Arg → Option Call
  | .GET, [.bytes key] => some (.GET key)
  | .BytesGET, [.bytes key] => some (.BytesGET key)
  | .SET, [.bytes key, .bytes value] => some (.SET key value)
  | .BytesSET, [.bytes key, .bytes value] => some (.BytesSET key value)
  | .SETString, [.bytes key, .bytes value] => some (.SETString key value)
  | .DEL, [.bytes key] => some (.DEL key)
  | .BytesDEL, [.bytes key] => some (.BytesDEL key)
  | .INCR, [.bytes key] => some (.INCR key)
  | .BytesINCR, [.bytes key] => some (.BytesINCR key)
  | .INCRBY, [.bytes key, .int increment] => some (.INCRBY key increment)
  | .BytesINCRBY, [.bytes key, .int increment] => some (.BytesINCRBY key increment)
  | .APPEND, [.bytes key, .bytes value] => some (.APPEND key value)
  | .BytesAPPEND, [.bytes key, .bytes value] => some (.BytesAPPEND key value)
  | .APPENDString, [.bytes key, .bytes value] => some (.APPENDString key value)
  | .LLEN, [.bytes key] => some (.LLEN key)
  | .BytesLLEN, [.bytes key] => some (.BytesLLEN key)
  | .LINDEX, [.bytes key, .int index] => some (.LINDEX key index)
  | .BytesLINDEX, [.bytes key, .int index] => some (.BytesLINDEX key index)
  | .LRANGE, [.bytes key, .int start, .int stop] => some (.LRANGE key start stop)
  | .BytesLRANGE, [.bytes key, .int start, .int stop] => some (.BytesLRANGE key start stop)
  | .LPOP, [.bytes key] => some (.LPOP key)
  | .BytesLPOP, [.bytes key] => some (.BytesLPOP key)
  | .RPOP, [.bytes key] => some (.RPOP key)
  | .BytesRPOP, [.bytes key] => some (.BytesRPOP key)
  | .LTRIM, [.bytes key, .int start, .int stop] => some (.LTRIM key start stop)
  | .BytesLTRIM, [.bytes key, .int start, .int stop] => some (.BytesLTRIM key start stop)
  | .LSET, [.bytes key, .int index, .bytes value] => some (.LSET key index value)
  | .LSETString, [.bytes key, .int index, .bytes value] => some (.LSETString key index value)
  | .BytesLSET, [.bytes key, .int index, .bytes value] => some (.BytesLSET key index value)
  | .LPUSH, [.bytes key, .bytes value] => some (.LPUSH key value)
  | .BytesLPUSH, [.bytes key, .bytes value] => some (.BytesLPUSH key value)
  | .LPUSHString, [.bytes key, .bytes value] => some (.LPUSHString key value)
  | .RPUSH, [.bytes key, .bytes value] => some (.RPUSH key value)
  | .BytesRPUSH, [.bytes key, .bytes value] => some (.BytesRPUSH key value)
  | .RPUSHString, [.bytes key, .bytes value] => some (.RPUSHString key value)
  | .HGET, [.bytes key, .bytes field] => some (.HGET key field)
  | .BytesHGET, [.bytes key, .bytes field] => some (.BytesHGET key field)
  | .HSET, [.bytes key, .bytes field, .bytes value] => some (.HSET key field value)
  | .BytesHSET, [.bytes key, .bytes field, .bytes value] => some (.BytesHSET key field value)
  | .HSETString, [.bytes key, .bytes field, .bytes value] => some (.HSETString key field value)
  | .HDEL, [.bytes key, .bytes field] => some (.HDEL key field)
  | .BytesHDEL, [.bytes key, .bytes field] => some (.BytesHDEL key field)
  | _, _ => none

end Redis

namespace Redis

/-! ## The request grammar -/

/-- The text `d` is the decimal rendering of `n` without leading zeros:
one or more ASCII digits, most significant first, whose value is `n`, the
first of which is `0` only when it is the only one. -/
def isDecimalOf (d : Bytes) (n : Nat) : Prop :=
  d ≠ [] ∧ (∀ b ∈ d, 48 ≤ b ∧ b ≤ 57) ∧
    d.foldl (fun acc b => 10 * acc + (b - 48)) 0 = n ∧
    (d.head? = some 48 → d = [48])

/-- The text `s` is the decimal rendering of the integer `v`: a minus sign
for a negative number, then the rendering of its absolute value. -/
def isSignedDecimalOf (s : Bytes) (v : Int) : Prop :=
  if v < 0 then s.head? = some 45 ∧ isDecimalOf s.tail v.natAbs
  else isDecimalOf s v.toNat

/-- The bytes an argument contributes to the frame: the value itself, or the
decimal rendering of an integer. -/
def Arg.toBytes : Arg → Bytes
  | .bytes b => b
  | .int v => strconv.formatInt v

/-- The integer arguments are `int64` values. -/
def Arg.valid : Arg → Prop
  | .bytes _ => True
  | .int v => isInt64 v

/-- Every integer argument of the call is an `int64` value. -/
def Call.valid (c : Call) : Prop := ∀ a ∈ c.args, a.valid

/-- Every argument of the call is a byte string. -/
def Call.bytesOnly (c : Call) : Prop := ∀ a ∈ c.args, ∃ b, a = .bytes b

/-- One bulk field: `$<len>\r\n<bytes>\r\n`. -/
def bulk (x : Bytes) : Bytes :=
  [36] ++ strconv.formatUint x.length ++ [13, 10] ++ x ++ [13, 10]

/-- A multi-bulk request: `*<N>\r\n` and then `N` bulk fields. -/
def request (fields : List Bytes) : Bytes :=
  [42] ++ strconv.formatUint fields.length ++ [13, 10] ++ (fields.map bulk).flatten

end Redis

namespace Redis

/-! ## A reference reader of the request grammar -/

/-- Read decimal digits, most significant first, up to the first byte that is
not a digit. -/
def readDigits : Nat → Bytes → Nat × Bytes
  | acc, [] => (acc, [])
  | acc, b :: bs =>
    if 48 ≤ b ∧ b ≤ 57 then readDigits (10 * acc + (b - 48)) bs else (acc, b :: bs)

/-- Read a length line: at least one digit, then CR LF. -/
def readLength (input : Bytes) : Option (Nat × Bytes) :=
  match input with
  | [] => none
  | b :: _ =>
    if 48 ≤ b ∧ b ≤ 57 then
      match readDigits 0 input with
      | (n, 13 :: 10 :: rest) => some (n, rest)
      | _ => none
    else none

/-- Read one bulk field: `$`, the length line, exactly that many bytes, CR LF. -/
def readBulk (input : Bytes) : Option (Bytes × Bytes) :=
  match input with
  | 36 :: r =>
    match readLength r with
    | some (len, r2) =>
      if len ≤ r2.length then
        match r2.drop len with
        | 13 :: 10 :: r3 => some (r2.take len, r3)
        | _ => none
      else none
    | none => none
  | _ => none

/-- Read `n` bulk fields. -/
def readBulks : Nat → Bytes → Option (List Bytes × Bytes)
  | 0, input => some ([], input)
  | n + 1, input =>
    match readBulk input with
    | some (x, r) =>
      match readBulks n r with
      | some (xs, r2) => some (x :: xs, r2)
      | none => none
    | none => none

/-- Read a request: `*`, the field count line, then that many bulk fields.
The result is the fields and the input that is left. -/
def readRequest (input : Bytes) : Option (List Bytes × Bytes) :=
  match input with
  | 42 :: r =>
    match readLength r with
    | some (n, r2) => readBulks n r2
    | none => none
  | _ => none

end Redis

namespace Redis

/-! ## command.go: `Client.send`

Every call of `send` has a number. A call goes through the statements of
`send` one at a time, and the calls of different goroutines interleave. The
channel `writeSem` holds the connection while no call is writing; `queue`
holds the parsers sent on `c.queue` that the read routine has not taken yet,
`taken` those it has taken. -/

/-- Where a call of `send` stands. -/
inductive SendPc where
  /-- At the `select`. -/
  | start
  /-- Took the connection from `writeSem`; before `conn.Write`. -/
  | holding (conn : Nat)
  /-- `conn.Write` succeeded; before `c.queue <- callback`. -/
  | written (conn : Nat)
  /-- The parser is enqueued; before `c.writeSem <- conn`. -/
  | queued (conn : Nat)
  /-- The call returned this error (`none` is `nil`). -/
  | returned (err : Option Nat)
  deriving DecidableEq, Repr

/-- The call is between taking the connection and giving it back. -/
def SendPc.critical : SendPc → Bool
  | .holding _ => true
  | .written _ => true
  | .queued _ => true
  | _ => false

/-- The part of a `Client` that `send` works on. -/
structure Client where
  /-- The content of the channel `writeSem`. -/
  writeSem : Option Nat
  /-- The calls whose parser is in the channel `queue`, oldest first. -/
  queue : List Nat
  /-- The calls whose parser the read routine has taken, oldest first. -/
  taken : List Nat
  /-- The calls whose frame `conn.Write` has written, oldest first. -/
  wire : List Nat
  /-- How many times `writeErr` has been signalled. -/
  writeErr : Nat
  /-- Where each call stands. -/
  pc : Nat → SendPc

/-- A connected client on which no call has started. -/
def Client.init (conn : Nat) : Client :=
  { writeSem := some conn, queue := [], taken := [], wire := [], writeErr := 0,
    pc := fun _ => .start }

/-- Move call `i` to `p`. -/
def Client.setPc (s : Client) (i : Nat) (p : SendPc) : Client :=
  { s with pc := fun j => if j = i then p else s.pc j }

/-- One statement of one call of `send`, or one receive of the read routine. -/
inductive SendAction where
  /-- `case conn = <-c.writeSem`. -/
  | acquire (i : Nat)
  /-- `case err := <-c.offline: return err`, with the value received. -/
  | offline (i : Nat) (err : Option Nat)
  /-- `conn.Write(buf)` returns without error. -/
  | writeOk (i : Nat)
  /-- `conn.Write(buf)` returns the error `err`: `c.writeErr <- struct{}{}`
  and `return err`. -/
  | writeFail (i : Nat) (err : Nat)
  /-- `c.queue <- callback`. -/
  | enqueue (i : Nat)
  /-- `c.writeSem <- conn`, `writeBuffers.Put(&buf)` and `return nil`. -/
  | release (i : Nat)
  /-- The read routine receives the oldest parser from `c.queue`. -/
  | take
  deriving DecidableEq, Repr

/-- Go `Client.send`, one statement at a time; `none` when the statement is
not the next one of that call, or when it blocks. -/
def Client.step (s : Client) : SendAction → Option Client
  | .acquire i =>
    match s.pc i, s.writeSem with
    | .start, some conn => some ({ s with writeSem := none }.setPc i (.holding conn))
    | _, _ => none
  | .offline i err =>
    match s.pc i with
    | .start => some (s.setPc i (.returned err))
    | _ => none
  | .writeOk i =>
    match s.pc i with
    | .holding conn => some ({ s with wire := s.wire ++ [i] }.setPc i (.written conn))
    | _ => none
  | .writeFail i err =>
    match s.pc i with
    | .holding _ => some ({ s with writeErr := s.writeErr + 1 }.setPc i (.returned (some err)))
    | _ => none
  | .enqueue i =>
    match s.pc i with
    | .written conn => some ({ s with queue := s.queue ++ [i] }.setPc i (.queued conn))
    | _ => none
  | .release i =>
    match s.pc i with
    | .queued conn => some ({ s with writeSem := some conn }.setPc i (.returned none))
    | _ => none
  | .take =>
    match s.queue with
    | j :: q => some { s with queue := q, taken := s.taken ++ [j] }
    | [] => none

/-- Run a sequence of statements. -/
def Client.run (s : Client) : List SendAction → Option Client
  | [] => some s
  | a :: as =>
    match s.step a with
    | some t => t.run as
    | none => none

/-- The states that interleaved calls of `send` reach from a connected
client. -/
def Client.Reachable (s : Client) : Prop :=
  ∃ conn acts, (Client.init conn).run acts = some s

/-- The parsers enqueued so far, in the order of their enqueueing. -/
def Client.enqueued (s : Client) : List Nat := s.taken ++ s.queue

/-- An interleaving of three calls: call 0 completes, call 1 has written
its frame, call 2 waits for the connection. -/
def Client.sampleActs : List SendAction :=
  [.acquire 0, .writeOk 0, .enqueue 0, .release 0, .take, .acquire 1, .writeOk 1]

/-- The state after `sampleActs`. -/
def Client.sample : Client :=
  ((Client.init 7).run Client.sampleActs).getD (Client.init 7)

/-- The sample interleaving continued: call 1 completes and call 2 takes the
connection. -/
def Client.sampleHoldingActs : List SendAction :=
  Client.sampleActs ++ [.enqueue 1, .release 1, .acquire 2]

/-- The state after `sampleHoldingActs`: the write of call 2 is next. -/
def Client.sampleHolding : Client :=
  ((Client.init 7).run Client.sampleHoldingActs).getD (Client.init 7)

/-- The state after `sampleHolding` when the write of call 2 fails with
error 9. -/
def Client.sampleFailed : Client :=
  (Client.sampleHolding.step (.writeFail 2 9)).getD (Client.init 7)

/-- What follows the failed write: call 3 and call 4 receive from `offline`,
the read routine takes the parser of call 1. -/
def Client.sampleAfterActs : List SendAction :=
  [.offline 3 (some 5), .take, .offline 4 (some 5)]

/-- The state after `sampleAfterActs`. -/
def Client.sampleAfter : Client :=
  (Client.sampleFailed.run Client.sampleAfterActs).getD (Client.init 7)

/-- The connection is gone for good: `writeSem` is empty and no call holds the
connection. -/
def Client.Dead (s : Client) : Prop :=
  s.writeSem = none ∧ ∀ i, (s.pc i).critical = false

/-- What holds in every state of interleaved `send` calls: at most one call
is between taking and returning the connection, the channel `writeSem` is
empty meanwhile, the frames written are the parsers enqueued plus the frame of
the call that has written and not yet enqueued, and an enqueued parser belongs
to a call past its enqueue statement. -/
structure Client.Inv (s : Client) : Prop where
  excl : ∀ i j, (s.pc i).critical = true → (s.pc j).critical = true → i = j
  sem : ∀ i, (s.pc i).critical = true → s.writeSem = none
  order : (∃ i conn, s.pc i = .written conn ∧ s.wire = s.enqueued ++ [i]) ∨
    ((∀ i conn, s.pc i ≠ .written conn) ∧ s.wire = s.enqueued)
  enq : ∀ i ∈ s.enqueued, (∃ conn, s.pc i = .queued conn) ∨ s.pc i = .returned none

end Redis

namespace Redis

/-! ## pubsub.go: the `Listener`

The goroutine of `connectLoop` (with `receiveLoop` inside it) and the callers
of `SUBSCRIBE`, of the unsubscribe functions and of `Close` interleave at the
mutex and at the blocking operations. Message queues and connections are
numbered in the order of their creation. What the listener does to channels
and connections is recorded in logs. -/

/-- Go `map[string]V` lookup, `v, ok := m[k]`. -/
def mapGet {V : Type} : List (String × V) → String → Option V
  | [], _ => none
  | (k2, v) :: m, k => if k2 = k then some v else mapGet m k

/-- Go `delete(m, k)`. -/
def mapDelete {V : Type} (m : List (String × V)) (k : String) : List (String × V) :=
  m.filter (fun e => decide (e.1 ≠ k))

/-- Go `m[k] = v`. -/
def mapSet {V : Type} : List (String × V) → String → V → List (String × V)
  | [], k, v => [(k, v)]
  | (k2, v2) :: m, k, v => if k2 = k then (k, v) :: m else (k2, v2) :: mapSet m k v

/-- The keys of a map, in the order a `range` loop visits them. -/
def mapKeys {V : Type} (m : List (String × V)) : List String := m.map Prod.fst

/-- Go `m[k] = struct{}{}` on a `map[string]struct{}`. -/
def setAdd (m : List String) (k : String) : List String :=
  if k ∈ m then m else m ++ [k]

/-- Go `delete(m, k)` on a `map[string]struct{}`. -/
def setDelete (m : List String) (k : String) : List String :=
  m.filter (fun e => decide (e ≠ k))

/-- A request handed to `submit`, by the channel names it carries. -/
inductive Request where
  | subscribe (channels : List String)
  | unsubscribe (channel : String)
  deriving DecidableEq, Repr

/-- Where an error sent on `errs` comes from. -/
inductive ErrKind where
  | dial
  | handshake
  | receive
  | submit
  deriving DecidableEq, Repr

/-- Where `connectLoop` stands. -/
inductive LoopPc where
  /-- At the head of the loop, before `DialContext`. -/
  | dial
  /-- The dial succeeded; before `initAUTH` and `initSELECT`. -/
  | handshake (conn : Nat)
  /-- The handshakes succeeded; before the `l.mutex.Lock()` that publishes the
  connection. -/
  | reconcile (conn : Nat)
  /-- The pending unsubscribes are applied; before `if len(l.subs) != 0`. -/
  | resubscribe (conn : Nat)
  /-- In `receiveLoop`. -/
  | receive (conn : Nat)
  /-- The `receiveLoop` returned and `l.conn` is `nil` again; before the error
  report, `conn.Close()` and the reset of `l.channels`. -/
  | ended (conn : Nat)
  /-- The `connectLoop` returned and its deferred function ran. -/
  | terminated
  deriving DecidableEq, Repr

/-- One millisecond, as a `time.Duration`. -/
def millisecond : Nat := 1000000

/-- The fields of a `Listener`, and the effects of its goroutines. -/
structure Listener where
  /-- The field `conn`; `none` is `nil`. -/
  conn : Option Nat
  /-- The field `subs`: the message queue of each requested name. -/
  subs : List (String × Nat)
  /-- The field `unsubs`. -/
  unsubs : List String
  /-- The field `channels`: the confirmed names with their message queue. -/
  channels : List (String × Nat)
  /-- The context `ctx` is cancelled. -/
  cancelled : Bool
  /-- The message queues closed so far, one entry for each `close`. -/
  closedQueues : List Nat
  /-- The errors sent on `errs`. -/
  errs : List ErrKind
  /-- The channel `errs` is closed. -/
  errsClosed : Bool
  /-- The channel `closed` is closed. -/
  closed : Bool
  /-- The messages handed to message queues, oldest first. -/
  delivered : List (Nat × Bytes)
  /-- The requests handed to `submit`, with their connection. -/
  submitted : List (Nat × Request)
  /-- The connections closed, one entry for each `conn.Close()`. -/
  connClosed : List Nat
  /-- The number of the next message queue made. -/
  nextQueue : Nat
  /-- The number of the next connection dialed. -/
  nextConn : Nat
  /-- Where `connectLoop` stands. -/
  pc : LoopPc
  /-- The variable `reconnectDelay` of `connectLoop`. -/
  reconnectDelay : Nat
  /-- The durations `connectLoop` waited, oldest first. -/
  waits : List Nat
  /-- The push frames the `receiveLoop` of the latest connection has handled,
  by type and name, oldest first. -/
  pushLog : List (String × String)
  deriving DecidableEq, Repr

/-- Go `NewListener`, at the start of `connectLoop`. -/
def Listener.init : Listener :=
  { conn := none, subs := [], unsubs := [], channels := [], cancelled := false,
    closedQueues := [], errs := [], errsClosed := false, closed := false, delivered := [],
    submitted := [], connClosed := [], nextQueue := 0, nextConn := 0, pc := .dial,
    reconnectDelay := 0, waits := [], pushLog := [] }

/-- Go `Listener.submit`: write the request; when the write fails and the
context is not cancelled, report the error and close the connection. -/
def Listener.submit (s : Listener) (conn : Nat) (req : Request) (writeOk : Bool) : Listener :=
  let s := { s with submitted := s.submitted ++ [(conn, req)] }
  if writeOk then s
  else if s.cancelled then s
  else { s with errs := s.errs ++ [.submit], connClosed := s.connClosed ++ [conn] }

/-- Go `Listener.SUBSCRIBE`: the new state and the message queue returned.
The unsubscribe function returned is `Listener.unsubscribe` at the same
name. -/
def Listener.SUBSCRIBE (s : Listener) (channel : String) (writeOk : Bool) : Listener × Nat :=
  let fresh := s.nextQueue
  let s := { s with nextQueue := s.nextQueue + 1 }
  let r : Listener × Nat :=
    match mapGet s.subs channel with
    | some current => (s, current)
    | none => ({ s with subs := mapSet s.subs channel fresh }, fresh)
  let s := r.1
  let s :=
    match s.conn with
    | some conn => s.submit conn (.subscribe [channel]) writeOk
    | none => s
  (s, r.2)

/-- The unsubscribe function that `SUBSCRIBE(channel)` returns. -/
def Listener.unsubscribe (s : Listener) (channel : String) (writeOk : Bool) : Listener :=
  let s := { s with unsubs := setAdd s.unsubs channel }
  match s.conn with
  | some conn => s.submit conn (.unsubscribe channel) writeOk
  | none => s

/-- Go `Listener.Close` up to the wait for `closed`: cancel the context and
close the connection, if any. -/
def Listener.Close (s : Listener) : Listener :=
  let conn := s.conn
  let s := { s with cancelled := true }
  match conn with
  | some c => { s with connClosed := s.connClosed ++ [c] }
  | none => s

/-- The deferred function of `connectLoop`. -/
def Listener.shutdown (s : Listener) : Listener :=
  { s with errsClosed := true, closedQueues := s.closedQueues ++ s.subs.map Prod.snd,
           closed := true, pc := .terminated }

/-- The loop `for name := range l.unsubs` of `connectLoop`, over the names in
the order the loop visits them. -/
def Listener.applyUnsubs : List String → Listener → Listener
  | [], s => s
  | name :: names, s =>
    let s := { s with unsubs := setDelete s.unsubs name }
    let s :=
      match mapGet s.subs name with
      | some sub => { s with subs := mapDelete s.subs name,
                             closedQueues := s.closedQueues ++ [sub] }
      | none => s
    Listener.applyUnsubs names s

/-- The queues that `applyUnsubs` closes, in the order of their closing. -/
def closedBy : List String → List (String × Nat) → List Nat
  | [], _ => []
  | name :: names, m =>
    (match mapGet m name with
      | some q => [q]
      | none => []) ++ closedBy names (mapDelete m name)

/-- The locked section of `connectLoop` that publishes the connection and
applies the pending unsubscribes, when the context is not cancelled. -/
def Listener.reconcile (s : Listener) (conn : Nat) : Listener :=
  let s := { s with conn := some conn }
  let s := Listener.applyUnsubs s.unsubs s
  { s with pc := .resubscribe conn }

/-- The resubscribe request of `connectLoop`, up to the entry into
`receiveLoop`. -/
def Listener.resubscribe (s : Listener) (conn : Nat) (writeOk : Bool) : Listener :=
  let s :=
    if s.subs.length ≠ 0 then s.submit conn (.subscribe (mapKeys s.subs)) writeOk
    else s
  { s with pc := .receive conn, pushLog := [] }

/-- One round of `receiveLoop` on a decoded push frame. -/
def Listener.dispatch (s : Listener) (pushType dest : String) (message : Bytes) : Listener :=
  let s := { s with pushLog := s.pushLog ++ [(pushType, dest)] }
  if pushType = "message" then
    match mapGet s.channels dest with
    | some ch => { s with delivered := s.delivered ++ [(ch, message)] }
    | none => s
  else if pushType = "subscribe" then
    match mapGet s.channels dest with
    | some _ => s
    | none =>
      match mapGet s.subs dest with
      | some sub => { s with channels := mapSet s.channels dest sub }
      | none => s
  else if pushType = "unsubscribe" then
    let s := { s with channels := mapDelete s.channels dest }
    let sub := mapGet s.subs dest
    let s := { s with subs := mapDelete s.subs dest, unsubs := setDelete s.unsubs dest }
    match sub with
    | some q => { s with closedQueues := s.closedQueues ++ [q] }
    | none => s
  else s

/-- Go `receiveLoop` on the push frames that `decodePushArray` returns before
it fails: one round of `dispatch` for each. -/
def Listener.receiveLoop (s : Listener) : List (String × String × Bytes) → Listener
  | [] => s
  | (pushType, dest, message) :: frames =>
    Listener.receiveLoop (s.dispatch pushType dest message) frames

/-- One step of one goroutine of the listener. -/
inductive Action where
  /-- A caller runs `SUBSCRIBE(channel)`; `writeOk` tells whether the write
  of `submit` succeeds. -/
  | SUBSCRIBE (channel : String) (writeOk : Bool)
  /-- A caller runs the unsubscribe function of `channel`. -/
  | unsubscribe (channel : String) (writeOk : Bool)
  /-- A caller runs `Close` up to the wait for `closed`. -/
  | Close
  /-- `DialContext` fails. -/
  | dialFail
  /-- `DialContext` succeeds. -/
  | dialOk
  /-- `initAUTH` or `initSELECT` fails. -/
  | handshakeFail
  /-- `initAUTH` and `initSELECT` succeed. -/
  | handshakeOk
  /-- The locked section that publishes the connection and applies the
  pending unsubscribes. -/
  | connected
  /-- The resubscribe request, then the entry into `receiveLoop`. -/
  | resubscribe (writeOk : Bool)
  /-- The `receiveLoop` decodes and handles a push frame. -/
  | push (pushType dest : String) (message : Bytes)
  /-- The `receiveLoop` returns an error and `l.conn` is set to `nil`. -/
  | receiveErr
  /-- The error report, `conn.Close()` and the reset of `l.channels`. -/
  | teardown
  deriving DecidableEq, Repr

/-- The next value of `reconnectDelay` after a failed dial. -/
def nextDelay (reconnectDelay : Nat) : Nat :=
  if reconnectDelay < 512 * millisecond then 2 * reconnectDelay + millisecond
  else reconnectDelay

/-- Go `connectLoop` with its `receiveLoop`, and the calls of `SUBSCRIBE`, of
the unsubscribe functions and of `Close`, one step at a time; `none` when the
step is not the next one of its goroutine. -/
def Listener.step (s : Listener) : Action → Option Listener
  | .SUBSCRIBE channel writeOk => some (s.SUBSCRIBE channel writeOk).1
  | .unsubscribe channel writeOk => some (s.unsubscribe channel writeOk)
  | .Close => some s.Close
  | .dialFail =>
    match s.pc with
    | .dial =>
      if s.cancelled then some s.shutdown
      else some { s with waits := s.waits ++ [s.reconnectDelay], errs := s.errs ++ [.dial],
                         reconnectDelay := nextDelay s.reconnectDelay }
    | _ => none
  | .dialOk =>
    match s.pc with
    | .dial =>
      if s.cancelled then none
      else some { s with nextConn := s.nextConn + 1, reconnectDelay := 0,
                         pc := .handshake s.nextConn }
    | _ => none
  | .handshakeFail =>
    match s.pc with
    | .handshake conn =>
      some { s with errs := s.errs ++ [.handshake], connClosed := s.connClosed ++ [conn],
                    waits := s.waits ++ [512 * millisecond], pc := .dial }
    | _ => none
  | .handshakeOk =>
    match s.pc with
    | .handshake conn => some { s with pc := .reconcile conn }
    | _ => none
  | .connected =>
    match s.pc with
    | .reconcile conn =>
      if s.cancelled then some { s with connClosed := s.connClosed ++ [conn] }.shutdown
      else some (s.reconcile conn)
    | _ => none
  | .resubscribe writeOk =>
    match s.pc with
    | .resubscribe conn => some (s.resubscribe conn writeOk)
    | _ => none
  | .push pushType dest message =>
    match s.pc with
    | .receive _ => some (s.dispatch pushType dest message)
    | _ => none
  | .receiveErr =>
    match s.pc with
    | .receive conn => some { s with conn := none, pc := .ended conn }
    | _ => none
  | .teardown =>
    match s.pc with
    | .ended conn =>
      let s := if s.cancelled then s else { s with errs := s.errs ++ [.receive] }
      some { s with connClosed := s.connClosed ++ [conn], channels := [], pc := .dial }
    | _ => none

/-- Run a sequence of steps. -/
def Listener.run (s : Listener) : List Action → Option Listener
  | [] => some s
  | a :: as =>
    match s.step a with
    | some t => t.run as
    | none => none

/-- The states a listener reaches from `NewListener`. -/
def Listener.Reachable (s : Listener) : Prop :=
  ∃ acts, Listener.init.run acts = some s

/-- A listener with two requested names, two pending unsubscribes and a
fresh connection about to be published. -/
def Listener.sampleReconcileActs : List Action :=
  [.SUBSCRIBE "x" true, .SUBSCRIBE "y" true, .unsubscribe "y" true, .unsubscribe "w" true,
    .dialOk, .handshakeOk]

/-- The state after `sampleReconcileActs`. -/
def Listener.sampleReconcile : Listener :=
  (Listener.init.run Listener.sampleReconcileActs).getD Listener.init

/-- The step takes `name` out of the intent map: an `unsubscribe` push frame
for it, or the reconciliation of a new connection while the name is pending
for unsubscription. -/
def Action.removes (name : String) (s : Listener) : Action → Bool
  | .push pushType dest _ => decide (pushType = "unsubscribe") && decide (dest = name)
  | .connected => decide (name ∈ s.unsubs) && !s.cancelled
  | _ => false

/-- Run a sequence of steps none of which takes `name` out of the intent
map. -/
def Listener.runKeeping (name : String) : Listener → List Action → Option Listener
  | s, [] => some s
  | s, a :: as =>
    if a.removes name s then none
    else
      match s.step a with
      | some t => Listener.runKeeping name t as
      | none => none

/-- What lies between two calls of `SUBSCRIBE("x")` in the sample below:
other callers subscribe and unsubscribe, the connection comes up, and the
name is confirmed. -/
def Listener.sampleMid : List Action :=
  [.SUBSCRIBE "y" true, .unsubscribe "x" true, .unsubscribe "y" true, .dialFail, .dialOk,
    .handshakeOk, .SUBSCRIBE "z" true]

/-- In the push frames `log` there is a `subscribe` frame for `name` with no
`unsubscribe` frame for it afterwards. -/
def confirmedOn (log : List (String × String)) (name : String) : Prop :=
  ∃ pre post, log = pre ++ ("subscribe", name) :: post ∧ ("unsubscribe", name) ∉ post

/-- The latest connection has ended and the next one has not started
delivering: `connectLoop` is not in `receiveLoop`. -/
def Listener.betweenConnections (s : Listener) : Prop :=
  match s.pc with
  | .receive _ => False
  | _ => True

/-- The routing table has been reset since the latest `receiveLoop`:
`connectLoop` is neither in `receiveLoop` nor between its return and the
reset of `l.channels`. -/
def Listener.afterReset (s : Listener) : Prop :=
  match s.pc with
  | .receive _ => False
  | .ended _ => False
  | _ => True

/-- A connection on which `x` is confirmed is lost. -/
def Listener.sampleEndedActs : List Action :=
  [.SUBSCRIBE "x" true, .dialOk, .handshakeOk, .connected, .resubscribe true,
    .push "subscribe" "x" [], .push "message" "x" [104, 105], .receiveErr]

/-- The state after `sampleEndedActs`: the `receiveLoop` has returned, the
error is not yet reported. -/
def Listener.sampleEnded : Listener :=
  (Listener.init.run Listener.sampleEndedActs).getD Listener.init

instance (s : Listener) : Decidable s.betweenConnections := by
  unfold Listener.betweenConnections
  split <;> infer_instance

instance (s : Listener) : Decidable s.afterReset := by
  unfold Listener.afterReset
  split <;> infer_instance

/-- What holds of the routing table in every state of the listener: its
names are confirmed on the latest connection, and it is empty unless
`connectLoop` is in `receiveLoop` or between its return and the reset. -/
structure Listener.TableInv (s : Listener) : Prop where
  confirmed : ∀ n, n ∈ mapKeys s.channels → confirmedOn s.pushLog n
  empty : s.afterReset → s.channels = []

end Redis

namespace Redis

/-! ## pubsub.go: invariants, results and samples of the `Listener` -/

/-- What holds of the maps of a listener in every state: the routing table
is a part of the intent map, the queues of the intent map are queues already
made and differ from name to name, the field `conn` is set only between the
publication of a connection and the return of its `receiveLoop`, and the
channel `closed` is closed exactly when `connectLoop` has returned, which
needs a cancelled context and closes `errs`. -/
structure Listener.Inv (s : Listener) : Prop where
  sub : ∀ n q, mapGet s.channels n = some q → mapGet s.subs n = some q
  fresh : ∀ n q, mapGet s.subs n = some q → q < s.nextQueue
  inj : ∀ n m q, mapGet s.subs n = some q → mapGet s.subs m = some q → n = m
  connPc : ∀ c, s.conn = some c → s.pc = .resubscribe c ∨ s.pc = .receive c
  term : s.closed = true → s.pc = .terminated ∧ s.cancelled = true ∧ s.errsClosed = true
  termPc : s.pc = .terminated → s.closed = true

/-- The payloads handed to the queue `q`, oldest first. -/
def payloadsOf (q : Nat) (d : List (Nat × Bytes)) : List Bytes :=
  (d.filter (fun e => decide (e.1 = q))).map Prod.snd

/-- The payload of the step, when it is a `message` push frame whose name is
in the routing table with the queue `q`. -/
def Listener.messageFor (q : Nat) (s : Listener) : Action → List Bytes
  | .push pushType dest message =>
    if pushType = "message" ∧ mapGet s.channels dest = some q then [message] else []
  | _ => []

/-- The payloads of the `message` push frames of a run whose name is, when
the frame arrives, in the routing table with the queue `q`, oldest first. -/
def Listener.messagesFor (q : Nat) : Listener → List Action → List Bytes
  | _, [] => []
  | s, a :: as =>
    s.messageFor q a ++
    (match s.step a with
      | some t => Listener.messagesFor q t as
      | none => [])

/-- A connection is up and its `receiveLoop` has handled no frame yet; the
name `x` is requested. -/
def Listener.sampleResubscribedActs : List Action :=
  [.SUBSCRIBE "x" true, .dialOk, .handshakeOk, .connected, .resubscribe true]

/-- The state after `sampleResubscribedActs`. -/
def Listener.sampleResubscribed : Listener :=
  (Listener.init.run Listener.sampleResubscribedActs).getD Listener.init

/-- The name `x` is confirmed on the connection, the name `y` is requested
and not confirmed. -/
def Listener.sampleReceivingActs : List Action :=
  Listener.sampleResubscribedActs ++ [.push "subscribe" "x" [], .SUBSCRIBE "y" true]

/-- The state after `sampleReceivingActs`. -/
def Listener.sampleReceiving : Listener :=
  (Listener.init.run Listener.sampleReceivingActs).getD Listener.init

/-- Messages for `x` and for `y`, with the confirmation of `y` between
them. -/
def Listener.sampleMessages : List Action :=
  [.push "message" "x" [1], .push "message" "y" [2], .push "subscribe" "y" [],
    .push "message" "y" [3], .push "message" "x" [4]]

/-- The queue `q`, handed out for the name `n`, is accounted for: the intent
map still holds it for `n` or it has been closed, and it has been closed once
`connectLoop` has returned. -/
def Listener.Accounted (n : String) (q : Nat) (s : Listener) : Prop :=
  (mapGet s.subs n = some q ∨ q ∈ s.closedQueues) ∧ (s.closed = true → q ∈ s.closedQueues)

/-- The step may take `n` out of the pending unsubscribes: an `unsubscribe`
push frame for `n`, or the locked section for a new connection. -/
def Action.clearsPending (n : String) : Action → Bool
  | .push pushType dest _ => decide (pushType = "unsubscribe") && decide (dest = n)
  | .connected => true
  | _ => false

/-- Between two reconnects the name `x` is unsubscribed, the server
confirms, and `x` is subscribed again; then the connection is lost and a new
one comes up. -/
def Listener.sampleResubscribeActs : List Action :=
  [.dialOk, .handshakeOk, .connected, .resubscribe true,
    .unsubscribe "x" true, .push "unsubscribe" "x" [], .SUBSCRIBE "x" true,
    .receiveErr, .teardown, .dialOk, .handshakeOk, .connected, .resubscribe true]

/-- The state after `sampleResubscribeActs`. -/
def Listener.sampleResubscribe : Listener :=
  (Listener.init.run Listener.sampleResubscribeActs).getD Listener.init

/-- While disconnected the name `x` is unsubscribed and then subscribed; a
connection comes up. -/
def Listener.samplePendingActs : List Action :=
  [.unsubscribe "x" true, .SUBSCRIBE "x" true, .SUBSCRIBE "y" true, .dialOk, .handshakeOk]

/-- The state after `samplePendingActs`. -/
def Listener.samplePending : Listener :=
  (Listener.init.run Listener.samplePendingActs).getD Listener.init

/-- The error `Listener.Close` returns: the result of `conn.Close()` when a
connection is published, otherwise `nil` (`none`). -/
def Listener.CloseErr (s : Listener) (connCloseErr : Option Nat) : Option Nat :=
  match s.conn with
  | some _ => connCloseErr
  | none => none

/-- After `SUBSCRIBE("y")` on a connected listener: the name is confirmed,
`Close` is called, the `receiveLoop` fails, the connection is torn down, and
the next dial fails on the cancelled context. -/
def Listener.sampleShutdownActs : List Action :=
  [.push "subscribe" "y" [], .Close, .receiveErr, .teardown, .dialFail]

/-- The state after `sampleResubscribedActs`, `SUBSCRIBE("y")` and
`sampleShutdownActs`: `connectLoop` has returned. -/
def Listener.sampleClosed : Listener :=
  ((Listener.sampleResubscribed.SUBSCRIBE "y" true).1.run Listener.sampleShutdownActs).getD
    Listener.init

/-- The wait before retry number `i`, counted from 0, of a run of
consecutive dial failures that starts with `reconnectDelay` at zero. -/
def backoff : Nat → Nat
  | 0 => 0
  | i + 1 => nextDelay (backoff i)

end Redis

namespace Redis

/-! ## command.go: the size field of `appendDecimal` -/

/-- The bytes of `appendDecimal buf v` that the function reserves at
`sizeOffset` and patches after the number is appended: one byte when
`sizeOneDecimal` holds, two bytes otherwise. -/
def appendDecimalSizeField (buf : Bytes) (v : Int) : Bytes :=
  ((appendDecimal buf v).drop buf.length).take
    (if decide (v > -100000000) && decide (v < 1000000000) then 1 else 2)

/-! ## pubsub.go: open and closed queues -/

/-- What holds of the closed queues of a listener in every state: the
intent map has each name once, no queue was closed twice, a closed queue is a
queue already made, and until `connectLoop` has returned no queue of the
intent map is closed. -/
structure Listener.OpenInv (s : Listener) : Prop where
  keys : (mapKeys s.subs).Nodup
  closedNodup : s.closedQueues.Nodup
  closedFresh : ∀ q, q ∈ s.closedQueues → q < s.nextQueue
  opened : s.closed = false → ∀ n q, mapGet s.subs n = some q → q ∉ s.closedQueues

/-- Two names are confirmed on a connection, then `x` is unsubscribed and
the server confirms. -/
def Listener.sampleUnsubscribedActs : List Action :=
  [.SUBSCRIBE "x" true, .SUBSCRIBE "y" true, .dialOk, .handshakeOk, .connected,
    .resubscribe true, .push "subscribe" "x" [], .push "subscribe" "y" [],
    .unsubscribe "x" true, .push "unsubscribe" "x" []]

/-- The state after `sampleUnsubscribedActs`. -/
def Listener.sampleUnsubscribed : Listener :=
  (Listener.init.run Listener.sampleUnsubscribedActs).getD Listener.init

end Redis

namespace Redis

/-! ## Decimal text -/

namespace strconv

theorem formatBits_acc (f u : Nat) (acc : Bytes) :
    formatBits f u acc = formatBits f u [] ++ acc := by
  induction f generalizing u acc with
  | zero => simp [formatBits]
  | succ f ih =>
    unfold formatBits
    split
    · rw [ih (u / 10) (_ :: acc), ih (u / 10) [_]]
      simp
    · simp

theorem formatBits_fuel (f g u : Nat) (hf : u ≤ f) (hg : u ≤ g) :
    formatBits f u [] = formatBits g u [] := by
  induction f generalizing g u with
  | zero =>
    have : u = 0 := by omega
    subst this
    cases g <;> simp [formatBits]
  | succ f ih =>
    by_cases hu : 10 ≤ u
    · obtain ⟨g, rfl⟩ : ∃ w, g = w + 1 := ⟨g - 1, by omega⟩
      have h1 : u / 10 ≤ f := by omega
      have h2 : u / 10 ≤ g := by omega
      simp only [formatBits, hu, if_true]
      rw [formatBits_acc f, formatBits_acc g, ih _ _ h1 h2]
    · cases g <;> simp [formatBits, hu]

theorem formatUint_lt (u : Nat) (h : u < 10) : formatUint u = [48 + u] := by
  unfold formatUint
  have h' : ¬ 10 ≤ u := by omega
  have hm : (48 + u) % 256 = 48 + u := by omega
  cases u with
  | zero => rfl
  | succ w => simp only [formatBits, h', if_false, hm]

theorem formatUint_ge (u : Nat) (h : 10 ≤ u) :
    formatUint u = formatUint (u / 10) ++ [48 + u % 10] := by
  unfold formatUint
  obtain ⟨w, rfl⟩ : ∃ w, u = w + 1 := ⟨u - 1, by omega⟩
  have h2 : (w + 1) / 10 ≤ w := by omega
  have hm : (48 + (w + 1) % 10) % 256 = 48 + (w + 1) % 10 := by omega
  simp only [formatBits, h, if_true, hm]
  rw [formatBits_acc w, formatBits_fuel w ((w + 1) / 10) ((w + 1) / 10) h2 le_rfl]

theorem formatUint_ne_nil (u : Nat) : formatUint u ≠ [] := by
  by_cases h : 10 ≤ u
  · rw [formatUint_ge u h]; simp
  · rw [formatUint_lt u (by omega)]; simp

theorem formatUint_length_pos (u : Nat) : 0 < (formatUint u).length :=
  List.length_pos.mpr (formatUint_ne_nil u)

theorem formatUint_length_le (k u : Nat) (h : u < 10 ^ (k + 1)) :
    (formatUint u).length ≤ k + 1 := by
  induction k generalizing u with
  | zero => rw [formatUint_lt u (by simpa using h)]; simp
  | succ k ih =>
    by_cases hu : 10 ≤ u
    · rw [formatUint_ge u hu]
      have : u / 10 < 10 ^ (k + 1) := by
        rw [Nat.div_lt_iff_lt_mul (by norm_num)]
        rw [pow_succ] at h; exact h
      have := ih _ this
      simp; omega
    · rw [formatUint_lt u (by omega)]; simp

theorem formatUint_length_gt (k u : Nat) (h : 10 ^ k ≤ u) :
    k < (formatUint u).length := by
  induction k generalizing u with
  | zero => exact formatUint_length_pos u
  | succ k ih =>
    have h10 : 10 ≤ u := by
      have : 10 ^ 1 ≤ 10 ^ (k + 1) := Nat.pow_le_pow_right (by norm_num) (by omega)
      omega
    rw [formatUint_ge u h10]
    have : 10 ^ k ≤ u / 10 := by
      rw [Nat.le_div_iff_mul_le (by norm_num)]
      rw [pow_succ] at h; exact h
    have := ih _ this
    simp; omega

theorem formatUint_digits (u : Nat) : ∀ b ∈ formatUint u, 48 ≤ b ∧ b ≤ 57 := by
  induction u using Nat.strong_induction_on with
  | _ u ih =>
    by_cases hu : 10 ≤ u
    · rw [formatUint_ge u hu]
      intro b hb
      rcases List.mem_append.mp hb with hb | hb
      · exact ih (u / 10) (by omega) b hb
      · simp at hb; subst hb; omega
    · rw [formatUint_lt u (by omega)]
      intro b hb
      simp at hb; subst hb; omega

theorem formatUint_value (u : Nat) :
    (formatUint u).foldl (fun acc b => 10 * acc + (b - 48)) 0 = u := by
  induction u using Nat.strong_induction_on with
  | _ u ih =>
    by_cases hu : 10 ≤ u
    · rw [formatUint_ge u hu, List.foldl_append, ih (u / 10) (by omega)]
      simp; omega
    · rw [formatUint_lt u (by omega)]
      simp

theorem formatUint_head (u : Nat) (h : (formatUint u).head? = some 48) :
    formatUint u = [48] := by
  induction u using Nat.strong_induction_on with
  | _ u ih =>
    by_cases hu : 10 ≤ u
    · exfalso
      rw [formatUint_ge u hu] at h
      have hne := formatUint_ne_nil (u / 10)
      have h' : (formatUint (u / 10)).head? = some 48 := by
        cases hq : formatUint (u / 10) with
        | nil => exact absurd hq hne
        | cons a t => rw [hq] at h; simpa using h
      have := ih (u / 10) (by omega) h'
      have hv := formatUint_value (u / 10)
      rw [this] at hv
      simp at hv
      omega
    · rw [formatUint_lt u (by omega)] at h ⊢
      simp at h
      simp [h]

theorem formatInt_eq (v : Int) (hv : isInt64 v) :
    formatInt v = if v < 0 then 45 :: formatUint v.natAbs else formatUint v.toNat := by
  unfold isInt64 at hv
  unfold formatInt
  by_cases h : v < 0
  · simp only [h, if_true]
    congr 2
    omega
  · simp only [h, if_false]
    congr 1
    omega

end strconv

theorem isDecimalOf_formatUint (n : Nat) : isDecimalOf (strconv.formatUint n) n :=
  ⟨strconv.formatUint_ne_nil n, strconv.formatUint_digits n, strconv.formatUint_value n,
    strconv.formatUint_head n⟩

theorem isSignedDecimalOf_formatInt (v : Int) (hv : isInt64 v) :
    isSignedDecimalOf (strconv.formatInt v) v := by
  rw [strconv.formatInt_eq v hv]
  unfold isSignedDecimalOf
  by_cases h : v < 0
  · simp only [h, if_true]
    exact ⟨rfl, isDecimalOf_formatUint _⟩
  · simp only [h, if_false]
    exact isDecimalOf_formatUint _

end Redis

namespace Redis

/-! ## The size field of `appendDecimal` -/

theorem formatInt_length_small (v : Int) (hlo : -100000000 < v) (hhi : v < 1000000000) :
    1 ≤ (strconv.formatInt v).length ∧ (strconv.formatInt v).length ≤ 9 := by
  rw [strconv.formatInt_eq v (by unfold isInt64; omega)]
  by_cases h : v < 0
  · simp only [h, if_true, List.length_cons]
    have := strconv.formatUint_length_le 7 v.natAbs (by norm_num; omega)
    omega
  · simp only [h, if_false]
    have := strconv.formatUint_length_le 8 v.toNat (by norm_num; omega)
    have := strconv.formatUint_length_pos v.toNat
    omega

theorem formatInt_length_large (v : Int) (hv : isInt64 v)
    (h : ¬ (-100000000 < v ∧ v < 1000000000)) :
    10 ≤ (strconv.formatInt v).length ∧ (strconv.formatInt v).length ≤ 20 := by
  rw [strconv.formatInt_eq v hv]
  unfold isInt64 at hv
  by_cases hneg : v < 0
  · simp only [hneg, if_true, List.length_cons]
    have := strconv.formatUint_length_le 18 v.natAbs (by norm_num; omega)
    have := strconv.formatUint_length_gt 8 v.natAbs (by norm_num; omega)
    omega
  · simp only [hneg, if_false]
    have := strconv.formatUint_length_le 18 v.toNat (by norm_num; omega)
    have := strconv.formatUint_length_gt 9 v.toNat (by norm_num; omega)
    omega

theorem formatUint_two (k : Nat) (h1 : 10 ≤ k) (h2 : k < 100) :
    strconv.formatUint k = [48 + k / 10, 48 + k % 10] := by
  rw [strconv.formatUint_ge k h1, strconv.formatUint_lt (k / 10) (by omega)]
  rfl

theorem appendDecimal_eq (buf : Bytes) (v : Int) (hv : isInt64 v) :
    appendDecimal buf v =
      buf ++ strconv.formatUint (strconv.formatInt v).length ++ [13, 10] ++ strconv.formatInt v := by
  by_cases h : -100000000 < v ∧ v < 1000000000
  · obtain ⟨h1, h2⟩ := formatInt_length_small v h.1 h.2
    have hd : decide (v > -100000000) && decide (v < 1000000000) = true := by
      simp [h.1, h.2]
    have hm : ((strconv.formatInt v).length + 48) % 256 = 48 + (strconv.formatInt v).length := by
      omega
    rw [strconv.formatUint_lt _ (by omega)]
    simp only [appendDecimal, hd, if_true, strconv.AppendInt, List.length_append,
      Nat.add_sub_cancel_left, hm]
    simp [h]
  · obtain ⟨h1, h2⟩ := formatInt_length_large v hv h
    have hd : (decide (v > -100000000) && decide (v < 1000000000)) = false := by
      rw [Bool.and_eq_false_iff]
      by_cases hlo : -100000000 < v
      · right; simp; omega
      · left; simp; omega
    have hm1 : ((strconv.formatInt v).length / 10 + 48) % 256
        = 48 + (strconv.formatInt v).length / 10 := by omega
    have hm2 : ((strconv.formatInt v).length % 10 + 48) % 256
        = 48 + (strconv.formatInt v).length % 10 := by omega
    simp only [appendDecimal, hd, strconv.AppendInt, List.length_append,
      Nat.add_sub_cancel_left, hm1, hm2]
    rw [formatUint_two _ h1 (by omega)]
    simp [h]

end Redis

namespace Redis

/-! ## Reading back what the encoder wrote -/

theorem readDigits_append (ds : Bytes) (hd : ∀ b ∈ ds, 48 ≤ b ∧ b ≤ 57) (acc : Nat)
    (r : Bytes) :
    readDigits acc (ds ++ 13 :: r) =
      (ds.foldl (fun acc b => 10 * acc + (b - 48)) acc, 13 :: r) := by
  induction ds generalizing acc with
  | nil => simp [readDigits]
  | cons a t ih =>
    have ha := hd a (List.mem_cons_self a t)
    simp only [List.cons_append, readDigits, ha, and_self, if_true, List.foldl_cons]
    exact ih (fun b hb => hd b (List.mem_cons_of_mem a hb)) _

theorem readLength_formatUint (n : Nat) (r : Bytes) :
    readLength (strconv.formatUint n ++ 13 :: 10 :: r) = some (n, r) := by
  have hne := strconv.formatUint_ne_nil n
  have hd := strconv.formatUint_digits n
  have hv := strconv.formatUint_value n
  have hr := readDigits_append (strconv.formatUint n) hd 0 (10 :: r)
  cases hq : strconv.formatUint n with
  | nil => exact absurd hq hne
  | cons a t =>
    rw [hq] at hd hv hr
    have ha := hd a (List.mem_cons_self a t)
    simp only [readLength, List.cons_append, ha, and_self, if_true]
    rw [List.cons_append] at hr
    rw [hr, hv]

theorem readBulk_bulk (x r : Bytes) : readBulk (bulk x ++ r) = some (x, r) := by
  have h := readLength_formatUint x.length (x ++ 13 :: 10 :: r)
  have e : bulk x ++ r = 36 :: (strconv.formatUint x.length ++ 13 :: 10 :: (x ++ 13 :: 10 :: r)) := by
    simp [bulk]
  rw [e]
  simp only [readBulk, h]
  simp

theorem readBulks_bulks (fields : List Bytes) (r : Bytes) :
    readBulks fields.length ((fields.map bulk).flatten ++ r) = some (fields, r) := by
  induction fields with
  | nil => simp [readBulks]
  | cons x t ih =>
    simp only [List.length_cons, List.map_cons, List.flatten_cons, List.append_assoc, readBulks,
      readBulk_bulk, ih]

theorem readRequest_request (fields : List Bytes) (r : Bytes) :
    readRequest (request fields ++ r) = some (fields, r) := by
  have h := readLength_formatUint fields.length ((fields.map bulk).flatten ++ r)
  have e : request fields ++ r =
      42 :: (strconv.formatUint fields.length ++ 13 :: 10 :: ((fields.map bulk).flatten ++ r)) := by
    simp [request]
  rw [e]
  simp only [readRequest, h]
  exact readBulks_bulks fields r

/-! ## The frames of the command wrappers -/

theorem Call.frame_eq_request (p : Bytes) (c : Call) (hc : c.valid) :
    c.frame p = request (bytesOfString c.wrapper.keyword :: c.args.map Arg.toBytes) := by
  cases c <;>
    simp [Call.valid, Call.args, Arg.valid] at hc <;>
    simp [Call.frame, Call.args, Call.wrapper, Wrapper.keyword, Arg.toBytes, request, bulk,
      Client.GET, Client.BytesGET, Client.SET, Client.BytesSET, Client.SETString, Client.DEL,
      Client.BytesDEL, Client.INCR, Client.BytesINCR, Client.INCRBY, Client.BytesINCRBY,
      Client.APPEND, Client.BytesAPPEND, Client.APPENDString, Client.LLEN, Client.BytesLLEN,
      Client.LINDEX, Client.BytesLINDEX, Client.LRANGE, Client.BytesLRANGE, Client.LPOP,
      Client.BytesLPOP, Client.RPOP, Client.BytesRPOP, Client.LTRIM, Client.BytesLTRIM,
      Client.LSET, Client.LSETString, Client.BytesLSET, Client.LPUSH, Client.BytesLPUSH,
      Client.LPUSHString, Client.RPUSH, Client.BytesRPUSH, Client.RPUSHString, Client.HGET,
      Client.BytesHGET, Client.HSET, Client.BytesHSET, Client.HSETString, Client.HDEL,
      Client.BytesHDEL, writeBuffer, appendBytes, appendString, appendBytesBytes, appendBytesInt,
      appendStringBytes, appendStringInt, appendStringString, appendBytesBytesBytes,
      appendBytesIntBytes, appendBytesIntInt, appendStringIntBytes, appendStringIntInt,
      appendStringIntString, appendStringStringBytes, appendStringStringString,
      strconv.AppendUint, appendDecimal_eq, hc, bytesOfString, strconv.formatUint,
      strconv.formatBits]

end Redis

namespace Redis

theorem Call.ofArgs_args (c : Call) : Call.ofArgs c.wrapper c.args = some c := by
  cases c <;> rfl

theorem Call.valid_of_bytesOnly (c : Call) (hc : c.bytesOnly) : c.valid := by
  intro a ha
  obtain ⟨b, rfl⟩ := hc a ha
  trivial

theorem args_eq_of_toBytes_eq (l l2 : List Arg) (h : ∀ a ∈ l, ∃ b, a = Arg.bytes b)
    (h2 : ∀ a ∈ l2, ∃ b, a = Arg.bytes b) (e : l.map Arg.toBytes = l2.map Arg.toBytes) :
    l = l2 := by
  induction l generalizing l2 with
  | nil =>
    cases l2 with
    | nil => rfl
    | cons a t => simp at e
  | cons a t ih =>
    cases l2 with
    | nil => simp at e
    | cons a2 t2 =>
      obtain ⟨b, rfl⟩ := h a (List.mem_cons_self a t)
      obtain ⟨b2, rfl⟩ := h2 a2 (List.mem_cons_self a2 t2)
      simp only [List.map_cons, List.cons.injEq, Arg.toBytes] at e
      rw [e.1, ih t2 (fun x hx => h x (List.mem_cons_of_mem _ hx))
        (fun x hx => h2 x (List.mem_cons_of_mem _ hx)) e.2]

/-- C1: for every command wrapper of `command.go` and every argument tuple
(integers in the `int64` range), the bytes handed to the send path are
`*N\r\n$L\r\nKW\r\n` followed by one bulk field `$<len>\r\n<bytes>\r\n` per
argument in call order: `KW` is the command keyword, `L` its byte length, `N`
is one plus the number of arguments, and the bytes of an argument are the
argument itself or, for an integer, its decimal rendering; every count is
written in decimal without leading zeros. -/
theorem wrapper_frame_wire_format (p : Bytes) (c : Call) (hc : c.valid) :
    c.frame p =
        [42] ++ strconv.formatUint (1 + c.args.length) ++ [13, 10] ++
          ([36] ++ strconv.formatUint (bytesOfString c.wrapper.keyword).length ++ [13, 10] ++
            bytesOfString c.wrapper.keyword ++ [13, 10]) ++
          (c.args.map (fun a =>
            [36] ++ strconv.formatUint a.toBytes.length ++ [13, 10] ++ a.toBytes ++
              [13, 10])).flatten ∧
      (∀ a ∈ c.args, (∀ b, a = Arg.bytes b → a.toBytes = b) ∧
        (∀ v, a = Arg.int v → isSignedDecimalOf a.toBytes v)) ∧
      (∀ n, isDecimalOf (strconv.formatUint n) n) := by
  refine ⟨?_, ?_, isDecimalOf_formatUint⟩
  · rw [Call.frame_eq_request p c hc]
    simp [request, bulk, Nat.add_comm, Function.comp_def]
  · intro a ha
    refine ⟨?_, ?_⟩
    · rintro b rfl; rfl
    · rintro v rfl
      exact isSignedDecimalOf_formatInt v (hc _ ha)

/-- C1, at `SET("k","v")` and at `LRANGE("k", 0, -1)`. -/
theorem wrapper_frame_wire_format_witness :
    (Call.SET (bytesOfString "k") (bytesOfString "v")).valid ∧
      (Call.SET (bytesOfString "k") (bytesOfString "v")).frame [1, 2, 3] =
        bytesOfString "*3\r\n$3\r\nSET\r\n$1\r\nk\r\n$1\r\nv\r\n" ∧
      (Call.LRANGE (bytesOfString "k") 0 (-1)).valid ∧
      (Call.LRANGE (bytesOfString "k") 0 (-1)).frame [] =
        bytesOfString "*4\r\n$6\r\nLRANGE\r\n$1\r\nk\r\n$1\r\n0\r\n$2\r\n-1\r\n" := by
  have h1 : (Call.SET (bytesOfString "k") (bytesOfString "v")).valid := by
    intro a ha
    simp [Call.args] at ha
    rcases ha with rfl | rfl <;> trivial
  have h2 : (Call.LRANGE (bytesOfString "k") 0 (-1)).valid := by
    intro a ha
    simp [Call.args] at ha
    rcases ha with rfl | rfl | rfl
    · trivial
    · show isInt64 0; decide
    · show isInt64 (-1); decide
  exact ⟨h1, (wrapper_frame_wire_format [1, 2, 3] _ h1).1.trans (by decide), h2,
    (wrapper_frame_wire_format [] _ h2).1.trans (by decide)⟩

/-- C2: for every buffer and every `int64` value `v`, `appendDecimal`
returns the buffer followed by `D(n)`, CR LF and `s`, where `s` is the decimal
rendering of `v` (a minus sign for a negative number, no leading zeros), `n`
is the byte length of `s` and `D(n)` is `n` in decimal without leading zeros. -/
theorem appendDecimal_spec (buf : Bytes) (v : Int) (hv : isInt64 v) :
    appendDecimal buf v =
        buf ++ strconv.formatUint (strconv.formatInt v).length ++ [13, 10] ++
          strconv.formatInt v ∧
      isSignedDecimalOf (strconv.formatInt v) v ∧
      isDecimalOf (strconv.formatUint (strconv.formatInt v).length)
        (strconv.formatInt v).length :=
  ⟨appendDecimal_eq buf v hv, isSignedDecimalOf_formatInt v hv, isDecimalOf_formatUint _⟩

/-- C2, at zero, at a negative number and at the least `int64`. -/
theorem appendDecimal_spec_witness :
    isInt64 0 ∧ appendDecimal [36] 0 = bytesOfString "$1\r\n0" ∧
      isInt64 (-12) ∧ appendDecimal [36] (-12) = bytesOfString "$3\r\n-12" ∧
      isInt64 (-9223372036854775808) ∧
      appendDecimal [36] (-9223372036854775808) = bytesOfString "$20\r\n-9223372036854775808" :=
  ⟨by decide, (appendDecimal_spec [36] 0 (by decide)).1.trans (by decide),
    by decide, (appendDecimal_spec [36] (-12) (by decide)).1.trans (by decide),
    by decide, (appendDecimal_spec [36] (-9223372036854775808) (by decide)).1.trans (by decide)⟩

/-- C3: for every buffer and every byte string `a`, whatever its bytes,
`appendBytes` and `appendString` return the buffer followed by the decimal
length of `a` (no leading zeros), CR LF, the bytes of `a` unchanged and CR LF;
after the `$` that ends the prefix this is exactly one bulk field. -/
theorem appendBytes_spec (buf a : Bytes) :
    appendBytes buf a = buf ++ strconv.formatUint a.length ++ [13, 10] ++ a ++ [13, 10] ∧
      appendString buf a = buf ++ strconv.formatUint a.length ++ [13, 10] ++ a ++ [13, 10] ∧
      isDecimalOf (strconv.formatUint a.length) a.length ∧
      appendBytes (buf ++ [36]) a = buf ++ bulk a ∧
      appendString (buf ++ [36]) a = buf ++ bulk a ∧
      readBulk (bulk a) = some (a, []) := by
  refine ⟨?_, ?_, isDecimalOf_formatUint _, ?_, ?_, ?_⟩
  · simp [appendBytes, strconv.AppendUint]
  · simp [appendString, strconv.AppendUint]
  · simp [appendBytes, strconv.AppendUint, bulk]
  · simp [appendString, strconv.AppendUint, bulk]
  · simpa using readBulk_bulk a []

/-- C4: for every wrapper call whose arguments are all byte strings, whatever
their bytes, the reference reader applied to the frame consumes all of it and
returns the keyword and the arguments in call order; and two calls of the same
wrapper with different arguments never have the same frame. -/
theorem wrapper_frame_round_trip (p : Bytes) (c : Call) (hc : c.bytesOnly) :
    readRequest (c.frame p) =
        some (bytesOfString c.wrapper.keyword :: c.args.map Arg.toBytes, []) ∧
      (∀ i b, c.args.get? i = some (Arg.bytes b) →
        (c.args.map Arg.toBytes).get? i = some b) ∧
      (1 ≤ c.args.length ∧ c.args.length ≤ 3) ∧
      (∀ (p2 : Bytes) (c2 : Call), c2.bytesOnly → c2.wrapper = c.wrapper → c2 ≠ c →
        c2.frame p2 ≠ c.frame p) := by
  have hr : ∀ (q : Bytes) (d : Call), d.bytesOnly → readRequest (d.frame q) =
      some (bytesOfString d.wrapper.keyword :: d.args.map Arg.toBytes, []) := by
    intro q d hd
    rw [Call.frame_eq_request q d (Call.valid_of_bytesOnly d hd)]
    simpa using readRequest_request (bytesOfString d.wrapper.keyword :: d.args.map Arg.toBytes) []
  refine ⟨hr p c hc, ?_, ?_, ?_⟩
  · intro i b h
    simp [List.get?_eq_getElem?, List.getElem?_map] at h ⊢
    simp [h, Arg.toBytes]
  · cases c <;> simp [Call.args]
  · intro p2 c2 hc2 hw hne hf
    apply hne
    have e := hr p2 c2 hc2
    rw [hf, hr p c hc] at e
    simp only [Option.some.injEq, Prod.mk.injEq, List.cons.injEq, and_true] at e
    have ha := args_eq_of_toBytes_eq c2.args c.args hc2 hc e.2.symm
    have h1 := Call.ofArgs_args c2
    rw [hw, ha, Call.ofArgs_args c] at h1
    exact (Option.some.inj h1).symm

/-- C4, at `BytesSET` with a key that holds CR LF, `$` and `*`. -/
theorem wrapper_frame_round_trip_witness :
    (Call.BytesSET (bytesOfString "a\r\n$1*") (bytesOfString "")).bytesOnly ∧
      readRequest ((Call.BytesSET (bytesOfString "a\r\n$1*") (bytesOfString "")).frame []) =
        some ([bytesOfString "SET", bytesOfString "a\r\n$1*", bytesOfString ""], []) := by
  have h : (Call.BytesSET (bytesOfString "a\r\n$1*") (bytesOfString "")).bytesOnly := by
    intro a ha
    simp [Call.args] at ha
    rcases ha with rfl | rfl
    · exact ⟨_, rfl⟩
    · exact ⟨_, rfl⟩
  exact ⟨h, (wrapper_frame_round_trip [] _ h).1⟩

end Redis

namespace Redis

/-! ## The invariant of the send path -/

theorem Client.setPc_pc (s : Client) (i : Nat) (p : SendPc) (j : Nat) :
    (s.setPc i p).pc j = if j = i then p else s.pc j := rfl

theorem Client.Inv_init (conn : Nat) : (Client.init conn).Inv := by
  refine ⟨?_, ?_, ?_, ?_⟩
  · intro i j h; simp [Client.init, SendPc.critical] at h
  · intro i h; simp [Client.init, SendPc.critical] at h
  · right; simp [Client.init, Client.enqueued]
  · intro i h; simp [Client.init, Client.enqueued] at h

theorem Client.Inv_step (s t : Client) (a : SendAction) (hs : s.Inv) (h : s.step a = some t) :
    t.Inv := by
  obtain ⟨hexcl, hsem, horder, henq⟩ := hs
  cases a with
  | acquire i =>
    simp only [Client.step] at h
    split at h
    · rename_i conn hpc hw
      cases h
      have hnc : ∀ j, (s.pc j).critical = true → False := by
        intro j hj; rw [hsem j hj] at hw; cases hw
      refine ⟨?_, ?_, ?_, ?_⟩
      · intro a b ha hb
        simp only [Client.setPc_pc] at ha hb
        by_cases hai : a = i
        · by_cases hbi : b = i
          · rw [hai, hbi]
          · simp only [hbi, if_false] at hb; exact (hnc b hb).elim
        · simp only [hai, if_false] at ha; exact (hnc a ha).elim
      · intro a _; rfl
      · rcases horder with ⟨k, c, hk, hwire⟩ | ⟨hno, hwire⟩
        · exact (hnc k (by rw [hk]; rfl)).elim
        · right
          refine ⟨?_, hwire⟩
          intro a c
          simp only [Client.setPc_pc]
          by_cases hai : a = i
          · simp [hai]
          · simp only [hai, if_false]; exact hno a c
      · intro a ha
        have := henq a ha
        simp only [Client.setPc_pc]
        by_cases hai : a = i
        · subst hai; rw [hpc] at this; simp at this
        · simp only [hai, if_false]; exact this
    · cases h
  | offline i err =>
    simp only [Client.step] at h
    split at h
    · rename_i hpc
      cases h
      refine ⟨?_, ?_, ?_, ?_⟩
      · intro a b ha hb
        simp only [Client.setPc_pc] at ha hb
        by_cases hai : a = i
        · simp [hai, SendPc.critical] at ha
        · by_cases hbi : b = i
          · simp [hbi, SendPc.critical] at hb
          · simp only [hai, hbi, if_false] at ha hb; exact hexcl a b ha hb
      · intro a ha
        simp only [Client.setPc_pc] at ha
        by_cases hai : a = i
        · simp [hai, SendPc.critical] at ha
        · simp only [hai, if_false] at ha; exact hsem a ha
      · rcases horder with ⟨k, c, hk, hwire⟩ | ⟨hno, hwire⟩
        · left
          refine ⟨k, c, ?_, hwire⟩
          simp only [Client.setPc_pc]
          by_cases hki : k = i
          · subst hki; rw [hpc] at hk; cases hk
          · simp only [hki, if_false]; exact hk
        · right
          refine ⟨?_, hwire⟩
          intro a c
          simp only [Client.setPc_pc]
          by_cases hai : a = i
          · simp [hai]
          · simp only [hai, if_false]; exact hno a c
      · intro a ha
        have := henq a ha
        simp only [Client.setPc_pc]
        by_cases hai : a = i
        · subst hai; rw [hpc] at this; simp at this
        · simp only [hai, if_false]; exact this
    · cases h
  | writeOk i =>
    simp only [Client.step] at h
    split at h
    · rename_i conn hpc
      cases h
      have hci : (s.pc i).critical = true := by rw [hpc]; rfl
      refine ⟨?_, ?_, ?_, ?_⟩
      · intro a b ha hb
        simp only [Client.setPc_pc] at ha hb
        have ha2 : (s.pc a).critical = true := by
          by_cases hai : a = i
          · rw [hai]; exact hci
          · simpa only [hai, if_false] using ha
        have hb2 : (s.pc b).critical = true := by
          by_cases hbi : b = i
          · rw [hbi]; exact hci
          · simpa only [hbi, if_false] using hb
        exact hexcl a b ha2 hb2
      · intro a _; exact hsem i hci
      · rcases horder with ⟨k, c, hk, hwire⟩ | ⟨hno, hwire⟩
        · have := hexcl k i (by rw [hk]; rfl) hci
          subst this; rw [hpc] at hk; cases hk
        · left
          refine ⟨i, conn, by simp [Client.setPc_pc], ?_⟩
          show s.wire ++ [i] = s.enqueued ++ [i]
          rw [hwire]
      · intro a ha
        have := henq a ha
        simp only [Client.setPc_pc]
        by_cases hai : a = i
        · subst hai; rw [hpc] at this; simp at this
        · simp only [hai, if_false]; exact this
    · cases h
  | writeFail i err =>
    simp only [Client.step] at h
    split at h
    · rename_i conn hpc
      cases h
      have hci : (s.pc i).critical = true := by rw [hpc]; rfl
      refine ⟨?_, ?_, ?_, ?_⟩
      · intro a b ha hb
        simp only [Client.setPc_pc] at ha hb
        by_cases hai : a = i
        · simp [hai, SendPc.critical] at ha
        · by_cases hbi : b = i
          · simp [hbi, SendPc.critical] at hb
          · simp only [hai, hbi, if_false] at ha hb; exact hexcl a b ha hb
      · intro a _; exact hsem i hci
      · rcases horder with ⟨k, c, hk, hwire⟩ | ⟨hno, hwire⟩
        · have := hexcl k i (by rw [hk]; rfl) hci
          subst this; rw [hpc] at hk; cases hk
        · right
          refine ⟨?_, hwire⟩
          intro a c
          simp only [Client.setPc_pc]
          by_cases hai : a = i
          · simp [hai]
          · simp only [hai, if_false]; exact hno a c
      · intro a ha
        have := henq a ha
        simp only [Client.setPc_pc]
        by_cases hai : a = i
        · subst hai; rw [hpc] at this; simp at this
        · simp only [hai, if_false]; exact this
    · cases h
  | enqueue i =>
    simp only [Client.step] at h
    split at h
    · rename_i conn hpc
      cases h
      have hci : (s.pc i).critical = true := by rw [hpc]; rfl
      refine ⟨?_, ?_, ?_, ?_⟩
      · intro a b ha hb
        simp only [Client.setPc_pc] at ha hb
        have ha2 : (s.pc a).critical = true := by
          by_cases hai : a = i
          · rw [hai]; exact hci
          · simpa only [hai, if_false] using ha
        have hb2 : (s.pc b).critical = true := by
          by_cases hbi : b = i
          · rw [hbi]; exact hci
          · simpa only [hbi, if_false] using hb
        exact hexcl a b ha2 hb2
      · intro a _; exact hsem i hci
      · rcases horder with ⟨k, c, hk, hwire⟩ | ⟨hno, _⟩
        · have := hexcl k i (by rw [hk]; rfl) hci
          subst this
          right
          refine ⟨?_, ?_⟩
          · intro a c
            simp only [Client.setPc_pc]
            by_cases hai : a = k
            · simp [hai]
            · simp only [hai, if_false]
              intro hw
              exact hai (hexcl a k (by rw [hw]; rfl) hci)
          · show s.wire = s.taken ++ (s.queue ++ [k])
            rw [hwire, Client.enqueued, List.append_assoc]
        · exact (hno i conn hpc).elim
      · intro a ha
        have ha2 : a ∈ s.enqueued ∨ a = i := by
          simp only [Client.enqueued, Client.setPc, List.mem_append, List.mem_singleton] at ha ⊢
          tauto
        simp only [Client.setPc_pc]
        by_cases hai : a = i
        · left; exact ⟨conn, by simp [hai]⟩
        · simp only [hai, if_false]
          rcases ha2 with h2 | h2
          · exact henq a h2
          · exact (hai h2).elim
    · cases h
  | release i =>
    simp only [Client.step] at h
    split at h
    · rename_i conn hpc
      cases h
      have hci : (s.pc i).critical = true := by rw [hpc]; rfl
      have hnc : ∀ a, a ≠ i → (s.pc a).critical = true → False := by
        intro a hai ha; exact hai (hexcl a i ha hci)
      refine ⟨?_, ?_, ?_, ?_⟩
      · intro a b ha hb
        simp only [Client.setPc_pc] at ha hb
        by_cases hai : a = i
        · simp [hai, SendPc.critical] at ha
        · simp only [hai, if_false] at ha; exact (hnc a hai ha).elim
      · intro a ha
        simp only [Client.setPc_pc] at ha
        by_cases hai : a = i
        · simp [hai, SendPc.critical] at ha
        · simp only [hai, if_false] at ha; exact (hnc a hai ha).elim
      · rcases horder with ⟨k, c, hk, hwire⟩ | ⟨hno, hwire⟩
        · have := hexcl k i (by rw [hk]; rfl) hci
          subst this; rw [hpc] at hk; cases hk
        · right
          refine ⟨?_, hwire⟩
          intro a c
          simp only [Client.setPc_pc]
          by_cases hai : a = i
          · simp [hai]
          · simp only [hai, if_false]; exact hno a c
      · intro a ha
        have := henq a ha
        simp only [Client.setPc_pc]
        by_cases hai : a = i
        · right; simp [hai]
        · simp only [hai, if_false]; exact this
    · cases h
  | take =>
    simp only [Client.step] at h
    split at h
    · rename_i j q hq
      cases h
      have he : ∀ x : List Nat, s.taken ++ [j] ++ q = s.taken ++ s.queue := by
        intro _; rw [hq]; simp
      refine ⟨hexcl, hsem, ?_, ?_⟩
      · simpa only [Client.enqueued, he []] using horder
      · simpa only [Client.enqueued, he []] using henq
    · cases h

theorem Client.Inv_run (acts : List SendAction) (s t : Client) (hs : s.Inv)
    (h : s.run acts = some t) : t.Inv := by
  induction acts generalizing s with
  | nil => simp only [Client.run, Option.some.injEq] at h; rw [← h]; exact hs
  | cons a as ih =>
    simp only [Client.run] at h
    split at h
    · rename_i u hu
      exact ih u (Client.Inv_step s u a hs hu) h
    · cases h

theorem Client.Inv_of_reachable (s : Client) (h : s.Reachable) : s.Inv := by
  obtain ⟨conn, acts, hr⟩ := h
  exact Client.Inv_run acts _ s (Client.Inv_init conn) hr

end Redis

namespace Redis

theorem Client.Dead_step (s t : Client) (a : SendAction) (hd : s.Dead)
    (h : s.step a = some t) :
    t.Dead ∧ t.wire = s.wire ∧ t.enqueued = s.enqueued ∧ t.writeErr = s.writeErr ∧
      (a = .take ∨ ∃ j err, a = .offline j err) ∧
      (∀ j, t.pc j = s.pc j ∨ (s.pc j = .start ∧ ∃ err, t.pc j = .returned err)) := by
  obtain ⟨hw, hc⟩ := hd
  cases a with
  | acquire i =>
    simp only [Client.step] at h
    split at h
    · rename_i conn hpc hsem
      rw [hw] at hsem; cases hsem
    · cases h
  | offline i err =>
    simp only [Client.step] at h
    split at h
    · rename_i hpc
      cases h
      refine ⟨⟨hw, ?_⟩, rfl, rfl, rfl, Or.inr ⟨i, err, rfl⟩, ?_⟩
      · intro j
        simp only [Client.setPc_pc]
        by_cases hj : j = i
        · simp [hj, SendPc.critical]
        · simp only [hj, if_false]; exact hc j
      · intro j
        simp only [Client.setPc_pc]
        by_cases hj : j = i
        · right; subst hj; exact ⟨hpc, err, by simp⟩
        · left; simp [hj]
    · cases h
  | writeOk i =>
    simp only [Client.step] at h
    split at h
    · rename_i conn hpc
      have := hc i; rw [hpc] at this; cases this
    · cases h
  | writeFail i err =>
    simp only [Client.step] at h
    split at h
    · rename_i conn hpc
      have := hc i; rw [hpc] at this; cases this
    · cases h
  | enqueue i =>
    simp only [Client.step] at h
    split at h
    · rename_i conn hpc
      have := hc i; rw [hpc] at this; cases this
    · cases h
  | release i =>
    simp only [Client.step] at h
    split at h
    · rename_i conn hpc
      have := hc i; rw [hpc] at this; cases this
    · cases h
  | take =>
    simp only [Client.step] at h
    split at h
    · rename_i j q hq
      cases h
      refine ⟨⟨hw, hc⟩, rfl, ?_, rfl, Or.inl rfl, fun j => Or.inl rfl⟩
      simp [Client.enqueued, hq]
    · cases h

theorem Client.Dead_run (acts : List SendAction) (s t : Client) (hd : s.Dead)
    (h : s.run acts = some t) :
    t.Dead ∧ t.wire = s.wire ∧ t.enqueued = s.enqueued ∧ t.writeErr = s.writeErr ∧
      (∀ a ∈ acts, a = .take ∨ ∃ j err, a = .offline j err) ∧
      (∀ j, t.pc j = s.pc j ∨ (s.pc j = .start ∧ ∃ err, t.pc j = .returned err)) := by
  induction acts generalizing s with
  | nil =>
    simp only [Client.run, Option.some.injEq] at h
    subst h
    exact ⟨hd, rfl, rfl, rfl, by simp, fun j => Or.inl rfl⟩
  | cons a as ih =>
    simp only [Client.run] at h
    split at h
    · rename_i u hu
      obtain ⟨d1, w1, e1, r1, a1, p1⟩ := Client.Dead_step s u a hd hu
      obtain ⟨d2, w2, e2, r2, a2, p2⟩ := ih u d1 h
      refine ⟨d2, w2.trans w1, e2.trans e1, r2.trans r1, ?_, ?_⟩
      · intro b hb
        rcases List.mem_cons.mp hb with rfl | hb
        · exact a1
        · exact a2 b hb
      · intro j
        rcases p2 j with h2 | ⟨h2, err, h3⟩
        · rw [h2]; exact p1 j
        · rcases p1 j with h1 | ⟨_, err1, h1⟩
          · right; rw [← h1]; exact ⟨h2, err, h3⟩
          · rw [h1] at h2; cases h2
    · cases h

theorem Client.writeFail_step (s t : Client) (i err : Nat) (hs : s.Inv)
    (h : s.step (.writeFail i err) = some t) :
    t.Dead ∧ t.pc i = .returned (some err) ∧ i ∉ s.enqueued ∧ t.queue = s.queue ∧
      t.taken = s.taken ∧ t.wire = s.wire ∧ t.writeErr = s.writeErr + 1 ∧
      s.writeSem = none ∧ (∀ j, j ≠ i → t.pc j = s.pc j) := by
  simp only [Client.step] at h
  split at h
  · rename_i conn hpc
    cases h
    have hci : (s.pc i).critical = true := by rw [hpc]; rfl
    refine ⟨⟨hs.sem i hci, ?_⟩, by simp [Client.setPc_pc], ?_, rfl, rfl, rfl, rfl,
      hs.sem i hci, ?_⟩
    · intro j
      simp only [Client.setPc_pc]
      by_cases hj : j = i
      · simp [hj, SendPc.critical]
      · simp only [hj, if_false]
        cases hcj : (s.pc j).critical with
        | false => rfl
        | true => exact (hj (hs.excl j i hcj hci)).elim
    · intro hmem
      have := hs.enq i hmem
      rw [hpc] at this
      simp at this
    · intro j hj
      simp [Client.setPc_pc, hj]
  · cases h

/-- C5: in every state that interleaved `send` calls reach, the parsers
enqueued on the response queue are in the order of the frames written to the
connection: the `k`-th enqueued parser belongs to the call that wrote the
`k`-th frame, and at most one written frame has its parser not yet enqueued. -/
theorem send_queue_order (s : Client) (h : s.Reachable) :
    s.enqueued <+: s.wire ∧
      (∀ k, k < s.enqueued.length → s.enqueued.get? k = s.wire.get? k) ∧
      s.wire.length ≤ s.enqueued.length + 1 := by
  have hi := Client.Inv_of_reachable s h
  rcases hi.order with ⟨i, conn, _, hw⟩ | ⟨_, hw⟩
  · refine ⟨⟨[i], hw.symm⟩, ?_, by simp [hw]⟩
    intro k hk
    rw [hw, List.get?_eq_getElem?, List.get?_eq_getElem?, List.getElem?_append_left hk]
  · refine ⟨⟨[], by simp [hw]⟩, ?_, by simp [hw]⟩
    intro k _
    rw [hw]

/-- C5, at an interleaving of three calls. -/
theorem send_queue_order_witness :
    Client.sample.Reachable ∧ Client.sample.enqueued = [0] ∧ Client.sample.wire = [0, 1] ∧
      Client.sample.enqueued <+: Client.sample.wire :=
  ⟨⟨7, Client.sampleActs, rfl⟩, by decide, by decide,
    (send_queue_order Client.sample ⟨7, Client.sampleActs, rfl⟩).1⟩

/-- C6: when the write of call `i` fails with error `err`, the call returns
`err`, its parser is not enqueued then or later, the response queue and the
frames already written are unchanged, the calls of other callers stand where
they stood, `writeErr` is signalled exactly once, and the connection is not
put back into `writeSem`. -/
theorem send_write_failure (s t : Client) (i err : Nat) (hs : s.Reachable)
    (h : s.step (.writeFail i err) = some t) :
    t.pc i = .returned (some err) ∧ i ∉ t.enqueued ∧
      t.queue = s.queue ∧ t.taken = s.taken ∧ t.wire = s.wire ∧
      (∀ j, j ≠ i → t.pc j = s.pc j) ∧
      t.writeErr = s.writeErr + 1 ∧ t.writeSem = none ∧
      (∀ acts u, t.run acts = some u →
        u.pc i = .returned (some err) ∧ i ∉ u.enqueued ∧ u.writeErr = s.writeErr + 1 ∧
          u.writeSem = none) := by
  have hi := Client.Inv_of_reachable s hs
  obtain ⟨hd, hp, hn, hq, ht, hw, he, _, ho⟩ := Client.writeFail_step s t i err hi h
  have hte : t.enqueued = s.enqueued := by simp [Client.enqueued, hq, ht]
  refine ⟨hp, by rw [hte]; exact hn, hq, ht, hw, ho, he, hd.1, ?_⟩
  intro acts u hu
  obtain ⟨d2, _, e2, r2, _, p2⟩ := Client.Dead_run acts t u hd hu
  refine ⟨?_, by rw [e2, hte]; exact hn, by rw [r2, he], d2.1⟩
  rcases p2 i with h2 | ⟨h2, _⟩
  · rw [h2]; exact hp
  · rw [hp] at h2; cases h2

/-- C6, at the failing write of call 2 after two calls went through. -/
theorem send_write_failure_witness :
    Client.sampleHolding.Reachable ∧
      Client.sampleHolding.step (.writeFail 2 9) = some Client.sampleFailed ∧
      Client.sampleFailed.pc 2 = .returned (some 9) ∧
      Client.sampleFailed.queue = [1] ∧ Client.sampleFailed.taken = [0] ∧
      Client.sampleFailed.writeErr = 1 ∧ Client.sampleFailed.writeSem = none :=
  have h := send_write_failure Client.sampleHolding Client.sampleFailed 2 9
    ⟨7, Client.sampleHoldingActs, rfl⟩ rfl
  ⟨⟨7, Client.sampleHoldingActs, rfl⟩, rfl, h.1, by decide, by decide, by decide, h.2.2.2.2.2.2.2.1⟩

/-- C7: after a `send` whose write failed, whatever the calls do next, no
frame is written and no parser is enqueued, and `writeSem` stays empty; the
only statements that run are receives from `offline` and receives of the read
routine, so a call that was at its `select` either still waits there or has
returned what it received from `offline`; and such a return writes nothing
and leaves the response queue as it was. -/
theorem send_fail_stop (s t u : Client) (i err : Nat) (acts : List SendAction)
    (hs : s.Reachable) (h : s.step (.writeFail i err) = some t)
    (hu : t.run acts = some u) :
    u.wire = t.wire ∧ u.enqueued = t.enqueued ∧ u.writeSem = none ∧
      (∀ a ∈ acts, a = .take ∨ ∃ j e, a = .offline j e) ∧
      (∀ j, u.pc j = t.pc j ∨ (t.pc j = .start ∧ ∃ e, u.pc j = .returned e)) ∧
      (∀ j, u.step (.acquire j) = none ∧ u.step (.writeOk j) = none ∧
        u.step (.enqueue j) = none ∧ u.step (.release j) = none) ∧
      (∀ j e v, u.step (.offline j e) = some v →
        v.pc j = .returned e ∧ v.wire = u.wire ∧ v.queue = u.queue ∧ v.taken = u.taken) := by
  have hi := Client.Inv_of_reachable s hs
  obtain ⟨hd, _⟩ := Client.writeFail_step s t i err hi h
  obtain ⟨d2, w2, e2, _, a2, p2⟩ := Client.Dead_run acts t u hd hu
  refine ⟨w2, e2, d2.1, a2, p2, ?_, ?_⟩
  · intro j
    have hc := d2.2 j
    refine ⟨?_, ?_, ?_, ?_⟩
    · simp only [Client.step, d2.1]
      split <;> simp_all
    · simp only [Client.step]
      split
      · rename_i hpc; rw [hpc] at hc; cases hc
      · rfl
    · simp only [Client.step]
      split
      · rename_i hpc; rw [hpc] at hc; cases hc
      · rfl
    · simp only [Client.step]
      split
      · rename_i hpc; rw [hpc] at hc; cases hc
      · rfl
  · intro j e v hv
    simp only [Client.step] at hv
    split at hv
    · cases hv
      exact ⟨by simp [Client.setPc_pc], rfl, rfl, rfl⟩
    · cases hv

/-- C7, at two later calls that return the error received from `offline`. -/
theorem send_fail_stop_witness :
    Client.sampleHolding.Reachable ∧
      Client.sampleHolding.step (.writeFail 2 9) = some Client.sampleFailed ∧
      Client.sampleFailed.run Client.sampleAfterActs = some Client.sampleAfter ∧
      Client.sampleAfter.wire = [0, 1] ∧ Client.sampleAfter.enqueued = [0, 1] ∧
      Client.sampleAfter.pc 3 = .returned (some 5) ∧ Client.sampleAfter.writeSem = none :=
  have h := send_fail_stop Client.sampleHolding Client.sampleFailed Client.sampleAfter 2 9
    Client.sampleAfterActs ⟨7, Client.sampleHoldingActs, rfl⟩ rfl rfl
  ⟨⟨7, Client.sampleHoldingActs, rfl⟩, rfl, rfl, h.1.trans (by decide), h.2.1.trans (by decide),
    by decide, h.2.2.1⟩

end Redis

namespace Redis

/-! ## Maps -/

theorem mapGet_filter {V : Type} (m : List (String × V)) (p : String → Bool) (k : String) :
    mapGet (m.filter (fun e => p e.1)) k = if p k then mapGet m k else none := by
  induction m with
  | nil => simp [mapGet]
  | cons e m ih =>
    obtain ⟨a, w⟩ := e
    by_cases ha : p a = true
    · by_cases h : a = k
      · subst h; simp [List.filter_cons, ha, mapGet]
      · simp [List.filter_cons, ha, mapGet, h, ih]
    · by_cases h : a = k
      · subst h; simp [List.filter_cons, ha, mapGet, ih]
      · simp [List.filter_cons, ha, mapGet, h, ih]

theorem mapGet_mapDelete {V : Type} (m : List (String × V)) (k k2 : String) :
    mapGet (mapDelete m k) k2 = if k2 = k then none else mapGet m k2 := by
  unfold mapDelete
  rw [mapGet_filter m (fun a => decide (a ≠ k)) k2]
  by_cases h : k2 = k <;> simp [h]

theorem mapGet_mapSet {V : Type} (m : List (String × V)) (k k2 : String) (v : V) :
    mapGet (mapSet m k v) k2 = if k2 = k then some v else mapGet m k2 := by
  induction m with
  | nil =>
    by_cases h : k2 = k
    · simp [mapSet, mapGet, h]
    · have h3 : ¬ k = k2 := fun e => h e.symm
      simp [mapSet, mapGet, h, h3]
  | cons e m ih =>
    obtain ⟨a, w⟩ := e
    by_cases ha : a = k
    · subst ha
      by_cases h2 : k2 = a
      · simp [mapSet, mapGet, h2]
      · have h3 : ¬ a = k2 := fun h => h2 h.symm
        simp [mapSet, mapGet, h2, h3]
    · by_cases h2 : k2 = k
      · subst h2
        simp [mapSet, mapGet, ha, ih]
      · by_cases h4 : a = k2
        · subst h4; simp [mapSet, mapGet, ha]
        · simp [mapSet, mapGet, ha, h2, h4, ih]

theorem mem_mapKeys {V : Type} (m : List (String × V)) (k : String) :
    k ∈ mapKeys m ↔ ∃ v, mapGet m k = some v := by
  induction m with
  | nil => simp [mapKeys, mapGet]
  | cons e m ih =>
    obtain ⟨a, w⟩ := e
    simp only [mapKeys, List.map_cons, List.mem_cons] at ih ⊢
    by_cases h : a = k
    · subst h; simp [mapGet]
    · have h3 : ¬ k = a := fun e => h e.symm
      simp [mapGet, h, h3, ih]

theorem mapKeys_filter_nodup {V : Type} (m : List (String × V)) (p : String × V → Bool)
    (h : (mapKeys m).Nodup) : (mapKeys (m.filter p)).Nodup := by
  unfold mapKeys at *
  exact (List.Nodup.sublist ((List.filter_sublist m).map Prod.fst) h)

/-! ## The pending unsubscribes -/

theorem mem_closedBy (names : List String) (m : List (String × Nat)) (q : Nat) :
    q ∈ closedBy names m ↔ ∃ n, n ∈ names ∧ mapGet m n = some q := by
  induction names generalizing m with
  | nil => simp [closedBy]
  | cons name names ih =>
    simp only [closedBy, List.mem_append, ih, mapGet_mapDelete, List.mem_cons]
    constructor
    · rintro (h | ⟨n, hn, hg⟩)
      · refine ⟨name, Or.inl rfl, ?_⟩
        cases hq : mapGet m name with
        | none => rw [hq] at h; simp at h
        | some q2 => rw [hq] at h; simp at h; rw [h]
      · by_cases hnn : n = name
        · simp [hnn] at hg
        · simp only [hnn, if_false] at hg
          exact ⟨n, Or.inr hn, hg⟩
    · rintro ⟨n, hn | hn, hg⟩
      · left; subst hn; rw [hg]; simp
      · by_cases hnn : n = name
        · left; subst hnn; rw [hg]; simp
        · right; exact ⟨n, hn, by simp [hnn, hg]⟩

theorem setDelete_filter (u names : List String) (name : String) :
    (setDelete u name).filter (fun n => decide (n ∉ names)) =
      u.filter (fun n => decide (n ∉ name :: names)) := by
  unfold setDelete
  rw [List.filter_filter]
  apply List.filter_congr
  intro e _
  by_cases h1 : e = name <;> by_cases h2 : e ∈ names <;> simp [h1, h2]

theorem mapDelete_filter (m : List (String × Nat)) (names : List String) (name : String) :
    (mapDelete m name).filter (fun e => decide (e.1 ∉ names)) =
      m.filter (fun e => decide (e.1 ∉ name :: names)) := by
  unfold mapDelete
  rw [List.filter_filter]
  apply List.filter_congr
  intro e _
  by_cases h1 : e.1 = name <;> by_cases h2 : e.1 ∈ names <;> simp [h1, h2]

theorem filter_of_mapGet_none (m : List (String × Nat)) (names : List String) (name : String)
    (hq : mapGet m name = none) :
    m.filter (fun e => decide (e.1 ∉ names)) =
      m.filter (fun e => decide (e.1 ∉ name :: names)) := by
  apply List.filter_congr
  intro e he
  have hne : e.1 ≠ name := by
    intro h
    obtain ⟨v, hv⟩ := (mem_mapKeys m e.1).mp (List.mem_map_of_mem Prod.fst he)
    rw [h, hq] at hv
    cases hv
  by_cases h2 : e.1 ∈ names <;> simp [hne, h2]

theorem mapDelete_of_mapGet_none (m : List (String × Nat)) (name : String)
    (hq : mapGet m name = none) : mapDelete m name = m := by
  unfold mapDelete
  rw [List.filter_eq_self]
  intro e he
  have hne : e.1 ≠ name := by
    intro h
    obtain ⟨v, hv⟩ := (mem_mapKeys m e.1).mp (List.mem_map_of_mem Prod.fst he)
    rw [h, hq] at hv
    cases hv
  simp [hne]

theorem Listener.applyUnsubs_eq (names : List String) (s : Listener) :
    Listener.applyUnsubs names s =
      { s with unsubs := s.unsubs.filter (fun n => decide (n ∉ names)),
               subs := s.subs.filter (fun e => decide (e.1 ∉ names)),
               closedQueues := s.closedQueues ++ closedBy names s.subs } := by
  induction names generalizing s with
  | nil => simp [Listener.applyUnsubs, closedBy]
  | cons name names ih =>
    simp only [Listener.applyUnsubs]
    rw [ih]
    cases hq : mapGet s.subs name with
    | none =>
      simp only [closedBy, hq, List.nil_append, setDelete_filter,
        filter_of_mapGet_none s.subs names name hq, mapDelete_of_mapGet_none s.subs name hq]
    | some q =>
      simp only [closedBy, hq, setDelete_filter, mapDelete_filter, List.append_assoc]

end Redis

namespace Redis

theorem Listener.submit_fields (s : Listener) (conn : Nat) (req : Request) (w : Bool) :
    (s.submit conn req w).submitted = s.submitted ++ [(conn, req)] ∧
      (s.submit conn req w).subs = s.subs ∧ (s.submit conn req w).unsubs = s.unsubs ∧
      (s.submit conn req w).channels = s.channels ∧
      (s.submit conn req w).closedQueues = s.closedQueues ∧
      (s.submit conn req w).conn = s.conn ∧ (s.submit conn req w).pc = s.pc ∧
      (s.submit conn req w).pushLog = s.pushLog ∧
      (s.submit conn req w).nextQueue = s.nextQueue := by
  unfold Listener.submit
  cases w <;> cases hc : s.cancelled <;> simp [hc]

theorem Listener.reconcile_fields (s : Listener) (conn : Nat) :
    (s.reconcile conn).unsubs = [] ∧
      (s.reconcile conn).subs = s.subs.filter (fun e => decide (e.1 ∉ s.unsubs)) ∧
      (s.reconcile conn).closedQueues = s.closedQueues ++ closedBy s.unsubs s.subs ∧
      (s.reconcile conn).submitted = s.submitted ∧ (s.reconcile conn).conn = some conn ∧
      (s.reconcile conn).pc = .resubscribe conn ∧ (s.reconcile conn).channels = s.channels := by
  have hnil : s.unsubs.filter (fun n => decide (n ∉ s.unsubs)) = [] := by
    rw [List.filter_eq_nil_iff]
    intro a ha
    simp [ha]
  have e : s.reconcile conn =
      { Listener.applyUnsubs s.unsubs { s with conn := some conn } with
        pc := .resubscribe conn } := rfl
  rw [e, Listener.applyUnsubs_eq]
  exact ⟨hnil, rfl, rfl, rfl, rfl, rfl, rfl⟩

theorem Listener.resubscribe_fields (t : Listener) (conn : Nat) (w : Bool) :
    (t.resubscribe conn w).unsubs = t.unsubs ∧ (t.resubscribe conn w).subs = t.subs ∧
      (t.resubscribe conn w).closedQueues = t.closedQueues ∧
      (t.resubscribe conn w).conn = t.conn ∧ (t.resubscribe conn w).pc = .receive conn ∧
      (t.resubscribe conn w).submitted =
        (if t.subs.length ≠ 0 then t.submitted ++ [(conn, .subscribe (mapKeys t.subs))]
        else t.submitted) ∧
      (t.resubscribe conn w).channels = t.channels ∧ (t.resubscribe conn w).pushLog = [] := by
  obtain ⟨h1, h2, h3, h4, h5, h6, _, _, _⟩ :=
    Listener.submit_fields t conn (.subscribe (mapKeys t.subs)) w
  unfold Listener.resubscribe
  by_cases h : t.subs.length ≠ 0
  · rw [if_pos h, if_pos h]
    exact ⟨h3, h2, h5, h6, rfl, h1, h4, rfl⟩
  · rw [if_neg h, if_neg h]
    exact ⟨rfl, rfl, rfl, rfl, rfl, rfl, rfl, rfl⟩

theorem Listener.step_connected (s : Listener) (conn : Nat) (hpc : s.pc = .reconcile conn)
    (hc : s.cancelled = false) : s.step .connected = some (s.reconcile conn) := by
  simp only [Listener.step, hpc, hc]
  rfl

theorem Listener.step_resubscribe (t : Listener) (conn : Nat) (w : Bool)
    (hpc : t.pc = .resubscribe conn) :
    t.step (.resubscribe w) = some (t.resubscribe conn w) := by
  simp only [Listener.step, hpc]

/-- C8: the reconciliation on a successful connect. Whatever the intent map
`S` and the pending unsubscribes `U` are before it, afterwards the pending
unsubscribes are empty, the intent map is `S` without the names of `U`, the
queues closed by the step are exactly the queues `S` held for names of `U`,
and the one subscribe request names exactly the keys of the resulting intent
map, each once; no request is submitted when that map is empty. -/
theorem reconcile_on_connect (s : Listener) (conn : Nat) (writeOk : Bool)
    (hpc : s.pc = .reconcile conn) (hc : s.cancelled = false)
    (hS : (mapKeys s.subs).Nodup) :
    ∃ t u, s.step .connected = some t ∧ t.step (.resubscribe writeOk) = some u ∧
      t.unsubs = [] ∧ u.unsubs = [] ∧
      t.subs = s.subs.filter (fun e => decide (e.1 ∉ s.unsubs)) ∧ u.subs = t.subs ∧
      (∀ n, mapGet u.subs n = if n ∈ s.unsubs then none else mapGet s.subs n) ∧
      (∃ c, u.closedQueues = s.closedQueues ++ c ∧
        ∀ q, q ∈ c ↔ ∃ n, n ∈ s.unsubs ∧ mapGet s.subs n = some q) ∧
      (u.subs ≠ [] → ∃ names, u.submitted = s.submitted ++ [(conn, .subscribe names)] ∧
        names.Nodup ∧ ∀ n, n ∈ names ↔ n ∈ mapKeys u.subs) ∧
      (u.subs = [] → u.submitted = s.submitted) ∧
      u.conn = some conn ∧ u.pc = .receive conn := by
  have hfil : ∀ n, mapGet (s.subs.filter (fun e => decide (e.1 ∉ s.unsubs))) n =
      if n ∈ s.unsubs then none else mapGet s.subs n := by
    intro n
    rw [mapGet_filter s.subs (fun k => decide (k ∉ s.unsubs)) n]
    by_cases h : n ∈ s.unsubs <;> simp [h]
  have hnd : (mapKeys (s.subs.filter (fun e => decide (e.1 ∉ s.unsubs)))).Nodup :=
    mapKeys_filter_nodup s.subs _ hS
  obtain ⟨t1, t2, t3, t4, t5, t6, _⟩ := Listener.reconcile_fields s conn
  obtain ⟨u1, u2, u3, u4, u5, u6, _, _⟩ :=
    Listener.resubscribe_fields (s.reconcile conn) conn writeOk
  refine ⟨s.reconcile conn, (s.reconcile conn).resubscribe conn writeOk,
    Listener.step_connected s conn hpc hc, Listener.step_resubscribe _ conn writeOk t6,
    t1, u1.trans t1, t2, u2, ?_, ⟨_, u3.trans t3, fun q => mem_closedBy _ _ q⟩, ?_, ?_,
    u4.trans t5, u5⟩
  · intro n
    rw [u2, t2]; exact hfil n
  · intro hne
    have hl : (s.reconcile conn).subs.length ≠ 0 := by
      intro h; exact hne (u2.trans (List.length_eq_zero.mp h))
    rw [if_pos hl, t4] at u6
    refine ⟨_, u6, ?_, ?_⟩
    · rw [t2]; exact hnd
    · intro n
      rw [u2]
  · intro he
    have hl : ¬ (s.reconcile conn).subs.length ≠ 0 := by
      intro h; apply h; rw [← u2, he]; rfl
    rw [if_neg hl, t4] at u6
    exact u6

/-- C8, at a listener with the names `x` and `y` requested and the names `y`
and `w` pending for unsubscription. -/
theorem reconcile_on_connect_witness :
    Listener.sampleReconcile.pc = .reconcile 0 ∧ Listener.sampleReconcile.cancelled = false ∧
      (mapKeys Listener.sampleReconcile.subs).Nodup ∧
      Listener.sampleReconcile.subs = [("x", 0), ("y", 1)] ∧
      Listener.sampleReconcile.unsubs = ["y", "w"] ∧
      ∃ t u, Listener.sampleReconcile.step .connected = some t ∧
        t.step (.resubscribe true) = some u ∧ u.unsubs = [] ∧ u.subs = [("x", 0)] ∧
        u.closedQueues = [1] ∧ u.submitted = [(0, .subscribe ["x"])] := by
  obtain ⟨t, u, h1, h2, _⟩ := reconcile_on_connect Listener.sampleReconcile 0 true
    (by decide) (by decide) (by decide)
  refine ⟨by decide, by decide, by decide, by decide, by decide, t, u, h1, h2, ?_⟩
  have e1 : t = (Listener.sampleReconcile.step .connected).getD Listener.init := by
    rw [h1]; rfl
  have e2 : u = (t.step (.resubscribe true)).getD Listener.init := by
    rw [h2]; rfl
  subst e1
  subst e2
  decide

end Redis

namespace Redis

/-! ## What the steps do to the intent map and to the routing table -/

theorem Listener.SUBSCRIBE_fields (s : Listener) (channel : String) (w : Bool) :
    (s.SUBSCRIBE channel w).1.subs =
        (match mapGet s.subs channel with
          | some _ => s.subs
          | none => mapSet s.subs channel s.nextQueue) ∧
      (s.SUBSCRIBE channel w).2 =
        (match mapGet s.subs channel with
          | some current => current
          | none => s.nextQueue) ∧
      (s.SUBSCRIBE channel w).1.unsubs = s.unsubs ∧
      (s.SUBSCRIBE channel w).1.channels = s.channels ∧
      (s.SUBSCRIBE channel w).1.pushLog = s.pushLog ∧
      (s.SUBSCRIBE channel w).1.pc = s.pc ∧
      (s.SUBSCRIBE channel w).1.closedQueues = s.closedQueues := by
  unfold Listener.SUBSCRIBE
  cases hg : mapGet s.subs channel <;> cases hc : s.conn <;>
    simp [hg, hc, Listener.submit_fields]

theorem Listener.unsubscribe_fields (s : Listener) (channel : String) (w : Bool) :
    (s.unsubscribe channel w).subs = s.subs ∧
      (s.unsubscribe channel w).unsubs = setAdd s.unsubs channel ∧
      (s.unsubscribe channel w).channels = s.channels ∧
      (s.unsubscribe channel w).pushLog = s.pushLog ∧
      (s.unsubscribe channel w).pc = s.pc ∧
      (s.unsubscribe channel w).closedQueues = s.closedQueues := by
  unfold Listener.unsubscribe
  cases hc : s.conn <;> simp [hc, Listener.submit_fields]

theorem Listener.Close_fields (s : Listener) :
    s.Close.subs = s.subs ∧ s.Close.unsubs = s.unsubs ∧ s.Close.channels = s.channels ∧
      s.Close.pushLog = s.pushLog ∧ s.Close.pc = s.pc ∧
      s.Close.closedQueues = s.closedQueues := by
  unfold Listener.Close
  cases hc : s.conn <;> simp [hc]

theorem Listener.dispatch_fields (s : Listener) (ty dest : String) (msg : Bytes) :
    (s.dispatch ty dest msg).subs =
        (if ty = "unsubscribe" then mapDelete s.subs dest else s.subs) ∧
      (s.dispatch ty dest msg).unsubs =
        (if ty = "unsubscribe" then setDelete s.unsubs dest else s.unsubs) ∧
      (s.dispatch ty dest msg).channels =
        (if ty = "subscribe" then
          (match mapGet s.channels dest with
            | some _ => s.channels
            | none =>
              match mapGet s.subs dest with
              | some sub => mapSet s.channels dest sub
              | none => s.channels)
        else if ty = "unsubscribe" then mapDelete s.channels dest
        else s.channels) ∧
      (s.dispatch ty dest msg).pushLog = s.pushLog ++ [(ty, dest)] ∧
      (s.dispatch ty dest msg).pc = s.pc := by
  unfold Listener.dispatch
  by_cases h1 : ty = "message"
  · subst h1
    cases hg : mapGet s.channels dest <;> simp [hg]
  · by_cases h2 : ty = "subscribe"
    · subst h2
      cases hg : mapGet s.channels dest <;> cases hs : mapGet s.subs dest <;> simp [hg, hs]
    · by_cases h3 : ty = "unsubscribe"
      · subst h3
        cases hs : mapGet s.subs dest <;> simp [hs]
      · simp [h1, h2, h3]

theorem Listener.step_keeps (s t : Listener) (a : Action) (name : String) (q : Nat)
    (hq : mapGet s.subs name = some q) (hr : a.removes name s = false)
    (h : s.step a = some t) : mapGet t.subs name = some q := by
  cases a with
  | SUBSCRIBE channel w =>
    simp only [Listener.step, Option.some.injEq] at h
    subst h
    rw [(Listener.SUBSCRIBE_fields s channel w).1]
    cases hg : mapGet s.subs channel with
    | some c => exact hq
    | none =>
      have hne : name ≠ channel := by
        intro e; rw [e, hg] at hq; cases hq
      simp only [mapGet_mapSet, hne, if_false]
      exact hq
  | unsubscribe channel w =>
    simp only [Listener.step, Option.some.injEq] at h
    subst h
    rw [(Listener.unsubscribe_fields s channel w).1]
    exact hq
  | Close =>
    simp only [Listener.step, Option.some.injEq] at h
    subst h
    rw [(Listener.Close_fields s).1]
    exact hq
  | dialFail =>
    simp only [Listener.step] at h
    split at h
    · split at h <;> (cases h; exact hq)
    · cases h
  | dialOk =>
    simp only [Listener.step] at h
    split at h
    · split at h
      · cases h
      · cases h; exact hq
    · cases h
  | handshakeFail =>
    simp only [Listener.step] at h
    split at h
    · cases h; exact hq
    · cases h
  | handshakeOk =>
    simp only [Listener.step] at h
    split at h
    · cases h; exact hq
    · cases h
  | connected =>
    simp only [Listener.step] at h
    split at h
    · rename_i conn hpc
      split at h
      · cases h; exact hq
      · rename_i hc
        cases h
        have hn : name ∉ s.unsubs := by
          simp only [Action.removes, hc] at hr
          simpa using hr
        rw [(Listener.reconcile_fields s conn).2.1,
          mapGet_filter s.subs (fun k => decide (k ∉ s.unsubs)) name]
        simp [hn, hq]
    · cases h
  | resubscribe w =>
    simp only [Listener.step] at h
    split at h
    · rename_i conn hpc
      cases h
      rw [(Listener.resubscribe_fields s conn w).2.1]
      exact hq
    · cases h
  | push ty dest msg =>
    simp only [Listener.step] at h
    split at h
    · cases h
      rw [(Listener.dispatch_fields s ty dest msg).1]
      by_cases hu : ty = "unsubscribe"
      · have hd : name ≠ dest := by
          intro e
          simp [Action.removes, hu, e] at hr
        simp only [hu, if_true, mapGet_mapDelete, hd, if_false]
        exact hq
      · simp only [hu, if_false]
        exact hq
    · cases h
  | receiveErr =>
    simp only [Listener.step] at h
    split at h
    · cases h; exact hq
    · cases h
  | teardown =>
    simp only [Listener.step] at h
    split at h
    · cases h
      split <;> exact hq
    · cases h

theorem Listener.runKeeping_keeps (name : String) (q : Nat) (acts : List Action)
    (s t : Listener) (hq : mapGet s.subs name = some q)
    (h : Listener.runKeeping name s acts = some t) : mapGet t.subs name = some q := by
  induction acts generalizing s with
  | nil =>
    simp only [Listener.runKeeping, Option.some.injEq] at h
    rw [← h]; exact hq
  | cons a as ih =>
    simp only [Listener.runKeeping] at h
    split at h
    · cases h
    · rename_i hr
      split at h
      · rename_i u hu
        exact ih u (Listener.step_keeps s u a name q hq (by simpa using hr) hu) h
      · cases h

theorem Listener.SUBSCRIBE_registers (s : Listener) (name : String) (w : Bool) :
    mapGet (s.SUBSCRIBE name w).1.subs name = some (s.SUBSCRIBE name w).2 := by
  obtain ⟨h1, h2, _⟩ := Listener.SUBSCRIBE_fields s name w
  rw [h1, h2]
  cases hg : mapGet s.subs name with
  | some c => exact hg
  | none => simp [mapGet_mapSet]

theorem Listener.SUBSCRIBE_again (s : Listener) (name : String) (w : Bool) (q : Nat)
    (hq : mapGet s.subs name = some q) :
    (s.SUBSCRIBE name w).2 = q ∧ (s.SUBSCRIBE name w).1.subs = s.subs ∧
      (s.SUBSCRIBE name w).1.unsubs = s.unsubs := by
  obtain ⟨h1, h2, h3, _⟩ := Listener.SUBSCRIBE_fields s name w
  rw [h1, h2, h3, hq]
  exact ⟨rfl, rfl, rfl⟩

/-- C9: `SUBSCRIBE` is idempotent. When `SUBSCRIBE(name)` is called twice and
no step in between takes the name out of the intent map (no `unsubscribe`
confirmation for it, no reconciliation of a new connection while it is pending
for unsubscription), both calls return the same message queue, and the second
call changes neither the intent map nor the pending unsubscribes; when nothing
runs in between, they are as the first call left them. -/
theorem subscribe_idempotent (s s2 : Listener) (name : String) (w1 w2 : Bool)
    (mid : List Action)
    (h : Listener.runKeeping name (s.SUBSCRIBE name w1).1 mid = some s2) :
    (s2.SUBSCRIBE name w2).2 = (s.SUBSCRIBE name w1).2 ∧
      (s2.SUBSCRIBE name w2).1.subs = s2.subs ∧
      (s2.SUBSCRIBE name w2).1.unsubs = s2.unsubs ∧
      (mid = [] → (s2.SUBSCRIBE name w2).1.subs = (s.SUBSCRIBE name w1).1.subs ∧
        (s2.SUBSCRIBE name w2).1.unsubs = (s.SUBSCRIBE name w1).1.unsubs) := by
  have hq := Listener.runKeeping_keeps name _ mid _ s2 (Listener.SUBSCRIBE_registers s name w1) h
  obtain ⟨a1, a2, a3⟩ := Listener.SUBSCRIBE_again s2 name w2 _ hq
  refine ⟨a1, a2, a3, ?_⟩
  intro hm
  subst hm
  simp only [Listener.runKeeping, Option.some.injEq] at h
  rw [a2, a3, h]
  exact ⟨rfl, rfl⟩

/-- C9, at two calls of `SUBSCRIBE("x")` with other calls and a new
connection in between. -/
theorem subscribe_idempotent_witness :
    Listener.runKeeping "x" (Listener.init.SUBSCRIBE "x" true).1 Listener.sampleMid =
        some ((Listener.runKeeping "x" (Listener.init.SUBSCRIBE "x" true).1
          Listener.sampleMid).getD Listener.init) ∧
      (Listener.init.SUBSCRIBE "x" true).2 = 0 ∧
      (((Listener.runKeeping "x" (Listener.init.SUBSCRIBE "x" true).1
          Listener.sampleMid).getD Listener.init).SUBSCRIBE "x" false).2 = 0 :=
  ⟨by decide, by decide,
    (subscribe_idempotent Listener.init _ "x" true false Listener.sampleMid
      (by decide)).1.trans (by decide)⟩

end Redis

namespace Redis

/-! ## The routing table holds confirmed names only -/

theorem confirmedOn_append (log : List (String × String)) (name : String)
    (e : String × String) (h : confirmedOn log name) (he : e ≠ ("unsubscribe", name)) :
    confirmedOn (log ++ [e]) name := by
  obtain ⟨pre, post, hl, hn⟩ := h
  refine ⟨pre, post ++ [e], by simp [hl], ?_⟩
  intro hm
  rcases List.mem_append.mp hm with hm | hm
  · exact hn hm
  · simp only [List.mem_singleton] at hm
    exact he hm.symm

theorem confirmedOn_subscribe (log : List (String × String)) (name : String) :
    confirmedOn (log ++ [("subscribe", name)]) name :=
  ⟨log, [], rfl, by simp⟩

theorem Listener.TableInv_init : Listener.init.TableInv :=
  ⟨by intro n h; simp [Listener.init, mapKeys] at h, fun _ => rfl⟩

theorem Listener.TableInv_same (s t : Listener) (hs : s.TableInv)
    (hc : t.channels = s.channels) (hl : t.pushLog = s.pushLog) (hp : t.pc = s.pc) :
    t.TableInv := by
  refine ⟨?_, ?_⟩
  · intro n h
    rw [hl]; rw [hc] at h
    exact hs.confirmed n h
  · intro h
    rw [hc]
    apply hs.empty
    unfold Listener.afterReset at h ⊢
    rw [hp] at h
    exact h

theorem Listener.TableInv_empty (t : Listener) (hc : t.channels = []) : t.TableInv :=
  ⟨by intro n h; simp [hc, mapKeys] at h, fun _ => hc⟩

theorem Listener.TableInv_dispatch (s : Listener) (ty dest : String) (msg : Bytes)
    (conn : Nat) (hs : s.TableInv) (hpc : s.pc = .receive conn) :
    (s.dispatch ty dest msg).TableInv := by
  obtain ⟨_, _, hch, hlog, hp⟩ := Listener.dispatch_fields s ty dest msg
  refine ⟨?_, ?_⟩
  · intro n hn
    rw [hlog]
    rw [hch] at hn
    by_cases h2 : ty = "subscribe"
    · subst h2
      simp only [if_true] at hn
      by_cases hnd : n = dest
      · subst hnd; exact confirmedOn_subscribe _ _
      · have hold : n ∈ mapKeys s.channels := by
          rw [mem_mapKeys] at hn ⊢
          obtain ⟨v, hv⟩ := hn
          cases hg : mapGet s.channels dest with
          | some c => rw [hg] at hv; exact ⟨v, hv⟩
          | none =>
            rw [hg] at hv
            cases hsub : mapGet s.subs dest with
            | some q =>
              rw [hsub] at hv
              simp only [mapGet_mapSet, hnd, if_false] at hv
              exact ⟨v, hv⟩
            | none => rw [hsub] at hv; exact ⟨v, hv⟩
        exact confirmedOn_append _ _ _ (hs.confirmed n hold) (by simp)
    · simp only [h2, if_false] at hn
      by_cases h3 : ty = "unsubscribe"
      · subst h3
        simp only [if_true] at hn
        rw [mem_mapKeys] at hn
        obtain ⟨v, hv⟩ := hn
        rw [mapGet_mapDelete] at hv
        by_cases hnd : n = dest
        · simp [hnd] at hv
        · simp only [hnd, if_false] at hv
          have hold : n ∈ mapKeys s.channels := (mem_mapKeys _ _).mpr ⟨v, hv⟩
          refine confirmedOn_append _ _ _ (hs.confirmed n hold) ?_
          intro e
          simp only [Prod.mk.injEq, true_and] at e
          exact hnd e.symm
      · simp only [h3, if_false] at hn
        refine confirmedOn_append _ _ _ (hs.confirmed n hn) ?_
        intro e
        simp only [Prod.mk.injEq] at e
        exact h3 e.1
  · intro h
    unfold Listener.afterReset at h
    rw [hp, hpc] at h
    exact h.elim

theorem Listener.TableInv_step (s t : Listener) (a : Action) (hs : s.TableInv)
    (h : s.step a = some t) : t.TableInv := by
  cases a with
  | SUBSCRIBE channel w =>
    simp only [Listener.step, Option.some.injEq] at h
    subst h
    obtain ⟨_, _, _, h4, h5, h6, _⟩ := Listener.SUBSCRIBE_fields s channel w
    exact Listener.TableInv_same s _ hs h4 h5 h6
  | unsubscribe channel w =>
    simp only [Listener.step, Option.some.injEq] at h
    subst h
    obtain ⟨_, _, h4, h5, h6, _⟩ := Listener.unsubscribe_fields s channel w
    exact Listener.TableInv_same s _ hs h4 h5 h6
  | Close =>
    simp only [Listener.step, Option.some.injEq] at h
    subst h
    obtain ⟨_, _, h4, h5, h6, _⟩ := Listener.Close_fields s
    exact Listener.TableInv_same s _ hs h4 h5 h6
  | dialFail =>
    simp only [Listener.step] at h
    split at h
    · rename_i hpc
      have he : s.channels = [] := hs.empty (by unfold Listener.afterReset; rw [hpc]; trivial)
      split at h <;> (cases h; exact Listener.TableInv_empty _ he)
    · cases h
  | dialOk =>
    simp only [Listener.step] at h
    split at h
    · rename_i hpc
      have he : s.channels = [] := hs.empty (by unfold Listener.afterReset; rw [hpc]; trivial)
      split at h
      · cases h
      · cases h; exact Listener.TableInv_empty _ he
    · cases h
  | handshakeFail =>
    simp only [Listener.step] at h
    split at h
    · rename_i conn hpc
      have he : s.channels = [] := hs.empty (by unfold Listener.afterReset; rw [hpc]; trivial)
      cases h; exact Listener.TableInv_empty _ he
    · cases h
  | handshakeOk =>
    simp only [Listener.step] at h
    split at h
    · rename_i conn hpc
      have he : s.channels = [] := hs.empty (by unfold Listener.afterReset; rw [hpc]; trivial)
      cases h; exact Listener.TableInv_empty _ he
    · cases h
  | connected =>
    simp only [Listener.step] at h
    split at h
    · rename_i conn hpc
      have he : s.channels = [] := hs.empty (by unfold Listener.afterReset; rw [hpc]; trivial)
      split at h
      · cases h; exact Listener.TableInv_empty _ he
      · cases h
        exact Listener.TableInv_empty _ ((Listener.reconcile_fields s conn).2.2.2.2.2.2.trans he)
    · cases h
  | resubscribe w =>
    simp only [Listener.step] at h
    split at h
    · rename_i conn hpc
      have he : s.channels = [] := hs.empty (by unfold Listener.afterReset; rw [hpc]; trivial)
      cases h
      exact Listener.TableInv_empty _
        ((Listener.resubscribe_fields s conn w).2.2.2.2.2.2.1.trans he)
    · cases h
  | push ty dest msg =>
    simp only [Listener.step] at h
    split at h
    · rename_i conn hpc
      cases h
      exact Listener.TableInv_dispatch s ty dest msg conn hs hpc
    · cases h
  | receiveErr =>
    simp only [Listener.step] at h
    split at h
    · cases h
      exact ⟨hs.confirmed, fun h => h.elim⟩
    · cases h
  | teardown =>
    simp only [Listener.step] at h
    split at h
    · cases h
      exact Listener.TableInv_empty _ rfl
    · cases h

theorem Listener.TableInv_run (acts : List Action) (s t : Listener) (hs : s.TableInv)
    (h : s.run acts = some t) : t.TableInv := by
  induction acts generalizing s with
  | nil => simp only [Listener.run, Option.some.injEq] at h; rw [← h]; exact hs
  | cons a as ih =>
    simp only [Listener.run] at h
    split at h
    · rename_i u hu
      exact ih u (Listener.TableInv_step s u a hs hu) h
    · cases h

/-- C10 as stated fails: after the `receiveLoop` of a lost connection has
returned and `l.conn` is `nil` again, while the error waits to be reported
and no new connection is dialed, the routing table still holds the name
confirmed on the lost connection. -/
theorem routing_table_kept_until_reset :
    Listener.sampleEnded.Reachable ∧ Listener.sampleEnded.betweenConnections ∧
      Listener.sampleEnded.pc = .ended 0 ∧ Listener.sampleEnded.conn = none ∧
      Listener.sampleEnded.channels = [("x", 0)] ∧ Listener.sampleEnded.channels ≠ [] :=
  ⟨⟨Listener.sampleEndedActs, by decide⟩, by decide, by decide, by decide, by decide, by decide⟩

/-- C10, amended: in every reachable listener state a name is in the routing
table only if a `subscribe` push frame for it was handled on the latest
connection with no `unsubscribe` push frame for it handled afterwards, and
then `connectLoop` is in `receiveLoop` or between its return and the reset of
the table; the table is empty from that reset until the `receiveLoop` of the
next connection has handled a `subscribe` frame. -/
theorem routing_table_confirmed (s : Listener) (h : s.Reachable) :
    (∀ n, n ∈ mapKeys s.channels →
      confirmedOn s.pushLog n ∧ ∃ conn, s.pc = .receive conn ∨ s.pc = .ended conn) ∧
      (s.afterReset → s.channels = []) ∧
      ((∀ n, ("subscribe", n) ∉ s.pushLog) → s.channels = []) := by
  obtain ⟨acts, hr⟩ := h
  have hi := Listener.TableInv_run acts _ s Listener.TableInv_init hr
  refine ⟨?_, hi.empty, ?_⟩
  · intro n hn
    refine ⟨hi.confirmed n hn, ?_⟩
    have hne : s.channels ≠ [] := by
      intro e; rw [e] at hn; simp [mapKeys] at hn
    cases hp : s.pc with
    | receive conn => exact ⟨conn, Or.inl rfl⟩
    | ended conn => exact ⟨conn, Or.inr rfl⟩
    | dial => exact (hne (hi.empty (by unfold Listener.afterReset; rw [hp]; trivial))).elim
    | handshake c =>
      exact (hne (hi.empty (by unfold Listener.afterReset; rw [hp]; trivial))).elim
    | reconcile c =>
      exact (hne (hi.empty (by unfold Listener.afterReset; rw [hp]; trivial))).elim
    | resubscribe c =>
      exact (hne (hi.empty (by unfold Listener.afterReset; rw [hp]; trivial))).elim
    | terminated =>
      exact (hne (hi.empty (by unfold Listener.afterReset; rw [hp]; trivial))).elim
  · intro hno
    cases hc : s.channels with
    | nil => rfl
    | cons e m =>
      exfalso
      have hm : e.1 ∈ mapKeys s.channels := by rw [hc]; simp [mapKeys]
      obtain ⟨pre, post, hl, _⟩ := hi.confirmed e.1 hm
      exact hno e.1 (by rw [hl]; simp)

/-- C10, amended, at the state in which the lost connection is not yet torn
down. -/
theorem routing_table_confirmed_witness :
    Listener.sampleEnded.Reachable ∧
      (∀ n, n ∈ mapKeys Listener.sampleEnded.channels →
        confirmedOn Listener.sampleEnded.pushLog n ∧
          ∃ conn, Listener.sampleEnded.pc = .receive conn ∨
            Listener.sampleEnded.pc = .ended conn) :=
  ⟨⟨Listener.sampleEndedActs, by decide⟩,
    (routing_table_confirmed Listener.sampleEnded ⟨Listener.sampleEndedActs, by decide⟩).1⟩

end Redis

namespace Redis

/-! ## The invariant of the listener -/

theorem Listener.submit_rest (s : Listener) (conn : Nat) (req : Request) (w : Bool) :
    (s.submit conn req w).cancelled = s.cancelled ∧ (s.submit conn req w).closed = s.closed ∧
      (s.submit conn req w).errsClosed = s.errsClosed ∧
      (s.submit conn req w).delivered = s.delivered ∧
      (s.submit conn req w).reconnectDelay = s.reconnectDelay ∧
      (s.submit conn req w).waits = s.waits := by
  unfold Listener.submit
  cases w <;> cases hc : s.cancelled <;> simp [hc]

theorem Listener.SUBSCRIBE_rest (s : Listener) (channel : String) (w : Bool) :
    (s.SUBSCRIBE channel w).1.nextQueue = s.nextQueue + 1 ∧
      (s.SUBSCRIBE channel w).1.conn = s.conn ∧
      (s.SUBSCRIBE channel w).1.cancelled = s.cancelled ∧
      (s.SUBSCRIBE channel w).1.closed = s.closed ∧
      (s.SUBSCRIBE channel w).1.errsClosed = s.errsClosed ∧
      (s.SUBSCRIBE channel w).1.delivered = s.delivered ∧
      (s.SUBSCRIBE channel w).1.reconnectDelay = s.reconnectDelay ∧
      (s.SUBSCRIBE channel w).1.waits = s.waits := by
  unfold Listener.SUBSCRIBE
  cases hg : mapGet s.subs channel <;> cases hc : s.conn <;>
    simp [hg, hc, Listener.submit_fields, Listener.submit_rest]

theorem Listener.unsubscribe_rest (s : Listener) (channel : String) (w : Bool) :
    (s.unsubscribe channel w).nextQueue = s.nextQueue ∧
      (s.unsubscribe channel w).conn = s.conn ∧
      (s.unsubscribe channel w).cancelled = s.cancelled ∧
      (s.unsubscribe channel w).closed = s.closed ∧
      (s.unsubscribe channel w).errsClosed = s.errsClosed ∧
      (s.unsubscribe channel w).delivered = s.delivered ∧
      (s.unsubscribe channel w).reconnectDelay = s.reconnectDelay ∧
      (s.unsubscribe channel w).waits = s.waits := by
  unfold Listener.unsubscribe
  cases hc : s.conn <;> simp [hc, Listener.submit_fields, Listener.submit_rest]

theorem Listener.Close_rest (s : Listener) :
    s.Close.nextQueue = s.nextQueue ∧ s.Close.conn = s.conn ∧ s.Close.cancelled = true ∧
      s.Close.closed = s.closed ∧ s.Close.errsClosed = s.errsClosed ∧
      s.Close.delivered = s.delivered ∧ s.Close.reconnectDelay = s.reconnectDelay ∧
      s.Close.waits = s.waits := by
  unfold Listener.Close
  cases hc : s.conn <;> simp [hc]

theorem Listener.dispatch_rest (s : Listener) (ty dest : String) (msg : Bytes) :
    (s.dispatch ty dest msg).nextQueue = s.nextQueue ∧
      (s.dispatch ty dest msg).conn = s.conn ∧
      (s.dispatch ty dest msg).cancelled = s.cancelled ∧
      (s.dispatch ty dest msg).closed = s.closed ∧
      (s.dispatch ty dest msg).errsClosed = s.errsClosed ∧
      (s.dispatch ty dest msg).reconnectDelay = s.reconnectDelay ∧
      (s.dispatch ty dest msg).waits = s.waits := by
  unfold Listener.dispatch
  by_cases h1 : ty = "message"
  · subst h1
    cases hg : mapGet s.channels dest <;> simp [hg]
  · by_cases h2 : ty = "subscribe"
    · subst h2
      cases hg : mapGet s.channels dest <;> cases hs : mapGet s.subs dest <;> simp [hg, hs]
    · by_cases h3 : ty = "unsubscribe"
      · subst h3
        cases hs : mapGet s.subs dest <;> simp [hs]
      · simp [h1, h2, h3]

theorem Listener.reconcile_rest (s : Listener) (conn : Nat) :
    (s.reconcile conn).nextQueue = s.nextQueue ∧
      (s.reconcile conn).cancelled = s.cancelled ∧ (s.reconcile conn).closed = s.closed ∧
      (s.reconcile conn).errsClosed = s.errsClosed ∧
      (s.reconcile conn).delivered = s.delivered ∧
      (s.reconcile conn).reconnectDelay = s.reconnectDelay ∧
      (s.reconcile conn).waits = s.waits := by
  have e : s.reconcile conn =
      { Listener.applyUnsubs s.unsubs { s with conn := some conn } with
        pc := .resubscribe conn } := rfl
  rw [e, Listener.applyUnsubs_eq]
  exact ⟨rfl, rfl, rfl, rfl, rfl, rfl, rfl⟩

theorem Listener.resubscribe_rest (t : Listener) (conn : Nat) (w : Bool) :
    (t.resubscribe conn w).nextQueue = t.nextQueue ∧
      (t.resubscribe conn w).cancelled = t.cancelled ∧
      (t.resubscribe conn w).closed = t.closed ∧
      (t.resubscribe conn w).errsClosed = t.errsClosed ∧
      (t.resubscribe conn w).delivered = t.delivered ∧
      (t.resubscribe conn w).reconnectDelay = t.reconnectDelay ∧
      (t.resubscribe conn w).waits = t.waits := by
  obtain ⟨_, _, _, _, _, _, _, _, h9⟩ :=
    Listener.submit_fields t conn (.subscribe (mapKeys t.subs)) w
  obtain ⟨r1, r2, r3, r4, r5, r6⟩ :=
    Listener.submit_rest t conn (.subscribe (mapKeys t.subs)) w
  unfold Listener.resubscribe
  by_cases h : t.subs.length ≠ 0
  · rw [if_pos h]
    exact ⟨h9, r1, r2, r3, r4, r5, r6⟩
  · rw [if_neg h]
    exact ⟨rfl, rfl, rfl, rfl, rfl, rfl, rfl⟩

theorem Listener.Inv_at_init : Listener.init.Inv := by
  refine ⟨?_, ?_, ?_, ?_, ?_, ?_⟩
  · intro n q h; simp [Listener.init, mapGet] at h
  · intro n q h; simp [Listener.init, mapGet] at h
  · intro n m q h; simp [Listener.init, mapGet] at h
  · intro c h; simp [Listener.init] at h
  · intro h; simp [Listener.init] at h
  · intro h; simp [Listener.init] at h

theorem Listener.Inv_shutdown (s : Listener) (hs : s.Inv) (hc : s.cancelled = true)
    (hconn : s.conn = none) : s.shutdown.Inv := by
  refine ⟨hs.sub, hs.fresh, hs.inj, ?_, ?_, ?_⟩
  · intro c h
    have : s.conn = some c := h
    rw [hconn] at this; cases this
  · intro _; exact ⟨rfl, hc, rfl⟩
  · intro _; rfl

theorem Listener.Inv_SUBSCRIBE (s : Listener) (channel : String) (w : Bool) (hs : s.Inv) :
    (s.SUBSCRIBE channel w).1.Inv := by
  obtain ⟨f1, _, _, f4, _, f6, _⟩ := Listener.SUBSCRIBE_fields s channel w
  obtain ⟨r1, r2, r3, r4, r5, _⟩ := Listener.SUBSCRIBE_rest s channel w
  have hsubs : ∀ n q, mapGet (s.SUBSCRIBE channel w).1.subs n = some q →
      mapGet s.subs n = some q ∨ (n = channel ∧ q = s.nextQueue ∧ mapGet s.subs channel = none) := by
    intro n q h
    rw [f1] at h
    cases hg : mapGet s.subs channel with
    | some c => rw [hg] at h; exact Or.inl h
    | none =>
      rw [hg] at h
      simp only [mapGet_mapSet] at h
      by_cases hn : n = channel
      · simp only [hn, if_true, Option.some.injEq] at h
        exact Or.inr ⟨hn, h.symm, rfl⟩
      · simp only [hn, if_false] at h
        exact Or.inl h
  have hkeep : ∀ n q, mapGet s.subs n = some q →
      mapGet (s.SUBSCRIBE channel w).1.subs n = some q := by
    intro n q h
    rw [f1]
    cases hg : mapGet s.subs channel with
    | some c => exact h
    | none =>
      have hn : n ≠ channel := by intro e; rw [e, hg] at h; cases h
      simp only [mapGet_mapSet, hn, if_false]
      exact h
  refine ⟨?_, ?_, ?_, ?_, ?_, ?_⟩
  · intro n q h
    rw [f4] at h
    exact hkeep n q (hs.sub n q h)
  · intro n q h
    rw [r1]
    rcases hsubs n q h with h1 | ⟨_, h2, _⟩
    · exact Nat.lt_succ_of_lt (hs.fresh n q h1)
    · rw [h2]; exact Nat.lt_succ_self _
  · intro n m q hn hm
    rcases hsubs n q hn with h1 | ⟨a1, a2, _⟩
    · rcases hsubs m q hm with h2 | ⟨_, b2, _⟩
      · exact hs.inj n m q h1 h2
      · have := hs.fresh n q h1
        rw [b2] at this
        exact (Nat.lt_irrefl _ this).elim
    · rcases hsubs m q hm with h2 | ⟨b1, _, _⟩
      · have := hs.fresh m q h2
        rw [a2] at this
        exact (Nat.lt_irrefl _ this).elim
      · rw [a1, b1]
  · intro c h
    rw [r2] at h
    rw [f6]
    exact hs.connPc c h
  · intro h
    rw [r4] at h
    rw [f6, r3, r5]
    exact hs.term h
  · intro h
    rw [f6] at h
    rw [r4]
    exact hs.termPc h

theorem Listener.Inv_dispatch (s : Listener) (ty dest : String) (msg : Bytes) (hs : s.Inv) :
    (s.dispatch ty dest msg).Inv := by
  obtain ⟨f1, _, f3, _, f5⟩ := Listener.dispatch_fields s ty dest msg
  obtain ⟨r1, r2, r3, r4, r5, _⟩ := Listener.dispatch_rest s ty dest msg
  have hsubs : ∀ n q, mapGet (s.dispatch ty dest msg).subs n = some q →
      mapGet s.subs n = some q ∧ (ty = "unsubscribe" → n ≠ dest) := by
    intro n q h
    rw [f1] at h
    by_cases hu : ty = "unsubscribe"
    · simp only [hu, if_true, mapGet_mapDelete] at h
      by_cases hn : n = dest
      · simp [hn] at h
      · simp only [hn, if_false] at h
        exact ⟨h, fun _ => hn⟩
    · simp only [hu, if_false] at h
      exact ⟨h, fun e => (hu e).elim⟩
  refine ⟨?_, ?_, ?_, ?_, ?_, ?_⟩
  · intro n q h
    rw [f3] at h
    rw [f1]
    by_cases h2 : ty = "subscribe"
    · have hu : ¬ ty = "unsubscribe" := by rw [h2]; decide
      simp only [hu, if_false]
      simp only [h2, if_true] at h
      cases hg : mapGet s.channels dest with
      | some c => rw [hg] at h; exact hs.sub n q h
      | none =>
        rw [hg] at h
        cases hsub : mapGet s.subs dest with
        | none => rw [hsub] at h; exact hs.sub n q h
        | some sub =>
          rw [hsub] at h
          simp only [mapGet_mapSet] at h
          by_cases hn : n = dest
          · simp only [hn, if_true, Option.some.injEq] at h
            rw [hn, ← h]; exact hsub
          · simp only [hn, if_false] at h
            exact hs.sub n q h
    · simp only [h2, if_false] at h
      by_cases hu : ty = "unsubscribe"
      · simp only [hu, if_true, mapGet_mapDelete] at h ⊢
        by_cases hn : n = dest
        · simp [hn] at h
        · simp only [hn, if_false] at h ⊢
          exact hs.sub n q h
      · simp only [hu, if_false] at h ⊢
        exact hs.sub n q h
  · intro n q h
    rw [r1]
    exact hs.fresh n q (hsubs n q h).1
  · intro n m q hn hm
    exact hs.inj n m q (hsubs n q hn).1 (hsubs m q hm).1
  · intro c h
    rw [r2] at h
    rw [f5]
    exact hs.connPc c h
  · intro h
    rw [r4] at h
    rw [f5, r3, r5]
    exact hs.term h
  · intro h
    rw [f5] at h
    rw [r4]
    exact hs.termPc h

theorem Listener.Inv_reconcile (s : Listener) (conn : Nat) (hs : s.Inv)
    (he : s.channels = []) (hpc : s.pc = .reconcile conn) : (s.reconcile conn).Inv := by
  obtain ⟨_, f2, _, _, f5, f6, f7⟩ := Listener.reconcile_fields s conn
  obtain ⟨r1, r2, r3, r4, _⟩ := Listener.reconcile_rest s conn
  have hsubs : ∀ n q, mapGet (s.reconcile conn).subs n = some q → mapGet s.subs n = some q := by
    intro n q h
    rw [f2, mapGet_filter s.subs (fun k => decide (k ∉ s.unsubs)) n] at h
    by_cases hn : n ∈ s.unsubs
    · simp [hn] at h
    · simpa [hn] using h
  have hncl : s.closed = false := by
    cases hcl : s.closed with
    | false => rfl
    | true =>
      have := (hs.term hcl).1
      rw [hpc] at this; cases this
  refine ⟨?_, ?_, ?_, ?_, ?_, ?_⟩
  · intro n q h
    rw [f7, he] at h
    simp [mapGet] at h
  · intro n q h
    rw [r1]
    exact hs.fresh n q (hsubs n q h)
  · intro n m q hn hm
    exact hs.inj n m q (hsubs n q hn) (hsubs m q hm)
  · intro c h
    rw [f5] at h
    cases h
    exact Or.inl f6
  · intro h
    rw [r3, hncl] at h; cases h
  · intro h
    rw [f6] at h; cases h

theorem Listener.Inv_preserved (s t : Listener) (a : Action) (hs : s.Inv) (ht : s.TableInv)
    (h : s.step a = some t) : t.Inv := by
  have hclosed : s.pc ≠ .terminated → s.closed = false := by
    intro hp
    cases hcl : s.closed with
    | false => rfl
    | true => exact (hp (hs.term hcl).1).elim
  have hconn : (∀ c, s.pc ≠ .resubscribe c ∧ s.pc ≠ .receive c) → s.conn = none := by
    intro hp
    cases hc : s.conn with
    | none => rfl
    | some c =>
      rcases hs.connPc c hc with h1 | h1
      · exact ((hp c).1 h1).elim
      · exact ((hp c).2 h1).elim
  cases a with
  | SUBSCRIBE channel w =>
    simp only [Listener.step, Option.some.injEq] at h
    subst h
    exact Listener.Inv_SUBSCRIBE s channel w hs
  | unsubscribe channel w =>
    simp only [Listener.step, Option.some.injEq] at h
    subst h
    obtain ⟨f1, _, f3, _, f5, _⟩ := Listener.unsubscribe_fields s channel w
    obtain ⟨r1, r2, r3, r4, r5, _⟩ := Listener.unsubscribe_rest s channel w
    refine ⟨?_, ?_, ?_, ?_, ?_, ?_⟩
    · rw [f1, f3]; exact hs.sub
    · rw [f1, r1]; exact hs.fresh
    · rw [f1]; exact hs.inj
    · rw [r2, f5]; exact hs.connPc
    · rw [r4, f5, r3, r5]; exact hs.term
    · rw [f5, r4]; exact hs.termPc
  | Close =>
    simp only [Listener.step, Option.some.injEq] at h
    subst h
    obtain ⟨f1, _, f3, _, f5, _⟩ := Listener.Close_fields s
    obtain ⟨r1, r2, r3, r4, r5, _⟩ := Listener.Close_rest s
    refine ⟨?_, ?_, ?_, ?_, ?_, ?_⟩
    · rw [f1, f3]; exact hs.sub
    · rw [f1, r1]; exact hs.fresh
    · rw [f1]; exact hs.inj
    · rw [r2, f5]; exact hs.connPc
    · rw [r4, f5, r3, r5]
      intro hc
      exact ⟨(hs.term hc).1, rfl, (hs.term hc).2.2⟩
    · rw [f5, r4]; exact hs.termPc
  | dialFail =>
    simp only [Listener.step] at h
    split at h
    · rename_i hpc
      have hcn : s.conn = none := hconn (by intro c; rw [hpc]; exact ⟨by simp, by simp⟩)
      have hcl : s.closed = false := hclosed (by rw [hpc]; simp)
      split at h
      · rename_i hc
        cases h
        exact Listener.Inv_shutdown s hs hc hcn
      · cases h
        refine ⟨hs.sub, hs.fresh, hs.inj, hs.connPc, ?_, ?_⟩
        · intro hc
          have : s.closed = true := hc
          rw [hcl] at this; cases this
        · intro hp
          have : s.pc = .terminated := hp
          rw [hpc] at this; cases this
    · cases h
  | dialOk =>
    simp only [Listener.step] at h
    split at h
    · rename_i hpc
      have hcn : s.conn = none := hconn (by intro c; rw [hpc]; exact ⟨by simp, by simp⟩)
      have hcl : s.closed = false := hclosed (by rw [hpc]; simp)
      split at h
      · cases h
      · cases h
        refine ⟨hs.sub, hs.fresh, hs.inj, ?_, ?_, ?_⟩
        · intro c hc
          have : s.conn = some c := hc
          rw [hcn] at this; cases this
        · intro hc
          have : s.closed = true := hc
          rw [hcl] at this; cases this
        · intro hp; cases hp
    · cases h
  | handshakeFail =>
    simp only [Listener.step] at h
    split at h
    · rename_i conn hpc
      have hcn : s.conn = none := hconn (by intro c; rw [hpc]; exact ⟨by simp, by simp⟩)
      have hcl : s.closed = false := hclosed (by rw [hpc]; simp)
      cases h
      refine ⟨hs.sub, hs.fresh, hs.inj, ?_, ?_, ?_⟩
      · intro c hc
        have : s.conn = some c := hc
        rw [hcn] at this; cases this
      · intro hc
        have : s.closed = true := hc
        rw [hcl] at this; cases this
      · intro hp; cases hp
    · cases h
  | handshakeOk =>
    simp only [Listener.step] at h
    split at h
    · rename_i conn hpc
      have hcn : s.conn = none := hconn (by intro c; rw [hpc]; exact ⟨by simp, by simp⟩)
      have hcl : s.closed = false := hclosed (by rw [hpc]; simp)
      cases h
      refine ⟨hs.sub, hs.fresh, hs.inj, ?_, ?_, ?_⟩
      · intro c hc
        have : s.conn = some c := hc
        rw [hcn] at this; cases this
      · intro hc
        have : s.closed = true := hc
        rw [hcl] at this; cases this
      · intro hp; cases hp
    · cases h
  | connected =>
    simp only [Listener.step] at h
    split at h
    · rename_i conn hpc
      have hcn : s.conn = none := hconn (by intro c; rw [hpc]; exact ⟨by simp, by simp⟩)
      have he : s.channels = [] := ht.empty (by unfold Listener.afterReset; rw [hpc]; trivial)
      split at h
      · rename_i hc
        cases h
        exact Listener.Inv_shutdown { s with connClosed := s.connClosed ++ [conn] }
          ⟨hs.sub, hs.fresh, hs.inj, hs.connPc, hs.term, hs.termPc⟩ hc hcn
      · cases h
        exact Listener.Inv_reconcile s conn hs he hpc
    · cases h
  | resubscribe w =>
    simp only [Listener.step] at h
    split at h
    · rename_i conn hpc
      have hcl : s.closed = false := hclosed (by rw [hpc]; simp)
      cases h
      obtain ⟨_, f2, _, f4, f5, _, f7, _⟩ := Listener.resubscribe_fields s conn w
      obtain ⟨r1, _, r3, _⟩ := Listener.resubscribe_rest s conn w
      refine ⟨?_, ?_, ?_, ?_, ?_, ?_⟩
      · rw [f2, f7]; exact hs.sub
      · rw [f2, r1]; exact hs.fresh
      · rw [f2]; exact hs.inj
      · intro c hc
        rw [f4] at hc
        rcases hs.connPc c hc with h1 | h1
        · rw [hpc] at h1
          cases h1
          exact Or.inr f5
        · rw [hpc] at h1; cases h1
      · intro hc
        rw [r3, hcl] at hc; cases hc
      · intro hp
        rw [f5] at hp; cases hp
    · cases h
  | push ty dest msg =>
    simp only [Listener.step] at h
    split at h
    · cases h
      exact Listener.Inv_dispatch s ty dest msg hs
    · cases h
  | receiveErr =>
    simp only [Listener.step] at h
    split at h
    · rename_i conn hpc
      have hcl : s.closed = false := hclosed (by rw [hpc]; simp)
      cases h
      refine ⟨hs.sub, hs.fresh, hs.inj, ?_, ?_, ?_⟩
      · intro c hc; cases hc
      · intro hc
        have : s.closed = true := hc
        rw [hcl] at this; cases this
      · intro hp; cases hp
    · cases h
  | teardown =>
    simp only [Listener.step] at h
    split at h
    · rename_i conn hpc
      have hcn : s.conn = none := hconn (by intro c; rw [hpc]; exact ⟨by simp, by simp⟩)
      have hcl : s.closed = false := hclosed (by rw [hpc]; simp)
      cases h
      refine ⟨?_, ?_, ?_, ?_, ?_, ?_⟩
      · intro n q hq
        simp [mapGet] at hq
      · intro n q hq
        split at hq <;> split <;> exact hs.fresh n q hq
      · intro n m q hn hm
        split at hn <;> split at hm <;> exact hs.inj n m q hn hm
      · intro c hc
        have : s.conn = some c := by
          split at hc <;> exact hc
        rw [hcn] at this; cases this
      · intro hc
        have : s.closed = true := by
          split at hc <;> exact hc
        rw [hcl] at this; cases this
      · intro hp; cases hp
    · cases h

theorem Listener.Inv_preserved_run (acts : List Action) (s t : Listener) (hs : s.Inv)
    (ht : s.TableInv) (h : s.run acts = some t) : t.Inv ∧ t.TableInv := by
  induction acts generalizing s with
  | nil =>
    simp only [Listener.run, Option.some.injEq] at h
    rw [← h]; exact ⟨hs, ht⟩
  | cons a as ih =>
    simp only [Listener.run] at h
    split at h
    · rename_i u hu
      exact ih u (Listener.Inv_preserved s u a hs ht hu) (Listener.TableInv_step s u a ht hu) h
    · cases h

theorem Listener.Inv_reachable (s : Listener) (h : s.Reachable) : s.Inv ∧ s.TableInv := by
  obtain ⟨acts, hr⟩ := h
  exact Listener.Inv_preserved_run acts _ s Listener.Inv_at_init Listener.TableInv_init hr

end Redis

namespace Redis

theorem mapGet_mem_values (m : List (String × Nat)) (n : String) (q : Nat)
    (h : mapGet m n = some q) : q ∈ m.map Prod.snd := by
  induction m with
  | nil => simp [mapGet] at h
  | cons e m ih =>
    obtain ⟨a, v⟩ := e
    by_cases ha : a = n
    · simp only [mapGet, ha, if_true, Option.some.injEq] at h
      simp [h]
    · simp only [mapGet, ha, if_false] at h
      simp [ih h]

theorem Listener.step_push (s t : Listener) (ty dest : String) (msg : Bytes)
    (h : s.step (.push ty dest msg) = some t) :
    t = s.dispatch ty dest msg ∧ ∃ conn, s.pc = .receive conn := by
  simp only [Listener.step] at h
  split at h
  · rename_i conn hpc
    cases h
    exact ⟨rfl, conn, hpc⟩
  · cases h

/-- C11: in every reachable listener state the routing table is a part of
the intent map: a name of the routing table is a name of the intent map and
has the same message queue there. -/
theorem routing_table_subset_of_intent (s : Listener) (h : s.Reachable) :
    (∀ n q, mapGet s.channels n = some q → mapGet s.subs n = some q) ∧
      (∀ n, n ∈ mapKeys s.channels → n ∈ mapKeys s.subs) := by
  have hi := (Listener.Inv_reachable s h).1
  refine ⟨hi.sub, ?_⟩
  intro n hn
  rw [mem_mapKeys] at hn ⊢
  obtain ⟨q, hq⟩ := hn
  exact ⟨q, hi.sub n q hq⟩

/-- C11, at a listener with one confirmed and one unconfirmed name. -/
theorem routing_table_subset_of_intent_witness :
    Listener.sampleReceiving.Reachable ∧
      Listener.sampleReceiving.channels = [("x", 0)] ∧
      Listener.sampleReceiving.subs = [("x", 0), ("y", 1)] ∧
      ∀ n, n ∈ mapKeys Listener.sampleReceiving.channels →
        n ∈ mapKeys Listener.sampleReceiving.subs :=
  ⟨⟨Listener.sampleReceivingActs, by decide⟩, by decide, by decide,
    (routing_table_subset_of_intent Listener.sampleReceiving
      ⟨Listener.sampleReceivingActs, by decide⟩).2⟩

theorem payloadsOf_append (q : Nat) (d e : List (Nat × Bytes)) :
    payloadsOf q (d ++ e) = payloadsOf q d ++ payloadsOf q e := by
  simp [payloadsOf]

theorem Listener.delivered_step (q : Nat) (s t : Listener) (a : Action)
    (h : s.step a = some t) :
    payloadsOf q t.delivered = payloadsOf q s.delivered ++ s.messageFor q a := by
  have hsame : ∀ u : Listener, u.delivered = s.delivered →
      (∀ ty dest msg, a = .push ty dest msg →
        ¬ (ty = "message" ∧ mapGet s.channels dest = some q)) →
      payloadsOf q u.delivered = payloadsOf q s.delivered ++ s.messageFor q a := by
    intro u hu hno
    rw [hu]
    cases a with
    | push ty dest msg =>
      have := hno ty dest msg rfl
      simp only [Listener.messageFor, this, if_false, List.append_nil]
    | _ => simp [Listener.messageFor]
  cases a with
  | SUBSCRIBE channel w =>
    simp only [Listener.step, Option.some.injEq] at h
    subst h
    exact hsame _ (Listener.SUBSCRIBE_rest s channel w).2.2.2.2.2.1 (by intro _ _ _ e; cases e)
  | unsubscribe channel w =>
    simp only [Listener.step, Option.some.injEq] at h
    subst h
    exact hsame _ (Listener.unsubscribe_rest s channel w).2.2.2.2.2.1 (by intro _ _ _ e; cases e)
  | Close =>
    simp only [Listener.step, Option.some.injEq] at h
    subst h
    exact hsame _ (Listener.Close_rest s).2.2.2.2.2.1 (by intro _ _ _ e; cases e)
  | dialFail =>
    simp only [Listener.step] at h
    split at h
    · split at h <;> (cases h; exact hsame _ rfl (by intro _ _ _ e; cases e))
    · cases h
  | dialOk =>
    simp only [Listener.step] at h
    split at h
    · split at h
      · cases h
      · cases h; exact hsame _ rfl (by intro _ _ _ e; cases e)
    · cases h
  | handshakeFail =>
    simp only [Listener.step] at h
    split at h
    · cases h; exact hsame _ rfl (by intro _ _ _ e; cases e)
    · cases h
  | handshakeOk =>
    simp only [Listener.step] at h
    split at h
    · cases h; exact hsame _ rfl (by intro _ _ _ e; cases e)
    · cases h
  | connected =>
    simp only [Listener.step] at h
    split at h
    · rename_i conn hpc
      split at h
      · cases h; exact hsame _ rfl (by intro _ _ _ e; cases e)
      · cases h
        exact hsame _ (Listener.reconcile_rest s conn).2.2.2.2.1 (by intro _ _ _ e; cases e)
    · cases h
  | resubscribe w =>
    simp only [Listener.step] at h
    split at h
    · rename_i conn hpc
      cases h
      exact hsame _ (Listener.resubscribe_rest s conn w).2.2.2.2.1 (by intro _ _ _ e; cases e)
    · cases h
  | push ty dest msg =>
    obtain ⟨rfl, _⟩ := Listener.step_push s t ty dest msg h
    by_cases h1 : ty = "message"
    · subst h1
      cases hg : mapGet s.channels dest with
      | none =>
        simp [Listener.messageFor, Listener.dispatch, hg]
      | some ch =>
        by_cases hq : ch = q
        · subst hq
          simp [Listener.messageFor, Listener.dispatch, hg, payloadsOf]
        · simp [Listener.messageFor, Listener.dispatch, hg, payloadsOf, hq]
    · have hd : (s.dispatch ty dest msg).delivered = s.delivered := by
        unfold Listener.dispatch
        by_cases h2 : ty = "subscribe"
        · subst h2
          cases hg : mapGet s.channels dest <;> cases hs : mapGet s.subs dest <;> simp [hg, hs]
        · by_cases h3 : ty = "unsubscribe"
          · subst h3
            cases hs : mapGet s.subs dest <;> simp [hs]
          · simp [h1, h2, h3]
      refine hsame _ hd ?_
      intro ty2 dest2 msg2 e
      cases e
      intro hm
      exact h1 hm.1
  | receiveErr =>
    simp only [Listener.step] at h
    split at h
    · cases h; exact hsame _ rfl (by intro _ _ _ e; cases e)
    · cases h
  | teardown =>
    simp only [Listener.step] at h
    split at h
    · cases h
      refine hsame _ ?_ (by intro _ _ _ e; cases e)
      split <;> rfl
    · cases h

theorem Listener.delivered_run (q : Nat) (acts : List Action) (s t : Listener)
    (h : s.run acts = some t) :
    payloadsOf q t.delivered = payloadsOf q s.delivered ++ Listener.messagesFor q s acts := by
  induction acts generalizing s with
  | nil =>
    simp only [Listener.run, Option.some.injEq] at h
    subst h
    simp [Listener.messagesFor]
  | cons a as ih =>
    simp only [Listener.run] at h
    split at h
    · rename_i u hu
      have h1 := Listener.delivered_step q s u a hu
      have h2 := ih u h
      rw [h2, h1]
      simp only [Listener.messagesFor, hu, List.append_assoc]
    · cases h

/-- C12: a `message` push frame with name `n` and payload `p` hands `p`
once to the queue the routing table holds for `n`, and to no other queue, or
drops `p` when `n` is not in the routing table; the intent map, the pending
unsubscribes, the routing table and the closed queues stay as they are. Hence
over any run the payloads a queue receives are, in order, the payloads of the
message frames whose name was in the routing table with that queue when they
arrived, and a queue is in the routing table under one name only, the name
the intent map holds it for. -/
theorem message_frame_delivery (s t : Listener) (n : String) (p : Bytes)
    (hr : s.Reachable) (h : s.step (.push "message" n p) = some t) :
    (∀ q, mapGet s.channels n = some q → t.delivered = s.delivered ++ [(q, p)]) ∧
      (mapGet s.channels n = none → t.delivered = s.delivered) ∧
      t.subs = s.subs ∧ t.unsubs = s.unsubs ∧ t.channels = s.channels ∧
      t.closedQueues = s.closedQueues ∧
      (∀ q acts u, t.run acts = some u →
        payloadsOf q u.delivered =
          payloadsOf q s.delivered ++ Listener.messagesFor q s (.push "message" n p :: acts)) ∧
      (∀ q m1 m2, mapGet s.channels m1 = some q → mapGet s.channels m2 = some q →
        m1 = m2 ∧ mapGet s.subs m1 = some q) := by
  obtain ⟨rfl, _⟩ := Listener.step_push s t "message" n p h
  have hi := (Listener.Inv_reachable s hr).1
  refine ⟨?_, ?_, ?_, ?_, ?_, ?_, ?_, ?_⟩
  · intro q hq
    simp [Listener.dispatch, hq]
  · intro hq
    simp [Listener.dispatch, hq]
  · rw [(Listener.dispatch_fields s "message" n p).1]; simp
  · rw [(Listener.dispatch_fields s "message" n p).2.1]; simp
  · rw [(Listener.dispatch_fields s "message" n p).2.2.1]; simp
  · cases hq : mapGet s.channels n <;> simp [Listener.dispatch, hq]
  · intro q acts u hu
    have hrun : s.run (.push "message" n p :: acts) = some u := by
      simp only [Listener.run, h]
      exact hu
    exact Listener.delivered_run q _ s u hrun
  · intro q m1 m2 h1 h2
    exact ⟨hi.inj m1 m2 q (hi.sub m1 q h1) (hi.sub m2 q h2), hi.sub m1 q h1⟩

/-- C12, at messages for a confirmed name and for a name confirmed later. -/
theorem message_frame_delivery_witness :
    Listener.sampleReceiving.Reachable ∧
      Listener.sampleReceiving.step (.push "message" "x" [1]) =
        some ((Listener.sampleReceiving.step (.push "message" "x" [1])).getD Listener.init) ∧
      ((Listener.sampleReceiving.step (.push "message" "x" [1])).getD Listener.init).delivered =
        [(0, [1])] ∧
      Listener.messagesFor 0 Listener.sampleReceiving Listener.sampleMessages = [[1], [4]] ∧
      Listener.messagesFor 1 Listener.sampleReceiving Listener.sampleMessages = [[3]] ∧
      payloadsOf 1 ((Listener.sampleReceiving.run Listener.sampleMessages).getD
        Listener.init).delivered = [[3]] :=
  ⟨⟨Listener.sampleReceivingActs, by decide⟩, by decide,
    ((message_frame_delivery Listener.sampleReceiving _ "x" [1]
      ⟨Listener.sampleReceivingActs, by decide⟩ (by decide)).1 0 (by decide)).trans (by decide),
    by decide, by decide, by decide⟩

/-- C13: a `subscribe` push frame with name `n` makes the routing table hold
for `n` the queue of the intent map when `n` is in the intent map, and leaves
the routing table as it is when `n` is not; the intent map, the pending
unsubscribes and the other entries of the routing table stay as they are, and
no queue is closed and no message delivered. -/
theorem subscribe_frame_promotes (s t : Listener) (n : String) (msg : Bytes)
    (hr : s.Reachable) (h : s.step (.push "subscribe" n msg) = some t) :
    (∀ q, mapGet s.subs n = some q → mapGet t.channels n = some q) ∧
      (mapGet s.subs n = none → t.channels = s.channels) ∧
      t.subs = s.subs ∧ t.unsubs = s.unsubs ∧
      (∀ m, m ≠ n → mapGet t.channels m = mapGet s.channels m) ∧
      t.closedQueues = s.closedQueues ∧ t.delivered = s.delivered := by
  obtain ⟨rfl, _⟩ := Listener.step_push s t "subscribe" n msg h
  have hi := (Listener.Inv_reachable s hr).1
  obtain ⟨f1, f2, f3, _, _⟩ := Listener.dispatch_fields s "subscribe" n msg
  have hne : ¬ ("subscribe" = "unsubscribe") := by decide
  simp only [hne, if_false] at f1 f2
  simp only [if_true] at f3
  refine ⟨?_, ?_, f1, f2, ?_, ?_, ?_⟩
  · intro q hq
    rw [f3]
    cases hg : mapGet s.channels n with
    | some c =>
      have := hi.sub n c hg
      rw [hq] at this
      simp only [Option.some.injEq] at this
      rw [hg, this]
    | none => simp [hq, mapGet_mapSet]
  · intro hq
    rw [f3]
    cases hg : mapGet s.channels n with
    | some c => rfl
    | none => simp [hq]
  · intro m hm
    rw [f3]
    cases hg : mapGet s.channels n with
    | some c => rfl
    | none =>
      cases hq : mapGet s.subs n with
      | none => rfl
      | some q => simp [mapGet_mapSet, hm]
  · cases hg : mapGet s.channels n <;> cases hq : mapGet s.subs n <;>
      simp [Listener.dispatch, hg, hq]
  · cases hg : mapGet s.channels n <;> cases hq : mapGet s.subs n <;>
      simp [Listener.dispatch, hg, hq]

/-- C13, at the confirmation of a requested name. -/
theorem subscribe_frame_promotes_witness :
    Listener.sampleResubscribed.Reachable ∧
      Listener.sampleResubscribed.step (.push "subscribe" "x" []) =
        some ((Listener.sampleResubscribed.step (.push "subscribe" "x" [])).getD Listener.init) ∧
      mapGet Listener.sampleResubscribed.subs "x" = some 0 ∧
      Listener.sampleResubscribed.channels = [] ∧
      mapGet ((Listener.sampleResubscribed.step (.push "subscribe" "x" [])).getD
        Listener.init).channels "x" = some 0 :=
  ⟨⟨Listener.sampleResubscribedActs, by decide⟩, by decide, by decide, by decide,
    (subscribe_frame_promotes Listener.sampleResubscribed _ "x" []
      ⟨Listener.sampleResubscribedActs, by decide⟩ (by decide)).1 0 (by decide)⟩

/-- C14: an `unsubscribe` push frame with name `n` takes `n` out of the
routing table, of the intent map and of the pending unsubscribes and closes
the queue the intent map held for `n`, if any; the entries of every other
name stay as they are and the queue of no other name is closed. -/
theorem unsubscribe_frame_demotes (s t : Listener) (n : String) (msg : Bytes)
    (hr : s.Reachable) (h : s.step (.push "unsubscribe" n msg) = some t) :
    mapGet t.channels n = none ∧ mapGet t.subs n = none ∧ n ∉ t.unsubs ∧
      t.closedQueues = s.closedQueues ++
        (match mapGet s.subs n with
          | some q => [q]
          | none => []) ∧
      (∀ m, m ≠ n → mapGet t.channels m = mapGet s.channels m ∧
        mapGet t.subs m = mapGet s.subs m ∧ (m ∈ t.unsubs ↔ m ∈ s.unsubs)) ∧
      (∀ m q, m ≠ n → mapGet s.subs m = some q →
        (q ∈ t.closedQueues ↔ q ∈ s.closedQueues)) ∧
      t.delivered = s.delivered := by
  obtain ⟨rfl, _⟩ := Listener.step_push s t "unsubscribe" n msg h
  have hi := (Listener.Inv_reachable s hr).1
  obtain ⟨f1, f2, f3, _, _⟩ := Listener.dispatch_fields s "unsubscribe" n msg
  have hne : ¬ ("unsubscribe" = "subscribe") := by decide
  simp only [if_true] at f1 f2
  simp only [hne, if_false, if_true] at f3
  have hcl : (s.dispatch "unsubscribe" n msg).closedQueues = s.closedQueues ++
      (match mapGet s.subs n with
        | some q => [q]
        | none => []) := by
    cases hq : mapGet s.subs n <;> simp [Listener.dispatch, hq]
  refine ⟨?_, ?_, ?_, hcl, ?_, ?_, ?_⟩
  · rw [f3, mapGet_mapDelete]; simp
  · rw [f1, mapGet_mapDelete]; simp
  · rw [f2]; simp [setDelete]
  · intro m hm
    refine ⟨?_, ?_, ?_⟩
    · rw [f3, mapGet_mapDelete]; simp [hm]
    · rw [f1, mapGet_mapDelete]; simp [hm]
    · rw [f2]; simp [setDelete, hm]
  · intro m q hm hq
    rw [hcl]
    cases hn : mapGet s.subs n with
    | none => simp
    | some q2 =>
      have hqq : q ≠ q2 := by
        intro e
        rw [e] at hq
        exact hm (hi.inj m n q2 hq hn)
      simp [hqq]
  · cases hq : mapGet s.subs n <;> simp [Listener.dispatch, hq]

/-- C14, at the unsubscribe confirmation of a confirmed name. -/
theorem unsubscribe_frame_demotes_witness :
    Listener.sampleReceiving.Reachable ∧
      Listener.sampleReceiving.step (.push "unsubscribe" "x" []) =
        some ((Listener.sampleReceiving.step (.push "unsubscribe" "x" [])).getD Listener.init) ∧
      ((Listener.sampleReceiving.step (.push "unsubscribe" "x" [])).getD
        Listener.init).closedQueues = [0] ∧
      ((Listener.sampleReceiving.step (.push "unsubscribe" "x" [])).getD
        Listener.init).subs = [("y", 1)] :=
  ⟨⟨Listener.sampleReceivingActs, by decide⟩, by decide,
    (unsubscribe_frame_demotes Listener.sampleReceiving _ "x" []
      ⟨Listener.sampleReceivingActs, by decide⟩ (by decide)).2.2.2.1.trans (by decide),
    by decide⟩

end Redis

namespace Redis

/-! ## Which steps close a queue -/

theorem Listener.run_append (s : Listener) (as bs : List Action) :
    s.run (as ++ bs) = (s.run as).bind (fun t => t.run bs) := by
  induction as generalizing s with
  | nil => simp [Listener.run]
  | cons a as ih =>
    simp only [List.cons_append, Listener.run]
    cases hs : s.step a with
    | none => simp
    | some t => exact ih t

theorem Listener.closedQueues_step (s t : Listener) (a : Action) (h : s.step a = some t) :
    t.closedQueues = s.closedQueues ∨
      (∃ n msg q, a = .push "unsubscribe" n msg ∧ mapGet s.subs n = some q ∧
        t.closedQueues = s.closedQueues ++ [q]) ∨
      (a = .connected ∧ s.cancelled = false ∧
        t.closedQueues = s.closedQueues ++ closedBy s.unsubs s.subs) ∨
      ((a = .dialFail ∨ a = .connected) ∧ s.cancelled = true ∧ t.closed = true ∧
        t.closedQueues = s.closedQueues ++ s.subs.map Prod.snd) := by
  cases a with
  | SUBSCRIBE channel w =>
    simp only [Listener.step, Option.some.injEq] at h
    subst h
    exact Or.inl (Listener.SUBSCRIBE_fields s channel w).2.2.2.2.2.2
  | unsubscribe channel w =>
    simp only [Listener.step, Option.some.injEq] at h
    subst h
    exact Or.inl (Listener.unsubscribe_fields s channel w).2.2.2.2.2
  | Close =>
    simp only [Listener.step, Option.some.injEq] at h
    subst h
    exact Or.inl (Listener.Close_fields s).2.2.2.2.2
  | dialFail =>
    simp only [Listener.step] at h
    split at h
    · split at h
      · rename_i hc
        cases h
        exact Or.inr (Or.inr (Or.inr ⟨Or.inl rfl, hc, rfl, rfl⟩))
      · cases h; exact Or.inl rfl
    · cases h
  | dialOk =>
    simp only [Listener.step] at h
    split at h
    · split at h
      · cases h
      · cases h; exact Or.inl rfl
    · cases h
  | handshakeFail =>
    simp only [Listener.step] at h
    split at h
    · cases h; exact Or.inl rfl
    · cases h
  | handshakeOk =>
    simp only [Listener.step] at h
    split at h
    · cases h; exact Or.inl rfl
    · cases h
  | connected =>
    simp only [Listener.step] at h
    split at h
    · rename_i conn hpc
      split at h
      · rename_i hc
        cases h
        exact Or.inr (Or.inr (Or.inr ⟨Or.inr rfl, hc, rfl, rfl⟩))
      · rename_i hc
        cases h
        exact Or.inr (Or.inr (Or.inl ⟨rfl, by simpa using hc,
          (Listener.reconcile_fields s conn).2.2.1⟩))
    · cases h
  | resubscribe w =>
    simp only [Listener.step] at h
    split at h
    · rename_i conn hpc
      cases h
      exact Or.inl (Listener.resubscribe_fields s conn w).2.2.1
    · cases h
  | push ty dest msg =>
    obtain ⟨rfl, _⟩ := Listener.step_push s t ty dest msg h
    by_cases h1 : ty = "message"
    · subst h1
      left
      cases hg : mapGet s.channels dest <;> simp [Listener.dispatch, hg]
    · by_cases h2 : ty = "subscribe"
      · subst h2
        left
        cases hg : mapGet s.channels dest <;> cases hs : mapGet s.subs dest <;>
          simp [Listener.dispatch, hg, hs]
      · by_cases h3 : ty = "unsubscribe"
        · subst h3
          cases hs : mapGet s.subs dest with
          | none => left; simp [Listener.dispatch, hs]
          | some q =>
            right; left
            exact ⟨dest, msg, q, rfl, hs, by simp [Listener.dispatch, hs]⟩
        · left
          simp [Listener.dispatch, h1, h2, h3]
  | receiveErr =>
    simp only [Listener.step] at h
    split at h
    · cases h; exact Or.inl rfl
    · cases h
  | teardown =>
    simp only [Listener.step] at h
    split at h
    · cases h
      left
      split <;> rfl
    · cases h

/-- C15 as stated fails: the locked section for a new connection closes the
queue of the name `y`, which is pending for unsubscription, although no
`unsubscribe` push frame was ever handled and the listener is not shut down. -/
theorem queue_closed_by_reconciliation :
    Listener.sampleReconcile.Reachable ∧
      Listener.sampleReconcile.closedQueues = [] ∧
      Listener.sampleReconcile.pushLog = [] ∧
      (Listener.sampleReconcile.step .connected).map (fun t => t.closedQueues) = some [1] ∧
      (Listener.sampleReconcile.step .connected).map (fun t => t.closed) = some false ∧
      (Listener.sampleReconcile.step .connected).map (fun t => t.pushLog) = some [] :=
  ⟨⟨Listener.sampleReconcileActs, by decide⟩, by decide, by decide, by decide, by decide,
    by decide⟩

/-- C15, amended: a step of the listener closes a queue only when it is an
`unsubscribe` push frame (the queue the intent map holds for its name), the
locked section for a new connection (the queues of the names pending for
unsubscription), or the shutdown of `connectLoop` (the queues of the intent
map); every other step closes no queue. The unsubscribe function only adds
the name to the pending unsubscribes and submits a request when a connection
is published; it closes no queue and changes neither the intent map nor the
routing table. -/
theorem queue_closing_steps (s t : Listener) (a : Action) (h : s.step a = some t) :
    (t.closedQueues = s.closedQueues ∨
      (∃ n msg q, a = .push "unsubscribe" n msg ∧ mapGet s.subs n = some q ∧
        t.closedQueues = s.closedQueues ++ [q]) ∨
      (a = .connected ∧ s.cancelled = false ∧
        t.closedQueues = s.closedQueues ++ closedBy s.unsubs s.subs ∧
        ∀ q, q ∈ closedBy s.unsubs s.subs ↔ ∃ n, n ∈ s.unsubs ∧ mapGet s.subs n = some q) ∨
      ((a = .dialFail ∨ a = .connected) ∧ s.cancelled = true ∧ t.closed = true ∧
        t.closedQueues = s.closedQueues ++ s.subs.map Prod.snd)) ∧
      (∀ n w, a = .unsubscribe n w →
        t.closedQueues = s.closedQueues ∧ t.unsubs = setAdd s.unsubs n ∧ t.subs = s.subs ∧
          t.channels = s.channels ∧
          t.submitted = s.submitted ++
            (match s.conn with
              | some conn => [(conn, .unsubscribe n)]
              | none => [])) := by
  refine ⟨?_, ?_⟩
  · rcases Listener.closedQueues_step s t a h with h1 | h1 | ⟨h1, h2, h3⟩ | h1
    · exact Or.inl h1
    · exact Or.inr (Or.inl h1)
    · exact Or.inr (Or.inr (Or.inl ⟨h1, h2, h3, fun q => mem_closedBy _ _ q⟩))
    · exact Or.inr (Or.inr (Or.inr h1))
  · intro n w ha
    subst ha
    simp only [Listener.step, Option.some.injEq] at h
    subst h
    obtain ⟨f1, f2, f3, _, _, f6⟩ := Listener.unsubscribe_fields s n w
    refine ⟨f6, f2, f1, f3, ?_⟩
    unfold Listener.unsubscribe
    cases hc : s.conn with
    | none => simp [hc]
    | some c => simp [hc, Listener.submit_fields]

/-- C15, amended, at an unsubscribe request on a connected listener. -/
theorem queue_closing_steps_witness :
    Listener.sampleReceiving.step (.unsubscribe "x" true) =
        some ((Listener.sampleReceiving.step (.unsubscribe "x" true)).getD Listener.init) ∧
      ((Listener.sampleReceiving.step (.unsubscribe "x" true)).getD Listener.init).closedQueues =
        [] ∧
      ((Listener.sampleReceiving.step (.unsubscribe "x" true)).getD Listener.init).unsubs =
        ["x"] :=
  ⟨by decide,
    ((queue_closing_steps Listener.sampleReceiving _ (.unsubscribe "x" true)
      (by decide)).2 "x" true rfl).1.trans (by decide),
    by decide⟩

end Redis

namespace Redis

/-! ## Queues handed out are held or closed -/

theorem Listener.Accounted_shutdown (n : String) (q : Nat) (s : Listener)
    (hs : Listener.Accounted n q s) : Listener.Accounted n q s.shutdown := by
  have hq : q ∈ s.closedQueues ++ s.subs.map Prod.snd := by
    rcases hs.1 with h1 | h1
    · exact List.mem_append_right _ (mapGet_mem_values _ _ _ h1)
    · exact List.mem_append_left _ h1
  exact ⟨Or.inr hq, fun _ => hq⟩

theorem Listener.Accounted_step (n : String) (q : Nat) (s t : Listener) (a : Action)
    (hs : Listener.Accounted n q s) (h : s.step a = some t) : Listener.Accounted n q t := by
  have hsame : ∀ u : Listener, u.subs = s.subs → u.closedQueues = s.closedQueues →
      u.closed = s.closed → Listener.Accounted n q u := by
    intro u h1 h2 h3
    unfold Listener.Accounted
    rw [h1, h2, h3]
    exact hs
  cases a with
  | SUBSCRIBE channel w =>
    simp only [Listener.step, Option.some.injEq] at h
    subst h
    obtain ⟨f1, _, _, _, _, _, f7⟩ := Listener.SUBSCRIBE_fields s channel w
    obtain ⟨_, _, _, r4, _⟩ := Listener.SUBSCRIBE_rest s channel w
    unfold Listener.Accounted
    rw [f7, r4]
    refine ⟨?_, hs.2⟩
    rcases hs.1 with h1 | h1
    · left
      rw [f1]
      cases hg : mapGet s.subs channel with
      | some c => exact h1
      | none =>
        have hn : n ≠ channel := by intro e; rw [e, hg] at h1; cases h1
        simp only [mapGet_mapSet, hn, if_false]
        exact h1
    · exact Or.inr h1
  | unsubscribe channel w =>
    simp only [Listener.step, Option.some.injEq] at h
    subst h
    exact hsame _ (Listener.unsubscribe_fields s channel w).1
      (Listener.unsubscribe_fields s channel w).2.2.2.2.2
      (Listener.unsubscribe_rest s channel w).2.2.2.1
  | Close =>
    simp only [Listener.step, Option.some.injEq] at h
    subst h
    exact hsame _ (Listener.Close_fields s).1 (Listener.Close_fields s).2.2.2.2.2
      (Listener.Close_rest s).2.2.2.1
  | dialFail =>
    simp only [Listener.step] at h
    split at h
    · split at h
      · cases h; exact Listener.Accounted_shutdown n q s hs
      · cases h; exact hsame _ rfl rfl rfl
    · cases h
  | dialOk =>
    simp only [Listener.step] at h
    split at h
    · split at h
      · cases h
      · cases h; exact hsame _ rfl rfl rfl
    · cases h
  | handshakeFail =>
    simp only [Listener.step] at h
    split at h
    · cases h; exact hsame _ rfl rfl rfl
    · cases h
  | handshakeOk =>
    simp only [Listener.step] at h
    split at h
    · cases h; exact hsame _ rfl rfl rfl
    · cases h
  | connected =>
    simp only [Listener.step] at h
    split at h
    · rename_i conn hpc
      split at h
      · cases h
        exact Listener.Accounted_shutdown n q { s with connClosed := s.connClosed ++ [conn] } hs
      · cases h
        obtain ⟨_, f2, f3, _⟩ := Listener.reconcile_fields s conn
        obtain ⟨_, _, r3, _⟩ := Listener.reconcile_rest s conn
        unfold Listener.Accounted
        rw [f2, f3, r3]
        refine ⟨?_, fun hc => List.mem_append_left _ (hs.2 hc)⟩
        rcases hs.1 with h1 | h1
        · by_cases hn : n ∈ s.unsubs
          · right
            exact List.mem_append_right _ ((mem_closedBy _ _ q).mpr ⟨n, hn, h1⟩)
          · left
            rw [mapGet_filter s.subs (fun k => decide (k ∉ s.unsubs)) n]
            simp [hn, h1]
        · exact Or.inr (List.mem_append_left _ h1)
    · cases h
  | resubscribe w =>
    simp only [Listener.step] at h
    split at h
    · rename_i conn hpc
      cases h
      exact hsame _ (Listener.resubscribe_fields s conn w).2.1
        (Listener.resubscribe_fields s conn w).2.2.1 (Listener.resubscribe_rest s conn w).2.2.1
    · cases h
  | push ty dest msg =>
    obtain ⟨rfl, _⟩ := Listener.step_push s t ty dest msg h
    obtain ⟨f1, _⟩ := Listener.dispatch_fields s ty dest msg
    obtain ⟨_, _, _, r4, _⟩ := Listener.dispatch_rest s ty dest msg
    rcases Listener.closedQueues_step s _ _ h with c1 | ⟨n2, msg2, q2, e, hq2, c1⟩ |
      ⟨e, _⟩ | ⟨e, _⟩
    · by_cases hu : ty = "unsubscribe"
      · subst hu
        unfold Listener.Accounted
        rw [c1, r4]
        refine ⟨?_, hs.2⟩
        rcases hs.1 with h1 | h1
        · left
          rw [f1]
          simp only [if_true, mapGet_mapDelete]
          have hn : n ≠ dest := by
            intro e
            subst e
            have : (s.dispatch "unsubscribe" n msg).closedQueues = s.closedQueues ++ [q] := by
              simp [Listener.dispatch, h1]
            rw [c1] at this
            simp at this
          simp [hn, h1]
        · exact Or.inr h1
      · refine hsame _ ?_ c1 r4
        rw [f1]; simp [hu]
    · cases e
      unfold Listener.Accounted
      rw [c1, r4]
      refine ⟨?_, fun hc => List.mem_append_left _ (hs.2 hc)⟩
      rcases hs.1 with h1 | h1
      · by_cases hn : n = dest
        · subst hn
          rw [h1] at hq2
          cases hq2
          right; simp
        · left
          rw [f1]
          simp [mapGet_mapDelete, hn, h1]
      · exact Or.inr (List.mem_append_left _ h1)
    · cases e
    · rcases e with e | e <;> cases e
  | receiveErr =>
    simp only [Listener.step] at h
    split at h
    · cases h; exact hsame _ rfl rfl rfl
    · cases h
  | teardown =>
    simp only [Listener.step] at h
    split at h
    · cases h
      refine hsame _ ?_ ?_ ?_ <;> (split <;> rfl)
    · cases h

theorem Listener.Accounted_run (n : String) (q : Nat) (acts : List Action) (s t : Listener)
    (hs : Listener.Accounted n q s) (h : s.run acts = some t) : Listener.Accounted n q t := by
  induction acts generalizing s with
  | nil =>
    simp only [Listener.run, Option.some.injEq] at h
    rw [← h]; exact hs
  | cons a as ih =>
    simp only [Listener.run] at h
    split at h
    · rename_i u hu
      exact ih u (Listener.Accounted_step n q s u a hs hu) h
    · cases h

theorem Listener.Accounted_SUBSCRIBE (n : String) (w : Bool) (s : Listener)
    (hopen : s.closed = false) :
    Listener.Accounted n (s.SUBSCRIBE n w).2 (s.SUBSCRIBE n w).1 := by
  refine ⟨Or.inl (Listener.SUBSCRIBE_registers s n w), ?_⟩
  intro hc
  rw [(Listener.SUBSCRIBE_rest s n w).2.2.2.1, hopen] at hc
  cases hc

theorem Listener.pending_step (n : String) (s t : Listener) (a : Action)
    (hn : n ∈ s.unsubs) (hk : a.clearsPending n = false) (h : s.step a = some t) :
    n ∈ t.unsubs := by
  cases a with
  | SUBSCRIBE channel w =>
    simp only [Listener.step, Option.some.injEq] at h
    subst h
    rw [(Listener.SUBSCRIBE_fields s channel w).2.2.1]; exact hn
  | unsubscribe channel w =>
    simp only [Listener.step, Option.some.injEq] at h
    subst h
    rw [(Listener.unsubscribe_fields s channel w).2.1]
    unfold setAdd
    split
    · exact hn
    · exact List.mem_append_left _ hn
  | Close =>
    simp only [Listener.step, Option.some.injEq] at h
    subst h
    rw [(Listener.Close_fields s).2.1]; exact hn
  | dialFail =>
    simp only [Listener.step] at h
    split at h
    · split at h <;> (cases h; exact hn)
    · cases h
  | dialOk =>
    simp only [Listener.step] at h
    split at h
    · split at h
      · cases h
      · cases h; exact hn
    · cases h
  | handshakeFail =>
    simp only [Listener.step] at h
    split at h
    · cases h; exact hn
    · cases h
  | handshakeOk =>
    simp only [Listener.step] at h
    split at h
    · cases h; exact hn
    · cases h
  | connected => simp [Action.clearsPending] at hk
  | resubscribe w =>
    simp only [Listener.step] at h
    split at h
    · rename_i conn hpc
      cases h
      rw [(Listener.resubscribe_fields s conn w).1]; exact hn
    · cases h
  | push ty dest msg =>
    obtain ⟨rfl, _⟩ := Listener.step_push s t ty dest msg h
    rw [(Listener.dispatch_fields s ty dest msg).2.1]
    by_cases hu : ty = "unsubscribe"
    · have hd : n ≠ dest := by
        intro e
        simp [Action.clearsPending, hu, e] at hk
      simp [hu, setDelete, hn, hd]
    · simp [hu, hn]
  | receiveErr =>
    simp only [Listener.step] at h
    split at h
    · cases h; exact hn
    · cases h
  | teardown =>
    simp only [Listener.step] at h
    split at h
    · cases h
      split <;> exact hn
    · cases h

theorem Listener.pending_run (n : String) (acts : List Action) (s t : Listener)
    (hn : n ∈ s.unsubs) (hk : ∀ a ∈ acts, a.clearsPending n = false)
    (h : s.run acts = some t) : n ∈ t.unsubs := by
  induction acts generalizing s with
  | nil =>
    simp only [Listener.run, Option.some.injEq] at h
    rw [← h]; exact hn
  | cons a as ih =>
    simp only [Listener.run] at h
    split at h
    · rename_i u hu
      exact ih u (Listener.pending_step n s u a hn (hk a (List.mem_cons_self a as)) hu)
        (fun b hb => hk b (List.mem_cons_of_mem a hb)) h
    · cases h

theorem Listener.unsubscribe_pending (n : String) (w : Bool) (s : Listener) :
    n ∈ (s.unsubscribe n w).unsubs := by
  rw [(Listener.unsubscribe_fields s n w).2.1]
  unfold setAdd
  split
  · assumption
  · simp

end Redis

namespace Redis

/-- C16 as stated fails: between two reconnects an unsubscribe request for
`x` and a `SUBSCRIBE("x")` call are made, with the server's confirmation of
the unsubscribe request handled between them; the next reconnect keeps `x` in
the intent map, does not close the queue that `SUBSCRIBE("x")` returned, and
names `x` in the subscribe request. -/
theorem subscribe_after_confirmed_unsubscribe :
    Listener.init.run Listener.sampleResubscribeActs = some Listener.sampleResubscribe ∧
      Action.unsubscribe "x" true ∈ Listener.sampleResubscribeActs ∧
      Action.SUBSCRIBE "x" true ∈ Listener.sampleResubscribeActs ∧
      mapGet Listener.sampleResubscribe.subs "x" = some 0 ∧
      0 ∉ Listener.sampleResubscribe.closedQueues ∧
      (1, Request.subscribe ["x"]) ∈ Listener.sampleResubscribe.submitted :=
  ⟨by decide, by decide, by decide, by decide, by decide, by decide⟩

/-- C16, amended: when an unsubscribe request for `n` is made and no
`unsubscribe` push frame for `n` is handled and no connection published
between the request and the next reconnect, then for every `SUBSCRIBE(n)`
call made before that reconnect, earlier or later than the request, the
reconnect leaves `n` out of the intent map and out of the subscribe request,
and the queue the call returned is closed. `SUBSCRIBE` never changes the
pending unsubscribes. -/
theorem unsubscribe_wins (sS sU s1 : Listener) (n : String) (wS wU w : Bool)
    (afterS afterU : List Action) (conn : Nat)
    (hopen : sS.closed = false)
    (hS : (sS.SUBSCRIBE n wS).1.run afterS = some s1)
    (hU : (sU.unsubscribe n wU).run afterU = some s1)
    (hk : ∀ a ∈ afterU, a.clearsPending n = false)
    (hpc : s1.pc = .reconcile conn) (hc : s1.cancelled = false) :
    ∃ t u, s1.step .connected = some t ∧ t.step (.resubscribe w) = some u ∧
      mapGet t.subs n = none ∧ n ∉ mapKeys u.subs ∧
      (sS.SUBSCRIBE n wS).2 ∈ t.closedQueues ∧
      (u.submitted = s1.submitted ∨
        ∃ names, u.submitted = s1.submitted ++ [(conn, .subscribe names)] ∧ n ∉ names) ∧
      (∀ (s : Listener) (m : String) (w2 : Bool), (s.SUBSCRIBE m w2).1.unsubs = s.unsubs) := by
  have hn : n ∈ s1.unsubs :=
    Listener.pending_run n afterU _ s1 (Listener.unsubscribe_pending n wU sU) hk hU
  have hacc := Listener.Accounted_run n _ afterS _ s1
    (Listener.Accounted_SUBSCRIBE n wS sS hopen) hS
  obtain ⟨_, t2, t3, t4, _, t6, _⟩ := Listener.reconcile_fields s1 conn
  obtain ⟨_, u2, _, _, _, u6, _, _⟩ := Listener.resubscribe_fields (s1.reconcile conn) conn w
  have hnone : mapGet (s1.reconcile conn).subs n = none := by
    rw [t2, mapGet_filter s1.subs (fun k => decide (k ∉ s1.unsubs)) n]
    simp [hn]
  have hnk : n ∉ mapKeys (s1.reconcile conn).subs := by
    intro hm
    obtain ⟨v, hv⟩ := (mem_mapKeys _ _).mp hm
    rw [hnone] at hv
    cases hv
  refine ⟨s1.reconcile conn, (s1.reconcile conn).resubscribe conn w,
    Listener.step_connected s1 conn hpc hc, Listener.step_resubscribe _ conn w t6,
    hnone, by rw [u2]; exact hnk, ?_, ?_, ?_⟩
  · rw [t3]
    rcases hacc.1 with h1 | h1
    · exact List.mem_append_right _ ((mem_closedBy _ _ _).mpr ⟨n, hn, h1⟩)
    · exact List.mem_append_left _ h1
  · by_cases hl : (s1.reconcile conn).subs.length ≠ 0
    · right
      rw [if_pos hl, t4] at u6
      exact ⟨_, u6, hnk⟩
    · left
      rw [if_neg hl, t4] at u6
      exact u6
  · intro s m w2
    exact (Listener.SUBSCRIBE_fields s m w2).2.2.1

/-- C16, amended, at an unsubscribe request followed by `SUBSCRIBE` of the
same name while disconnected. -/
theorem unsubscribe_wins_witness :
    (Listener.init.unsubscribe "x" true).closed = false ∧
      ((Listener.init.unsubscribe "x" true).SUBSCRIBE "x" true).1.run
        [.SUBSCRIBE "y" true, .dialOk, .handshakeOk] = some Listener.samplePending ∧
      (Listener.init.unsubscribe "x" true).run
        [.SUBSCRIBE "x" true, .SUBSCRIBE "y" true, .dialOk, .handshakeOk] =
          some Listener.samplePending ∧
      Listener.samplePending.pc = .reconcile 0 ∧ Listener.samplePending.cancelled = false ∧
      ((Listener.init.unsubscribe "x" true).SUBSCRIBE "x" true).2 = 0 ∧
      ∃ t u, Listener.samplePending.step .connected = some t ∧
        t.step (.resubscribe true) = some u ∧ mapGet t.subs "x" = none ∧
        "x" ∉ mapKeys u.subs ∧ 0 ∈ t.closedQueues := by
  obtain ⟨t, u, h1, h2, h3, h4, h5, _⟩ :=
    unsubscribe_wins (Listener.init.unsubscribe "x" true) Listener.init Listener.samplePending
      "x" true true true [.SUBSCRIBE "y" true, .dialOk, .handshakeOk]
      [.SUBSCRIBE "x" true, .SUBSCRIBE "y" true, .dialOk, .handshakeOk] 0
      (by decide) (by decide) (by decide) (by decide) (by decide) (by decide)
  exact ⟨by decide, by decide, by decide, by decide, by decide, by decide, t, u, h1, h2, h3, h4,
    h5⟩

/-- C19: when `Close` returns, that is once the channel `closed` is closed,
the channel `errs` is closed and every queue that a `SUBSCRIBE` call handed
out before the shutdown ran is closed; until then such a queue is held by the
intent map under its name or already closed. -/
theorem close_closes_queues (pre post : List Action) (s1 t : Listener) (n : String)
    (w : Bool) (h1 : Listener.init.run pre = some s1) (hopen : s1.closed = false)
    (h2 : (s1.SUBSCRIBE n w).1.run post = some t) (hclosed : t.closed = true) :
    t.errsClosed = true ∧ (s1.SUBSCRIBE n w).2 ∈ t.closedQueues ∧
      t.pc = .terminated ∧ t.cancelled = true ∧
      (∀ post2 u, (s1.SUBSCRIBE n w).1.run post2 = some u →
        mapGet u.subs n = some (s1.SUBSCRIBE n w).2 ∨ (s1.SUBSCRIBE n w).2 ∈ u.closedQueues) := by
  have hreach : t.Reachable := by
    refine ⟨pre ++ (.SUBSCRIBE n w :: post), ?_⟩
    rw [Listener.run_append, h1]
    simp only [Option.bind, Listener.run, Listener.step]
    exact h2
  have hi := (Listener.Inv_reachable t hreach).1
  have hacc := Listener.Accounted_run n _ post _ t (Listener.Accounted_SUBSCRIBE n w s1 hopen) h2
  obtain ⟨hp, hca, he⟩ := hi.term hclosed
  refine ⟨he, hacc.2 hclosed, hp, hca, ?_⟩
  intro post2 u hu
  exact (Listener.Accounted_run n _ post2 _ u (Listener.Accounted_SUBSCRIBE n w s1 hopen) hu).1

/-- C19, at a listener with two requested names that is closed while
connected. -/
theorem close_closes_queues_witness :
    Listener.init.run Listener.sampleResubscribedActs = some Listener.sampleResubscribed ∧
      Listener.sampleResubscribed.closed = false ∧
      (Listener.sampleResubscribed.SUBSCRIBE "y" true).1.run Listener.sampleShutdownActs =
        some Listener.sampleClosed ∧
      Listener.sampleClosed.closed = true ∧
      (Listener.sampleResubscribed.SUBSCRIBE "y" true).2 = 1 ∧
      Listener.sampleClosed.closedQueues = [0, 1] ∧
      Listener.sampleClosed.errsClosed = true ∧
      1 ∈ Listener.sampleClosed.closedQueues :=
  ⟨by decide, by decide, by decide, by decide, by decide, by decide,
    (close_closes_queues Listener.sampleResubscribedActs Listener.sampleShutdownActs
      Listener.sampleResubscribed Listener.sampleClosed "y" true (by decide) (by decide)
      (by decide) (by decide)).1,
    by decide⟩

/-- C20: on a listener on which `Close` has returned, that is whose channel
`closed` is closed, a further `Close` does not block, returns no error, and
leaves the state as it is: no stream, queue or connection is closed again. -/
theorem close_idempotent (s : Listener) (hr : s.Reachable) (hc : s.closed = true)
    (connCloseErr : Option Nat) :
    s.Close = s ∧ s.step .Close = some s ∧ s.CloseErr connCloseErr = none ∧
      s.Close.closed = true ∧ s.Close.closedQueues = s.closedQueues ∧
      s.Close.connClosed = s.connClosed ∧ s.Close.errsClosed = s.errsClosed := by
  have hi := (Listener.Inv_reachable s hr).1
  obtain ⟨hp, hca, _⟩ := hi.term hc
  have hconn : s.conn = none := by
    cases hcn : s.conn with
    | none => rfl
    | some c =>
      rcases hi.connPc c hcn with h1 | h1 <;> (rw [hp] at h1; cases h1)
  have hsame : s.Close = s := by
    unfold Listener.Close
    rw [hconn]
    cases s
    simp_all
  refine ⟨hsame, ?_, ?_, ?_, ?_, ?_, ?_⟩
  · simp only [Listener.step, hsame]
  · simp [Listener.CloseErr, hconn]
  · rw [hsame]; exact hc
  · rw [hsame]
  · rw [hsame]
  · rw [hsame]

/-- C20, at a listener that was closed while connected. -/
theorem close_idempotent_witness :
    Listener.sampleClosed.Reachable ∧ Listener.sampleClosed.closed = true ∧
      Listener.sampleClosed.Close = Listener.sampleClosed ∧
      Listener.sampleClosed.CloseErr (some 3) = none :=
  have hr : Listener.sampleClosed.Reachable :=
    ⟨Listener.sampleResubscribedActs ++ (.SUBSCRIBE "y" true :: Listener.sampleShutdownActs),
      by decide⟩
  ⟨hr, by decide, (close_idempotent Listener.sampleClosed hr (by decide) (some 3)).1,
    (close_idempotent Listener.sampleClosed hr (by decide) (some 3)).2.2.1⟩

end Redis

namespace Redis

/-! ## The reconnect delay -/

theorem Listener.delay_step (s t : Listener) (a : Action) (ha : a ≠ .dialFail)
    (h : s.step a = some t) :
    (t.reconnectDelay = s.reconnectDelay ∨ t.reconnectDelay = 0) ∧
      (t.pc = s.pc ∨ t.reconnectDelay = 0 ∨ (s.pc ≠ .dial ∧ s.pc ≠ .terminated)) := by
  cases a with
  | SUBSCRIBE channel w =>
    simp only [Listener.step, Option.some.injEq] at h
    subst h
    exact ⟨Or.inl (Listener.SUBSCRIBE_rest s channel w).2.2.2.2.2.2.1,
      Or.inl (Listener.SUBSCRIBE_fields s channel w).2.2.2.2.2.1⟩
  | unsubscribe channel w =>
    simp only [Listener.step, Option.some.injEq] at h
    subst h
    exact ⟨Or.inl (Listener.unsubscribe_rest s channel w).2.2.2.2.2.2.1,
      Or.inl (Listener.unsubscribe_fields s channel w).2.2.2.2.1⟩
  | Close =>
    simp only [Listener.step, Option.some.injEq] at h
    subst h
    exact ⟨Or.inl (Listener.Close_rest s).2.2.2.2.2.2.1,
      Or.inl (Listener.Close_fields s).2.2.2.2.1⟩
  | dialFail => exact (ha rfl).elim
  | dialOk =>
    simp only [Listener.step] at h
    split at h
    · split at h
      · cases h
      · cases h
        exact ⟨Or.inr rfl, Or.inr (Or.inl rfl)⟩
    · cases h
  | handshakeFail =>
    simp only [Listener.step] at h
    split at h
    · rename_i conn hpc
      cases h
      exact ⟨Or.inl rfl, Or.inr (Or.inr ⟨by rw [hpc]; simp, by rw [hpc]; simp⟩)⟩
    · cases h
  | handshakeOk =>
    simp only [Listener.step] at h
    split at h
    · rename_i conn hpc
      cases h
      exact ⟨Or.inl rfl, Or.inr (Or.inr ⟨by rw [hpc]; simp, by rw [hpc]; simp⟩)⟩
    · cases h
  | connected =>
    simp only [Listener.step] at h
    split at h
    · rename_i conn hpc
      split at h
      · cases h
        exact ⟨Or.inl rfl, Or.inr (Or.inr ⟨by rw [hpc]; simp, by rw [hpc]; simp⟩)⟩
      · cases h
        exact ⟨Or.inl (Listener.reconcile_rest s conn).2.2.2.2.2.1,
          Or.inr (Or.inr ⟨by rw [hpc]; simp, by rw [hpc]; simp⟩)⟩
    · cases h
  | resubscribe w =>
    simp only [Listener.step] at h
    split at h
    · rename_i conn hpc
      cases h
      exact ⟨Or.inl (Listener.resubscribe_rest s conn w).2.2.2.2.2.1,
        Or.inr (Or.inr ⟨by rw [hpc]; simp, by rw [hpc]; simp⟩)⟩
    · cases h
  | push ty dest msg =>
    obtain ⟨rfl, conn, hpc⟩ := Listener.step_push s t ty dest msg h
    exact ⟨Or.inl (Listener.dispatch_rest s ty dest msg).2.2.2.2.2.1,
      Or.inl (Listener.dispatch_fields s ty dest msg).2.2.2.2⟩
  | receiveErr =>
    simp only [Listener.step] at h
    split at h
    · rename_i conn hpc
      cases h
      exact ⟨Or.inl rfl, Or.inr (Or.inr ⟨by rw [hpc]; simp, by rw [hpc]; simp⟩)⟩
    · cases h
  | teardown =>
    simp only [Listener.step] at h
    split at h
    · rename_i conn hpc
      cases h
      have hd : (if s.cancelled = true then s
          else { s with errs := s.errs ++ [.receive] }).reconnectDelay = s.reconnectDelay := by
        split <;> rfl
      exact ⟨Or.inl hd, Or.inr (Or.inr ⟨by rw [hpc]; simp, by rw [hpc]; simp⟩)⟩
    · cases h

theorem Listener.dialFail_pc (s t : Listener) (h : s.step .dialFail = some t) :
    s.pc = .dial ∧ (t.pc = .dial ∨ t.pc = .terminated) := by
  simp only [Listener.step] at h
  split at h
  · rename_i hpc
    split at h
    · cases h; exact ⟨hpc, Or.inr rfl⟩
    · cases h; exact ⟨hpc, Or.inl hpc⟩
  · cases h

theorem Listener.delay_inv_step (s t : Listener) (a : Action)
    (hs : s.pc ≠ .dial ∧ s.pc ≠ .terminated → s.reconnectDelay = 0)
    (h : s.step a = some t) :
    t.pc ≠ .dial ∧ t.pc ≠ .terminated → t.reconnectDelay = 0 := by
  intro ht
  by_cases ha : a = .dialFail
  · subst ha
    rcases (Listener.dialFail_pc s t h).2 with h1 | h1
    · exact (ht.1 h1).elim
    · exact (ht.2 h1).elim
  · obtain ⟨h1, h2⟩ := Listener.delay_step s t a ha h
    rcases h2 with h2 | h2 | h2
    · rw [h2] at ht
      rcases h1 with h1 | h1
      · rw [h1]; exact hs ht
      · exact h1
    · exact h2
    · rcases h1 with h1 | h1
      · rw [h1]; exact hs h2
      · exact h1

theorem Listener.delay_inv (s : Listener) (hr : s.Reachable) :
    s.pc ≠ .dial ∧ s.pc ≠ .terminated → s.reconnectDelay = 0 := by
  obtain ⟨acts, h⟩ := hr
  have key : ∀ (acts : List Action) (u : Listener),
      (u.pc ≠ .dial ∧ u.pc ≠ .terminated → u.reconnectDelay = 0) → u.run acts = some s →
      (s.pc ≠ .dial ∧ s.pc ≠ .terminated → s.reconnectDelay = 0) := by
    intro acts
    induction acts with
    | nil =>
      intro u hu hrun
      simp only [Listener.run, Option.some.injEq] at hrun
      rw [← hrun]; exact hu
    | cons a as ih =>
      intro u hu hrun
      simp only [Listener.run] at hrun
      split at hrun
      · rename_i v hv
        exact ih v (Listener.delay_inv_step u v a hu hv) hrun
      · cases hrun
  exact key acts Listener.init (fun _ => rfl) h

theorem Listener.delay_zero_run (acts : List Action) (s t : Listener)
    (hz : s.reconnectDelay = 0) (hno : Action.dialFail ∉ acts) (h : s.run acts = some t) :
    t.reconnectDelay = 0 := by
  induction acts generalizing s with
  | nil =>
    simp only [Listener.run, Option.some.injEq] at h
    rw [← h]; exact hz
  | cons a as ih =>
    simp only [Listener.run] at h
    split at h
    · rename_i u hu
      have ha : a ≠ .dialFail := fun e => hno (by rw [e]; exact List.mem_cons_self _ _)
      have hu0 : u.reconnectDelay = 0 := by
        rcases (Listener.delay_step s u a ha hu).1 with h1 | h1
        · rw [h1]; exact hz
        · exact h1
      exact ih u hu0 (fun hm => hno (List.mem_cons_of_mem a hm)) h
    · cases h

theorem Listener.dialFail_run (k j : Nat) (s : Listener) (hpc : s.pc = .dial)
    (hc : s.cancelled = false) (hd : s.reconnectDelay = backoff j) :
    ∃ t, s.run (List.replicate k .dialFail) = some t ∧
      t.waits = s.waits ++ (List.range k).map (fun i => backoff (j + i)) ∧
      t.reconnectDelay = backoff (j + k) ∧ t.pc = .dial ∧ t.cancelled = false ∧
      t.errs = s.errs ++ List.replicate k .dial := by
  induction k generalizing s j with
  | zero => exact ⟨s, rfl, by simp, by simpa using hd, hpc, hc, by simp⟩
  | succ k ih =>
    have hstep : s.step .dialFail =
        some { s with waits := s.waits ++ [s.reconnectDelay], errs := s.errs ++ [.dial],
                      reconnectDelay := nextDelay s.reconnectDelay } := by
      simp only [Listener.step, hpc, hc]
      rfl
    obtain ⟨t, h1, h2, h3, h4, h5, h6⟩ := ih (j + 1)
      { s with waits := s.waits ++ [s.reconnectDelay], errs := s.errs ++ [.dial],
               reconnectDelay := nextDelay s.reconnectDelay } hpc hc
      (by show nextDelay s.reconnectDelay = backoff (j + 1); rw [hd]; rfl)
    refine ⟨t, ?_, ?_, ?_, h4, h5, ?_⟩
    · simp only [List.replicate_succ, Listener.run, hstep]
      exact h1
    · rw [h2, hd]
      simp only [List.append_assoc, List.singleton_append, List.range_succ_eq_map, List.map_cons,
        List.map_map, Nat.add_zero]
      congr 2
      apply List.map_congr_left
      intro i _
      simp only [Function.comp]
      congr 1
      omega
    · rw [h3]; congr 1; omega
    · rw [h6]
      simp [List.replicate_succ]

/-- C17 as stated fails: under twelve consecutive dial failures the wait
before the twelfth retry is 1023ms like the one before, not twice the previous
wait plus 1ms. -/
theorem backoff_stops_growing :
    (Listener.init.run (List.replicate 12 .dialFail)).map (fun t => t.waits) =
        some [0, 1 * millisecond, 3 * millisecond, 7 * millisecond, 15 * millisecond,
          31 * millisecond, 63 * millisecond, 127 * millisecond, 255 * millisecond,
          511 * millisecond, 1023 * millisecond, 1023 * millisecond] ∧
      1023 * millisecond ≠ 2 * (1023 * millisecond) + millisecond :=
  ⟨by decide, by decide⟩

/-- C17, amended: in a run of consecutive dial failures the wait before the
first retry is 0 and the wait before each following retry is twice the
previous wait plus 1ms as long as the previous wait is below 512ms, and the
previous wait otherwise; each failure is reported once; a successful dial
sets the delay back to 0, where it stays until the next dial failure. -/
theorem backoff_sequence (s : Listener) (k : Nat) (hpc : s.pc = .dial)
    (hc : s.cancelled = false) (hd : s.reconnectDelay = 0) :
    (∃ t, s.run (List.replicate k .dialFail) = some t ∧
      t.waits = s.waits ++ (List.range k).map backoff ∧
      t.errs = s.errs ++ List.replicate k .dial ∧ t.pc = .dial) ∧
      backoff 0 = 0 ∧
      (∀ i, backoff (i + 1) =
        if backoff i < 512 * millisecond then 2 * backoff i + millisecond else backoff i) ∧
      Listener.init.reconnectDelay = 0 ∧
      (∀ (u v : Listener), u.step .dialOk = some v → v.reconnectDelay = 0 ∧
        ∀ (acts : List Action) (x : Listener), Action.dialFail ∉ acts →
          v.run acts = some x → x.reconnectDelay = 0) := by
  refine ⟨?_, rfl, fun i => rfl, rfl, ?_⟩
  · obtain ⟨t, h1, h2, _, h4, _, h6⟩ := Listener.dialFail_run k 0 s hpc hc (by rw [hd]; rfl)
    refine ⟨t, h1, ?_, h6, h4⟩
    rw [h2]
    congr 1
    apply List.map_congr_left
    intro i _
    rw [Nat.zero_add]
  · intro u v huv
    have hv : v.reconnectDelay = 0 := by
      simp only [Listener.step] at huv
      split at huv
      · split at huv
        · cases huv
        · cases huv; rfl
      · cases huv
    exact ⟨hv, fun acts x hno hx => Listener.delay_zero_run acts v x hv hno hx⟩

/-- C17, amended, at four dial failures of a new listener. -/
theorem backoff_sequence_witness :
    Listener.init.pc = .dial ∧ Listener.init.cancelled = false ∧
      Listener.init.reconnectDelay = 0 ∧
      ∃ t, Listener.init.run (List.replicate 4 .dialFail) = some t ∧
        t.waits = [0, 1 * millisecond, 3 * millisecond, 7 * millisecond] := by
  obtain ⟨t, h1, h2, _⟩ := (backoff_sequence Listener.init 4 rfl rfl rfl).1
  exact ⟨rfl, rfl, rfl, t, h1, h2.trans (by decide)⟩

/-- C18 as stated fails: a handshake failure after a successful dial waits
512ms and leaves the backoff at 0, whereas a dial failure at the same backoff
waits 0 and advances the backoff to 1ms. -/
theorem handshake_failure_fixed_wait :
    (Listener.init.run [.dialOk]).map (fun t => t.reconnectDelay) = some 0 ∧
      (Listener.init.run [.dialOk, .handshakeFail]).map
        (fun t => (t.waits, t.reconnectDelay, t.pc)) = some ([512 * millisecond], 0, .dial) ∧
      (Listener.init.run [.dialFail]).map
        (fun t => (t.waits, t.reconnectDelay, t.pc)) = some ([0], millisecond, .dial) :=
  ⟨by decide, by decide, by decide⟩

/-- C18, amended: a failure of a bootstrap handshake after a successful dial
is reported once on the error stream, the connection is closed, the listener
waits 512ms, whatever the backoff, and retries the connection; the backoff is
0 since the successful dial and the failure does not advance it. -/
theorem handshake_failure (s t : Listener) (hr : s.Reachable)
    (h : s.step .handshakeFail = some t) :
    ∃ conn, s.pc = .handshake conn ∧ t.errs = s.errs ++ [.handshake] ∧
      t.connClosed = s.connClosed ++ [conn] ∧ t.waits = s.waits ++ [512 * millisecond] ∧
      s.reconnectDelay = 0 ∧ t.reconnectDelay = 0 ∧ t.pc = .dial ∧
      t.subs = s.subs ∧ t.unsubs = s.unsubs ∧ t.closedQueues = s.closedQueues ∧
      t.conn = s.conn := by
  have hinv := Listener.delay_inv s hr
  simp only [Listener.step] at h
  split at h
  · rename_i conn hpc
    cases h
    have hz : s.reconnectDelay = 0 := hinv ⟨by rw [hpc]; simp, by rw [hpc]; simp⟩
    exact ⟨conn, hpc, rfl, rfl, rfl, hz, hz, rfl, rfl, rfl, rfl, rfl⟩
  · cases h

/-- C18, amended, at a handshake failure that follows a dial failure and a
successful dial. -/
theorem handshake_failure_witness :
    ((Listener.init.run [.dialFail, .dialOk]).getD Listener.init).Reachable ∧
      ((Listener.init.run [.dialFail, .dialOk]).getD Listener.init).step .handshakeFail =
        some ((Listener.init.run [.dialFail, .dialOk, .handshakeFail]).getD Listener.init) ∧
      ∃ conn, ((Listener.init.run [.dialFail, .dialOk]).getD Listener.init).pc =
          .handshake conn ∧
        ((Listener.init.run [.dialFail, .dialOk, .handshakeFail]).getD Listener.init).errs =
          [.dial, .handshake] := by
  have hr : ((Listener.init.run [.dialFail, .dialOk]).getD Listener.init).Reachable :=
    ⟨[.dialFail, .dialOk], by decide⟩
  obtain ⟨conn, h1, h2, _⟩ := handshake_failure _ _ hr
    (by decide : ((Listener.init.run [.dialFail, .dialOk]).getD Listener.init).step
      .handshakeFail =
        some ((Listener.init.run [.dialFail, .dialOk, .handshakeFail]).getD Listener.init))
  exact ⟨hr, by decide, conn, h1, h2.trans (by decide)⟩

end Redis

namespace Redis

/-- C21: for every `int64` value the size field that `appendDecimal` reserves
and patches is one ASCII digit from `1` to `9` when `-10^8 < v < 10^9` and two
ASCII digits that denote a number from 10 to 20 otherwise; the one-digit
branch is taken exactly when the decimal rendering of `v`, sign included, has
at most 9 bytes; so every patched byte is an ASCII digit and the field has no
leading zero. -/
theorem appendDecimal_size_field (buf : Bytes) (v : Int) (hv : isInt64 v) :
    ((-100000000 < v ∧ v < 1000000000) ↔ (strconv.formatInt v).length ≤ 9) ∧
      ((-100000000 < v ∧ v < 1000000000) →
        1 ≤ (strconv.formatInt v).length ∧ (strconv.formatInt v).length ≤ 9 ∧
          appendDecimalSizeField buf v = [48 + (strconv.formatInt v).length] ∧
          appendDecimal buf v =
            buf ++ [48 + (strconv.formatInt v).length] ++ [13, 10] ++ strconv.formatInt v) ∧
      (¬ (-100000000 < v ∧ v < 1000000000) →
        10 ≤ (strconv.formatInt v).length ∧ (strconv.formatInt v).length ≤ 20 ∧
          appendDecimalSizeField buf v =
            [48 + (strconv.formatInt v).length / 10, 48 + (strconv.formatInt v).length % 10] ∧
          appendDecimal buf v =
            buf ++ [48 + (strconv.formatInt v).length / 10,
              48 + (strconv.formatInt v).length % 10] ++ [13, 10] ++ strconv.formatInt v) ∧
      (∀ b ∈ appendDecimalSizeField buf v, 48 ≤ b ∧ b ≤ 57) ∧
      (appendDecimalSizeField buf v).head? ≠ some 48 ∧
      appendDecimalSizeField buf v ≠ [] := by
  have heq := appendDecimal_eq buf v hv
  have small : (-100000000 < v ∧ v < 1000000000) →
      1 ≤ (strconv.formatInt v).length ∧ (strconv.formatInt v).length ≤ 9 ∧
        appendDecimalSizeField buf v = [48 + (strconv.formatInt v).length] ∧
        appendDecimal buf v =
          buf ++ [48 + (strconv.formatInt v).length] ++ [13, 10] ++ strconv.formatInt v := by
    intro h
    obtain ⟨h1, h2⟩ := formatInt_length_small v h.1 h.2
    have e : appendDecimal buf v =
        buf ++ [48 + (strconv.formatInt v).length] ++ [13, 10] ++ strconv.formatInt v := by
      rw [heq, strconv.formatUint_lt _ (by omega)]
    refine ⟨h1, h2, ?_, e⟩
    unfold appendDecimalSizeField
    rw [e]
    simp [h.1, h.2]
  have large : ¬ (-100000000 < v ∧ v < 1000000000) →
      10 ≤ (strconv.formatInt v).length ∧ (strconv.formatInt v).length ≤ 20 ∧
        appendDecimalSizeField buf v =
          [48 + (strconv.formatInt v).length / 10, 48 + (strconv.formatInt v).length % 10] ∧
        appendDecimal buf v =
          buf ++ [48 + (strconv.formatInt v).length / 10,
            48 + (strconv.formatInt v).length % 10] ++ [13, 10] ++ strconv.formatInt v := by
    intro h
    obtain ⟨h1, h2⟩ := formatInt_length_large v hv h
    have e : appendDecimal buf v =
        buf ++ [48 + (strconv.formatInt v).length / 10,
          48 + (strconv.formatInt v).length % 10] ++ [13, 10] ++ strconv.formatInt v := by
      rw [heq, formatUint_two _ h1 (by omega)]
    refine ⟨h1, h2, ?_, e⟩
    have hd : (decide (v > -100000000) && decide (v < 1000000000)) = false := by
      rw [Bool.and_eq_false_iff]
      by_cases hlo : -100000000 < v
      · right; simp; omega
      · left; simp; omega
    unfold appendDecimalSizeField
    rw [e, hd]
    simp
  refine ⟨?_, small, large, ?_, ?_, ?_⟩
  · constructor
    · intro h; exact (small h).2.1
    · intro h
      by_contra hn
      have := (large hn).1
      omega
  · intro b hb
    by_cases h : -100000000 < v ∧ v < 1000000000
    · obtain ⟨h1, h2, h3, _⟩ := small h
      rw [h3] at hb
      simp only [List.mem_singleton] at hb
      omega
    · obtain ⟨h1, h2, h3, _⟩ := large h
      rw [h3] at hb
      simp only [List.mem_cons, List.mem_singleton, List.not_mem_nil, or_false] at hb
      omega
  · by_cases h : -100000000 < v ∧ v < 1000000000
    · obtain ⟨h1, h2, h3, _⟩ := small h
      rw [h3]
      simp only [List.head?_cons, ne_eq, Option.some.injEq]
      omega
    · obtain ⟨h1, h2, h3, _⟩ := large h
      rw [h3]
      simp only [List.head?_cons, ne_eq, Option.some.injEq]
      omega
  · by_cases h : -100000000 < v ∧ v < 1000000000
    · rw [(small h).2.2.1]; simp
    · rw [(large h).2.2.1]; simp

/-- C21, at the boundary values of the one-digit branch and at the least
`int64`. -/
theorem appendDecimal_size_field_witness :
    isInt64 (-99999999) ∧ appendDecimalSizeField [36] (-99999999) = bytesOfString "9" ∧
      isInt64 (-100000000) ∧ appendDecimalSizeField [36] (-100000000) = bytesOfString "10" ∧
      isInt64 999999999 ∧ appendDecimalSizeField [36] 999999999 = bytesOfString "9" ∧
      isInt64 1000000000 ∧ appendDecimalSizeField [36] 1000000000 = bytesOfString "10" ∧
      isInt64 (-9223372036854775808) ∧
      appendDecimalSizeField [36] (-9223372036854775808) = bytesOfString "20" :=
  ⟨by decide,
    ((appendDecimal_size_field [36] (-99999999) (by decide)).2.1 (by decide)).2.2.1.trans
      (by decide),
    by decide,
    ((appendDecimal_size_field [36] (-100000000) (by decide)).2.2.1 (by decide)).2.2.1.trans
      (by decide),
    by decide,
    ((appendDecimal_size_field [36] 999999999 (by decide)).2.1 (by decide)).2.2.1.trans
      (by decide),
    by decide,
    ((appendDecimal_size_field [36] 1000000000 (by decide)).2.2.1 (by decide)).2.2.1.trans
      (by decide),
    by decide,
    ((appendDecimal_size_field [36] (-9223372036854775808) (by decide)).2.2.1
      (by decide)).2.2.1.trans (by decide)⟩

theorem backoff_small (i : Nat) (h : i ≤ 10) : backoff i = (2 ^ i - 1) * millisecond := by
  interval_cases i <;> decide

theorem backoff_large (i : Nat) (h : 10 ≤ i) : backoff i = 1023 * millisecond := by
  induction i with
  | zero => omega
  | succ i ih =>
    by_cases hi : 10 ≤ i
    · show nextDelay (backoff i) = _
      rw [ih hi]
      decide
    · have e : i + 1 = 10 := by omega
      rw [e]
      decide

theorem backoff_closed (i : Nat) : backoff i = min (2 ^ i - 1) 1023 * millisecond := by
  by_cases h : i ≤ 10
  · rw [backoff_small i h]
    have hp : 2 ^ i ≤ 2 ^ 10 := Nat.pow_le_pow_right (by norm_num) h
    have : min (2 ^ i - 1) 1023 = 2 ^ i - 1 := by
      apply Nat.min_eq_left
      omega
    rw [this]
  · rw [backoff_large i (by omega)]
    have hp : 2 ^ 11 ≤ 2 ^ i := Nat.pow_le_pow_right (by norm_num) (by omega)
    have : min (2 ^ i - 1) 1023 = 1023 := by
      apply Nat.min_eq_right
      omega
    rw [this]

/-- C23: under any number of consecutive dial failures the wait before
retry number `i`, counted from 0, is `min(2^i - 1, 1023)` milliseconds; the
delay never exceeds 1023ms and is 1023ms from the eleventh failure on. -/
theorem backoff_bounded (s : Listener) (k : Nat) (hpc : s.pc = .dial)
    (hc : s.cancelled = false) (hd : s.reconnectDelay = 0) :
    (∃ t, s.run (List.replicate k .dialFail) = some t ∧
      t.waits = s.waits ++ (List.range k).map (fun i => min (2 ^ i - 1) 1023 * millisecond) ∧
      t.reconnectDelay = min (2 ^ k - 1) 1023 * millisecond ∧
      t.reconnectDelay ≤ 1023 * millisecond) ∧
      (∀ i, min (2 ^ i - 1) 1023 * millisecond ≤ 1023 * millisecond) ∧
      (∀ i, 10 ≤ i → min (2 ^ i - 1) 1023 * millisecond = 1023 * millisecond) := by
  have hle : ∀ i, min (2 ^ i - 1) 1023 * millisecond ≤ 1023 * millisecond := by
    intro i
    exact Nat.mul_le_mul_right _ (Nat.min_le_right _ _)
  refine ⟨?_, hle, ?_⟩
  · obtain ⟨t, h1, h2, h3, _⟩ := Listener.dialFail_run k 0 s hpc hc (by rw [hd]; rfl)
    refine ⟨t, h1, ?_, ?_, ?_⟩
    · rw [h2]
      congr 1
      apply List.map_congr_left
      intro i _
      rw [Nat.zero_add, backoff_closed]
    · rw [h3, Nat.zero_add, backoff_closed]
    · rw [h3, Nat.zero_add, backoff_closed]
      exact hle k
  · intro i hi
    rw [← backoff_closed, backoff_large i hi]

/-- C23, at thirteen dial failures of a new listener. -/
theorem backoff_bounded_witness :
    Listener.init.pc = .dial ∧ Listener.init.cancelled = false ∧
      Listener.init.reconnectDelay = 0 ∧
      ∃ t, Listener.init.run (List.replicate 13 .dialFail) = some t ∧
        t.waits = [0, 1 * millisecond, 3 * millisecond, 7 * millisecond, 15 * millisecond,
          31 * millisecond, 63 * millisecond, 127 * millisecond, 255 * millisecond,
          511 * millisecond, 1023 * millisecond, 1023 * millisecond, 1023 * millisecond] := by
  obtain ⟨t, h1, h2, _⟩ := (backoff_bounded Listener.init 13 rfl rfl rfl).1
  exact ⟨rfl, rfl, rfl, t, h1, h2.trans (by decide)⟩

/-- C24: the text and the binary variants of an encoder are equal on
arguments with the same bytes, each encoder of several arguments is the
composition of the encoders of its fields with a `$` between them (an integer
field being `appendDecimal` followed by CR LF), and the wrappers of one
command that differ in the types of their arguments hand the same frame to
the send path, whatever buffers they take from the pool. -/
theorem encoder_variants_equal :
    (∀ (buf a : Bytes), appendString buf a = appendBytes buf a) ∧
      (∀ (buf a1 a2 : Bytes), appendStringBytes buf a1 a2 = appendBytesBytes buf a1 a2 ∧
        appendStringString buf a1 a2 = appendBytesBytes buf a1 a2) ∧
      (∀ (buf a1 : Bytes) (a2 : Int), appendStringInt buf a1 a2 = appendBytesInt buf a1 a2) ∧
      (∀ (buf a1 : Bytes) (a2 a3 : Int),
        appendStringIntInt buf a1 a2 a3 = appendBytesIntInt buf a1 a2 a3) ∧
      (∀ (buf a1 : Bytes) (a2 : Int) (a3 : Bytes),
        appendStringIntBytes buf a1 a2 a3 = appendBytesIntBytes buf a1 a2 a3 ∧
        appendStringIntString buf a1 a2 a3 = appendBytesIntBytes buf a1 a2 a3) ∧
      (∀ (buf a1 a2 a3 : Bytes),
        appendStringStringBytes buf a1 a2 a3 = appendBytesBytesBytes buf a1 a2 a3 ∧
        appendStringStringString buf a1 a2 a3 = appendBytesBytesBytes buf a1 a2 a3) ∧
      (∀ (buf a1 a2 : Bytes),
        appendBytesBytes buf a1 a2 = appendBytes (appendBytes buf a1 ++ [36]) a2) ∧
      (∀ (buf a1 : Bytes) (a2 : Int),
        appendBytesInt buf a1 a2 = appendDecimal (appendBytes buf a1 ++ [36]) a2 ++ [13, 10]) ∧
      (∀ (buf a1 : Bytes) (a2 a3 : Int),
        appendBytesIntInt buf a1 a2 a3 =
          appendDecimal (appendDecimal (appendBytes buf a1 ++ [36]) a2 ++ [13, 10] ++ [36]) a3 ++
            [13, 10]) ∧
      (∀ (buf a1 : Bytes) (a2 : Int) (a3 : Bytes),
        appendBytesIntBytes buf a1 a2 a3 =
          appendBytes (appendDecimal (appendBytes buf a1 ++ [36]) a2 ++ [13, 10] ++ [36]) a3) ∧
      (∀ (buf a1 a2 a3 : Bytes),
        appendBytesBytesBytes buf a1 a2 a3 =
          appendBytes (appendBytes (appendBytes buf a1 ++ [36]) a2 ++ [36]) a3) ∧
      (∀ (p p2 : Bytes) (a1 : Bytes), Client.BytesGET p a1 = Client.GET p2 a1) ∧
      (∀ (p p2 : Bytes) (a1 : Bytes) (a2 : Bytes), Client.BytesSET p a1 a2 = Client.SET p2 a1 a2 ∧
        Client.SETString p a1 a2 = Client.SET p2 a1 a2) ∧
      (∀ (p p2 : Bytes) (a1 : Bytes), Client.BytesDEL p a1 = Client.DEL p2 a1) ∧
      (∀ (p p2 : Bytes) (a1 : Bytes), Client.BytesINCR p a1 = Client.INCR p2 a1) ∧
      (∀ (p p2 : Bytes) (a1 : Bytes) (a2 : Int),
        Client.BytesINCRBY p a1 a2 = Client.INCRBY p2 a1 a2) ∧
      (∀ (p p2 : Bytes) (a1 : Bytes) (a2 : Bytes),
        Client.BytesAPPEND p a1 a2 = Client.APPEND p2 a1 a2 ∧
        Client.APPENDString p a1 a2 = Client.APPEND p2 a1 a2) ∧
      (∀ (p p2 : Bytes) (a1 : Bytes), Client.BytesLLEN p a1 = Client.LLEN p2 a1) ∧
      (∀ (p p2 : Bytes) (a1 : Bytes) (a2 : Int),
        Client.BytesLINDEX p a1 a2 = Client.LINDEX p2 a1 a2) ∧
      (∀ (p p2 : Bytes) (a1 : Bytes) (a2 : Int) (a3 : Int),
        Client.BytesLRANGE p a1 a2 a3 = Client.LRANGE p2 a1 a2 a3) ∧
      (∀ (p p2 : Bytes) (a1 : Bytes), Client.BytesLPOP p a1 = Client.LPOP p2 a1) ∧
      (∀ (p p2 : Bytes) (a1 : Bytes), Client.BytesRPOP p a1 = Client.RPOP p2 a1) ∧
      (∀ (p p2 : Bytes) (a1 : Bytes) (a2 : Int) (a3 : Int),
        Client.BytesLTRIM p a1 a2 a3 = Client.LTRIM p2 a1 a2 a3) ∧
      (∀ (p p2 : Bytes) (a1 : Bytes) (a2 : Int) (a3 : Bytes),
        Client.LSETString p a1 a2 a3 = Client.LSET p2 a1 a2 a3 ∧
        Client.BytesLSET p a1 a2 a3 = Client.LSET p2 a1 a2 a3) ∧
      (∀ (p p2 : Bytes) (a1 : Bytes) (a2 : Bytes),
        Client.BytesLPUSH p a1 a2 = Client.LPUSH p2 a1 a2 ∧
        Client.LPUSHString p a1 a2 = Client.LPUSH p2 a1 a2) ∧
      (∀ (p p2 : Bytes) (a1 : Bytes) (a2 : Bytes),
        Client.BytesRPUSH p a1 a2 = Client.RPUSH p2 a1 a2 ∧
        Client.RPUSHString p a1 a2 = Client.RPUSH p2 a1 a2) ∧
      (∀ (p p2 : Bytes) (a1 : Bytes) (a2 : Bytes),
        Client.BytesHGET p a1 a2 = Client.HGET p2 a1 a2) ∧
      (∀ (p p2 : Bytes) (a1 : Bytes) (a2 : Bytes) (a3 : Bytes),
        Client.BytesHSET p a1 a2 a3 = Client.HSET p2 a1 a2 a3 ∧
        Client.HSETString p a1 a2 a3 = Client.HSET p2 a1 a2 a3) ∧
      (∀ (p p2 : Bytes) (a1 : Bytes) (a2 : Bytes),
        Client.BytesHDEL p a1 a2 = Client.HDEL p2 a1 a2) := by
  refine ⟨fun _ _ => rfl, fun _ _ _ => ⟨rfl, rfl⟩, fun _ _ _ => rfl, fun _ _ _ _ => rfl,
    fun _ _ _ _ => ⟨rfl, rfl⟩, fun _ _ _ _ => ⟨rfl, rfl⟩, ?_, ?_, ?_, ?_, ?_, ?_⟩
  · intro buf a1 a2
    simp [appendBytesBytes, appendBytes, strconv.AppendUint]
  · intro buf a1 a2
    simp [appendBytesInt, appendBytes, strconv.AppendUint]
  · intro buf a1 a2 a3
    simp [appendBytesIntInt, appendBytes, strconv.AppendUint]
  · intro buf a1 a2 a3
    simp [appendBytesIntBytes, appendBytes, strconv.AppendUint]
  · intro buf a1 a2 a3
    simp [appendBytesBytesBytes, appendBytes, strconv.AppendUint]
  · refine ⟨?_, ?_, ?_, ?_, ?_, ?_, ?_, ?_, ?_, ?_, ?_, ?_, ?_, ?_, ?_, ?_, ?_, ?_⟩ <;>
      intros <;> first | rfl | exact ⟨rfl, rfl⟩

end Redis

namespace Redis

/-! ## No queue is closed twice -/

theorem mapGet_of_mem (m : List (String × Nat)) (hk : (mapKeys m).Nodup) (k : String)
    (v : Nat) (hm : (k, v) ∈ m) : mapGet m k = some v := by
  induction m with
  | nil => cases hm
  | cons e m ih =>
    obtain ⟨a, w⟩ := e
    simp only [mapKeys, List.map_cons, List.nodup_cons] at hk
    rcases List.mem_cons.mp hm with h | h
    · cases h
      simp [mapGet]
    · have hne : a ≠ k := by
        intro e
        apply hk.1
        rw [e]
        exact List.mem_map_of_mem Prod.fst h
      simp only [mapGet, hne, if_false]
      exact ih hk.2 h

theorem mem_values_mapGet (m : List (String × Nat)) (hk : (mapKeys m).Nodup) (q : Nat)
    (hq : q ∈ m.map Prod.snd) : ∃ n, mapGet m n = some q := by
  obtain ⟨e, he, rfl⟩ := List.mem_map.mp hq
  exact ⟨e.1, mapGet_of_mem m hk e.1 e.2 he⟩

theorem values_nodup (m : List (String × Nat)) (hk : (mapKeys m).Nodup)
    (hinj : ∀ n n2 q, mapGet m n = some q → mapGet m n2 = some q → n = n2) :
    (m.map Prod.snd).Nodup := by
  induction m with
  | nil => simp
  | cons e m ih =>
    obtain ⟨a, w⟩ := e
    have hk2 := hk
    simp only [mapKeys, List.map_cons, List.nodup_cons] at hk2
    have hrest : ∀ n q, mapGet m n = some q → mapGet ((a, w) :: m) n = some q := by
      intro n q h
      have hne : a ≠ n := by
        intro e
        apply hk2.1
        rw [e]
        exact (mem_mapKeys m n).mpr ⟨q, h⟩
      simp only [mapGet, hne, if_false]
      exact h
    simp only [List.map_cons, List.nodup_cons]
    refine ⟨?_, ih hk2.2 (fun n n2 q h1 h2 => hinj n n2 q (hrest n q h1) (hrest n2 q h2))⟩
    intro hw
    obtain ⟨n, hn⟩ := mem_values_mapGet m hk2.2 w hw
    have h1 : mapGet ((a, w) :: m) a = some w := by simp [mapGet]
    have := hinj a n w h1 (hrest n w hn)
    apply hk2.1
    rw [this]
    exact (mem_mapKeys m n).mpr ⟨w, hn⟩

theorem closedBy_nodup (names : List String) (m : List (String × Nat))
    (hinj : ∀ n n2 q, mapGet m n = some q → mapGet m n2 = some q → n = n2) :
    (closedBy names m).Nodup := by
  induction names generalizing m with
  | nil => simp [closedBy]
  | cons name names ih =>
    have hdel : ∀ n q, mapGet (mapDelete m name) n = some q → mapGet m n = some q ∧ n ≠ name := by
      intro n q h
      rw [mapGet_mapDelete] at h
      by_cases hn : n = name
      · simp [hn] at h
      · simp only [hn, if_false] at h
        exact ⟨h, hn⟩
    have hrec := ih (mapDelete m name)
      (fun n n2 q h1 h2 => hinj n n2 q (hdel n q h1).1 (hdel n2 q h2).1)
    simp only [closedBy]
    cases hq : mapGet m name with
    | none => simpa using hrec
    | some q =>
      simp only [List.singleton_append, List.nodup_cons]
      refine ⟨?_, hrec⟩
      intro hmem
      obtain ⟨n, _, hn⟩ := (mem_closedBy names (mapDelete m name) q).mp hmem
      obtain ⟨h1, h2⟩ := hdel n q hn
      exact h2 (hinj n name q h1 hq)

theorem mapKeys_mapSet (m : List (String × Nat)) (k : String) (v : Nat) :
    mapKeys (mapSet m k v) = if k ∈ mapKeys m then mapKeys m else mapKeys m ++ [k] := by
  induction m with
  | nil => simp [mapSet, mapKeys]
  | cons e m ih =>
    obtain ⟨a, w⟩ := e
    unfold mapKeys at ih ⊢
    by_cases ha : a = k
    · subst ha
      simp [mapSet]
    · have hne : ¬ k = a := fun e => ha e.symm
      simp only [mapSet, ha, if_false, List.map_cons, List.mem_cons, hne, false_or, ih]
      split <;> simp

theorem mapKeys_mapSet_nodup (m : List (String × Nat)) (k : String) (v : Nat)
    (h : (mapKeys m).Nodup) : (mapKeys (mapSet m k v)).Nodup := by
  rw [mapKeys_mapSet]
  split
  · exact h
  · rename_i hk
    rw [List.nodup_append]
    refine ⟨h, by simp, ?_⟩
    intro a ha hb
    simp only [List.mem_singleton] at hb
    subst hb
    exact hk ha

theorem Listener.OpenInv_at_init : Listener.init.OpenInv := by
  refine ⟨?_, ?_, ?_, ?_⟩
  · simp [Listener.init, mapKeys]
  · simp [Listener.init]
  · intro q h; simp [Listener.init] at h
  · intro _ n q h; simp [Listener.init, mapGet] at h

theorem Listener.OpenInv_same (s u : Listener) (ho : s.OpenInv) (h1 : u.subs = s.subs)
    (h2 : u.closedQueues = s.closedQueues) (h3 : u.closed = s.closed)
    (h4 : s.nextQueue ≤ u.nextQueue) : u.OpenInv := by
  refine ⟨?_, ?_, ?_, ?_⟩
  · rw [h1]; exact ho.keys
  · rw [h2]; exact ho.closedNodup
  · intro q hq
    rw [h2] at hq
    exact Nat.lt_of_lt_of_le (ho.closedFresh q hq) h4
  · rw [h1, h2, h3]; exact ho.opened

theorem Listener.OpenInv_SUBSCRIBE (s : Listener) (channel : String) (w : Bool)
    (ho : s.OpenInv) : (s.SUBSCRIBE channel w).1.OpenInv := by
  obtain ⟨f1, _, _, _, _, _, f7⟩ := Listener.SUBSCRIBE_fields s channel w
  obtain ⟨r1, _, _, r4, _⟩ := Listener.SUBSCRIBE_rest s channel w
  refine ⟨?_, ?_, ?_, ?_⟩
  · rw [f1]
    cases hg : mapGet s.subs channel with
    | some c => exact ho.keys
    | none => exact mapKeys_mapSet_nodup _ _ _ ho.keys
  · rw [f7]; exact ho.closedNodup
  · intro q hq
    rw [f7] at hq
    rw [r1]
    exact Nat.lt_succ_of_lt (ho.closedFresh q hq)
  · intro hc n q hq
    rw [r4] at hc
    rw [f7]
    rw [f1] at hq
    cases hg : mapGet s.subs channel with
    | some c => rw [hg] at hq; exact ho.opened hc n q hq
    | none =>
      rw [hg] at hq
      simp only [mapGet_mapSet] at hq
      by_cases hn : n = channel
      · simp only [hn, if_true, Option.some.injEq] at hq
        intro hmem
        have := ho.closedFresh q hmem
        rw [← hq] at this
        exact Nat.lt_irrefl _ this
      · simp only [hn, if_false] at hq
        exact ho.opened hc n q hq

theorem Listener.OpenInv_shutdown (s : Listener) (hi : s.Inv) (ho : s.OpenInv)
    (hc : s.closed = false) : s.shutdown.OpenInv := by
  refine ⟨ho.keys, ?_, ?_, ?_⟩
  · show (s.closedQueues ++ s.subs.map Prod.snd).Nodup
    rw [List.nodup_append]
    refine ⟨ho.closedNodup, values_nodup s.subs ho.keys hi.inj, ?_⟩
    intro q h1 h2
    obtain ⟨n, hn⟩ := mem_values_mapGet s.subs ho.keys q h2
    exact ho.opened hc n q hn h1
  · intro q hq
    have hq2 : q ∈ s.closedQueues ++ s.subs.map Prod.snd := hq
    rcases List.mem_append.mp hq2 with h | h
    · exact ho.closedFresh q h
    · obtain ⟨n, hn⟩ := mem_values_mapGet s.subs ho.keys q h
      exact hi.fresh n q hn
  · intro h
    cases h

theorem Listener.OpenInv_reconcile (s : Listener) (conn : Nat) (hi : s.Inv) (ho : s.OpenInv)
    (hc : s.closed = false) : (s.reconcile conn).OpenInv := by
  obtain ⟨_, f2, f3, _⟩ := Listener.reconcile_fields s conn
  obtain ⟨r1, _, r3, _⟩ := Listener.reconcile_rest s conn
  refine ⟨?_, ?_, ?_, ?_⟩
  · rw [f2]; exact mapKeys_filter_nodup s.subs _ ho.keys
  · rw [f3, List.nodup_append]
    refine ⟨ho.closedNodup, closedBy_nodup _ _ hi.inj, ?_⟩
    intro q h1 h2
    obtain ⟨n, _, hn⟩ := (mem_closedBy _ _ q).mp h2
    exact ho.opened hc n q hn h1
  · intro q hq
    rw [f3] at hq
    rw [r1]
    rcases List.mem_append.mp hq with h | h
    · exact ho.closedFresh q h
    · obtain ⟨n, _, hn⟩ := (mem_closedBy _ _ q).mp h
      exact hi.fresh n q hn
  · intro _ n q hq
    rw [f2, mapGet_filter s.subs (fun k => decide (k ∉ s.unsubs)) n] at hq
    by_cases hn : n ∈ s.unsubs
    · simp [hn] at hq
    · have hq2 : mapGet s.subs n = some q := by simpa [hn] using hq
      rw [f3]
      intro hmem
      rcases List.mem_append.mp hmem with h | h
      · exact ho.opened hc n q hq2 h
      · obtain ⟨n2, hn2, hg⟩ := (mem_closedBy _ _ q).mp h
        have := hi.inj n n2 q hq2 hg
        rw [this] at hn
        exact hn hn2

theorem Listener.OpenInv_dispatch (s : Listener) (ty dest : String) (msg : Bytes)
    (hi : s.Inv) (ho : s.OpenInv) (hc : s.closed = false) :
    (s.dispatch ty dest msg).OpenInv := by
  obtain ⟨f1, _⟩ := Listener.dispatch_fields s ty dest msg
  obtain ⟨r1, _, _, r4, _⟩ := Listener.dispatch_rest s ty dest msg
  by_cases hu : ty = "unsubscribe"
  · subst hu
    simp only [if_true] at f1
    have hcl : (s.dispatch "unsubscribe" dest msg).closedQueues = s.closedQueues ++
        (match mapGet s.subs dest with
          | some q => [q]
          | none => []) := by
      cases hq : mapGet s.subs dest <;> simp [Listener.dispatch, hq]
    refine ⟨?_, ?_, ?_, ?_⟩
    · rw [f1]; exact mapKeys_filter_nodup s.subs _ ho.keys
    · rw [hcl]
      cases hq : mapGet s.subs dest with
      | none => simpa using ho.closedNodup
      | some q =>
        rw [List.nodup_append]
        refine ⟨ho.closedNodup, by simp, ?_⟩
        intro a h1 h2
        simp only [List.mem_singleton] at h2
        subst h2
        exact ho.opened hc dest a hq h1
    · intro q hq
      rw [hcl] at hq
      rw [r1]
      rcases List.mem_append.mp hq with h | h
      · exact ho.closedFresh q h
      · cases hd : mapGet s.subs dest with
        | none => rw [hd] at h; cases h
        | some q2 =>
          rw [hd] at h
          simp only [List.mem_singleton] at h
          rw [h]
          exact hi.fresh dest q2 hd
    · intro _ n q hq
      rw [f1, mapGet_mapDelete] at hq
      by_cases hn : n = dest
      · simp [hn] at hq
      · simp only [hn, if_false] at hq
        rw [hcl]
        intro hmem
        rcases List.mem_append.mp hmem with h | h
        · exact ho.opened hc n q hq h
        · cases hd : mapGet s.subs dest with
          | none => rw [hd] at h; cases h
          | some q2 =>
            rw [hd] at h
            simp only [List.mem_singleton] at h
            rw [h] at hq
            exact hn (hi.inj n dest q2 hq hd)
  · have hsub : (s.dispatch ty dest msg).subs = s.subs := by rw [f1]; simp [hu]
    have hcl : (s.dispatch ty dest msg).closedQueues = s.closedQueues := by
      unfold Listener.dispatch
      by_cases h1 : ty = "message"
      · subst h1
        cases hg : mapGet s.channels dest <;> simp [hg]
      · by_cases h2 : ty = "subscribe"
        · subst h2
          cases hg : mapGet s.channels dest <;> cases hs : mapGet s.subs dest <;> simp [hg, hs]
        · simp [h1, h2, hu]
    exact Listener.OpenInv_same s _ ho hsub hcl r4 (Nat.le_of_eq r1.symm)

theorem Listener.OpenInv_preserved (s t : Listener) (a : Action) (hs : s.Inv)
    (ho : s.OpenInv) (h : s.step a = some t) : t.OpenInv := by
  have hclosed : s.pc ≠ .terminated → s.closed = false := by
    intro hp
    cases hcl : s.closed with
    | false => rfl
    | true => exact (hp (hs.term hcl).1).elim
  cases a with
  | SUBSCRIBE channel w =>
    simp only [Listener.step, Option.some.injEq] at h
    subst h
    exact Listener.OpenInv_SUBSCRIBE s channel w ho
  | unsubscribe channel w =>
    simp only [Listener.step, Option.some.injEq] at h
    subst h
    obtain ⟨f1, _, _, _, _, f6⟩ := Listener.unsubscribe_fields s channel w
    obtain ⟨r1, _, _, r4, _⟩ := Listener.unsubscribe_rest s channel w
    exact Listener.OpenInv_same s _ ho f1 f6 r4 (Nat.le_of_eq r1.symm)
  | Close =>
    simp only [Listener.step, Option.some.injEq] at h
    subst h
    obtain ⟨f1, _, _, _, _, f6⟩ := Listener.Close_fields s
    obtain ⟨r1, _, _, r4, _⟩ := Listener.Close_rest s
    exact Listener.OpenInv_same s _ ho f1 f6 r4 (Nat.le_of_eq r1.symm)
  | dialFail =>
    simp only [Listener.step] at h
    split at h
    · rename_i hpc
      have hcl : s.closed = false := hclosed (by rw [hpc]; simp)
      split at h
      · cases h
        exact Listener.OpenInv_shutdown s hs ho hcl
      · cases h
        exact Listener.OpenInv_same s _ ho rfl rfl rfl (Nat.le_refl _)
    · cases h
  | dialOk =>
    simp only [Listener.step] at h
    split at h
    · split at h
      · cases h
      · cases h
        exact Listener.OpenInv_same s _ ho rfl rfl rfl (Nat.le_refl _)
    · cases h
  | handshakeFail =>
    simp only [Listener.step] at h
    split at h
    · cases h
      exact Listener.OpenInv_same s _ ho rfl rfl rfl (Nat.le_refl _)
    · cases h
  | handshakeOk =>
    simp only [Listener.step] at h
    split at h
    · cases h
      exact Listener.OpenInv_same s _ ho rfl rfl rfl (Nat.le_refl _)
    · cases h
  | connected =>
    simp only [Listener.step] at h
    split at h
    · rename_i conn hpc
      have hcl : s.closed = false := hclosed (by rw [hpc]; simp)
      split at h
      · cases h
        exact Listener.OpenInv_shutdown { s with connClosed := s.connClosed ++ [conn] }
          ⟨hs.sub, hs.fresh, hs.inj, hs.connPc, hs.term, hs.termPc⟩
          ⟨ho.keys, ho.closedNodup, ho.closedFresh, ho.opened⟩ hcl
      · cases h
        exact Listener.OpenInv_reconcile s conn hs ho hcl
    · cases h
  | resubscribe w =>
    simp only [Listener.step] at h
    split at h
    · rename_i conn hpc
      cases h
      obtain ⟨_, f2, f3, _⟩ := Listener.resubscribe_fields s conn w
      obtain ⟨r1, _, r3, _⟩ := Listener.resubscribe_rest s conn w
      exact Listener.OpenInv_same s _ ho f2 f3 r3 (Nat.le_of_eq r1.symm)
    · cases h
  | push ty dest msg =>
    simp only [Listener.step] at h
    split at h
    · rename_i conn hpc
      have hcl : s.closed = false := hclosed (by rw [hpc]; simp)
      cases h
      exact Listener.OpenInv_dispatch s ty dest msg hs ho hcl
    · cases h
  | receiveErr =>
    simp only [Listener.step] at h
    split at h
    · cases h
      exact Listener.OpenInv_same s _ ho rfl rfl rfl (Nat.le_refl _)
    · cases h
  | teardown =>
    simp only [Listener.step] at h
    split at h
    · cases h
      refine Listener.OpenInv_same s _ ho ?_ ?_ ?_ (Nat.le_of_eq ?_) <;> split <;> rfl
    · cases h

theorem Listener.OpenInv_preserved_run (acts : List Action) (s t : Listener) (hs : s.Inv)
    (ht : s.TableInv) (ho : s.OpenInv) (h : s.run acts = some t) : t.OpenInv := by
  induction acts generalizing s with
  | nil =>
    simp only [Listener.run, Option.some.injEq] at h
    rw [← h]; exact ho
  | cons a as ih =>
    simp only [Listener.run] at h
    split at h
    · rename_i u hu
      exact ih u (Listener.Inv_preserved s u a hs ht hu) (Listener.TableInv_step s u a ht hu)
        (Listener.OpenInv_preserved s u a hs ho hu) h
    · cases h

theorem Listener.OpenInv_reachable (s : Listener) (h : s.Reachable) : s.OpenInv := by
  obtain ⟨acts, hr⟩ := h
  exact Listener.OpenInv_preserved_run acts _ s Listener.Inv_at_init Listener.TableInv_init
    Listener.OpenInv_at_init hr

theorem Listener.delivered_grows (s t : Listener) (a : Action) (h : s.step a = some t) :
    t.delivered = s.delivered ∨
      ∃ n p q, a = .push "message" n p ∧ mapGet s.channels n = some q ∧
        t.delivered = s.delivered ++ [(q, p)] ∧ t.closedQueues = s.closedQueues := by
  cases a with
  | SUBSCRIBE channel w =>
    simp only [Listener.step, Option.some.injEq] at h
    subst h
    exact Or.inl (Listener.SUBSCRIBE_rest s channel w).2.2.2.2.2.1
  | unsubscribe channel w =>
    simp only [Listener.step, Option.some.injEq] at h
    subst h
    exact Or.inl (Listener.unsubscribe_rest s channel w).2.2.2.2.2.1
  | Close =>
    simp only [Listener.step, Option.some.injEq] at h
    subst h
    exact Or.inl (Listener.Close_rest s).2.2.2.2.2.1
  | dialFail =>
    simp only [Listener.step] at h
    split at h
    · split at h <;> (cases h; exact Or.inl rfl)
    · cases h
  | dialOk =>
    simp only [Listener.step] at h
    split at h
    · split at h
      · cases h
      · cases h; exact Or.inl rfl
    · cases h
  | handshakeFail =>
    simp only [Listener.step] at h
    split at h
    · cases h; exact Or.inl rfl
    · cases h
  | handshakeOk =>
    simp only [Listener.step] at h
    split at h
    · cases h; exact Or.inl rfl
    · cases h
  | connected =>
    simp only [Listener.step] at h
    split at h
    · rename_i conn hpc
      split at h
      · cases h; exact Or.inl rfl
      · cases h
        exact Or.inl (Listener.reconcile_rest s conn).2.2.2.2.1
    · cases h
  | resubscribe w =>
    simp only [Listener.step] at h
    split at h
    · rename_i conn hpc
      cases h
      exact Or.inl (Listener.resubscribe_rest s conn w).2.2.2.2.1
    · cases h
  | push ty dest msg =>
    obtain ⟨rfl, _⟩ := Listener.step_push s t ty dest msg h
    by_cases h1 : ty = "message"
    · subst h1
      cases hg : mapGet s.channels dest with
      | none =>
        left
        simp [Listener.dispatch, hg]
      | some ch =>
        right
        refine ⟨dest, msg, ch, rfl, hg, ?_, ?_⟩ <;> simp [Listener.dispatch, hg]
    · left
      unfold Listener.dispatch
      by_cases h2 : ty = "subscribe"
      · subst h2
        cases hg : mapGet s.channels dest <;> cases hs : mapGet s.subs dest <;> simp [hg, hs]
      · by_cases h3 : ty = "unsubscribe"
        · subst h3
          cases hs : mapGet s.subs dest <;> simp [hs]
        · simp [h1, h2, h3]
  | receiveErr =>
    simp only [Listener.step] at h
    split at h
    · cases h; exact Or.inl rfl
    · cases h
  | teardown =>
    simp only [Listener.step] at h
    split at h
    · cases h
      left
      split <;> rfl
    · cases h

theorem Listener.closed_step_removes (s t : Listener) (a : Action) (ho : s.OpenInv)
    (h : s.step a = some t) (q : Nat) (hq : q ∈ t.closedQueues) (hn : q ∉ s.closedQueues) :
    ∃ n, mapGet s.subs n = some q ∧ (mapGet t.subs n = none ∨ t.closed = true) := by
  rcases Listener.closedQueues_step s t a h with h1 | ⟨n, msg, q2, ha, hg, h1⟩ |
      ⟨ha, hc, h1⟩ | ⟨_, _, hcl, h1⟩
  · rw [h1] at hq
    exact (hn hq).elim
  · rw [h1] at hq
    rcases List.mem_append.mp hq with h2 | h2
    · exact (hn h2).elim
    · simp only [List.mem_singleton] at h2
      subst h2
      subst ha
      obtain ⟨rfl, _⟩ := Listener.step_push s t "unsubscribe" n msg h
      refine ⟨n, hg, Or.inl ?_⟩
      rw [(Listener.dispatch_fields s "unsubscribe" n msg).1]
      simp [mapGet_mapDelete]
  · rw [h1] at hq
    rcases List.mem_append.mp hq with h2 | h2
    · exact (hn h2).elim
    · obtain ⟨n, hmem, hg⟩ := (mem_closedBy _ _ q).mp h2
      subst ha
      simp only [Listener.step] at h
      split at h
      · rename_i conn hpc
        rw [hc] at h
        simp only [Bool.false_eq_true, if_false, Option.some.injEq] at h
        subst h
        refine ⟨n, hg, Or.inl ?_⟩
        rw [(Listener.reconcile_fields s conn).2.1,
          mapGet_filter s.subs (fun k => decide (k ∉ s.unsubs)) n]
        simp [hmem]
      · cases h
  · rw [h1] at hq
    rcases List.mem_append.mp hq with h2 | h2
    · exact (hn h2).elim
    · obtain ⟨n, hg⟩ := mem_values_mapGet s.subs ho.keys q h2
      exact ⟨n, hg, Or.inr hcl⟩

/-- C22: in every reachable listener state no queue has been closed twice,
and until `connectLoop` has returned no queue the intent map holds is closed;
each queue is held for at most one name of the intent map, and a queue of the
routing table is held by the intent map for the same name. A step hands a
payload to a queue only as a `message` push frame to the queue the routing
table holds for its name, which is closed neither before nor after the step;
and the queues a step closes were held by the intent map and not closed
before: the step takes the name out of the intent map or is the shutdown of
`connectLoop`. -/
theorem queues_closed_once (s : Listener) (h : s.Reachable) :
    s.closedQueues.Nodup ∧
      (s.closed = false → ∀ n q, mapGet s.subs n = some q → q ∉ s.closedQueues) ∧
      (∀ n m q, mapGet s.subs n = some q → mapGet s.subs m = some q → n = m) ∧
      (∀ n q, mapGet s.channels n = some q → mapGet s.subs n = some q) ∧
      (∀ a t, s.step a = some t →
        t.closedQueues.Nodup ∧
          (t.delivered = s.delivered ∨
            ∃ n p q, a = .push "message" n p ∧ mapGet s.channels n = some q ∧
              t.delivered = s.delivered ++ [(q, p)] ∧ q ∉ s.closedQueues ∧
              q ∉ t.closedQueues) ∧
          (∀ q, q ∈ t.closedQueues → q ∉ s.closedQueues →
            ∃ n, mapGet s.subs n = some q ∧ (mapGet t.subs n = none ∨ t.closed = true))) := by
  obtain ⟨hi, ht⟩ := Listener.Inv_reachable s h
  have ho := Listener.OpenInv_reachable s h
  refine ⟨ho.closedNodup, ho.opened, hi.inj, hi.sub, ?_⟩
  intro a t hstep
  refine ⟨(Listener.OpenInv_preserved s t a hi ho hstep).closedNodup, ?_,
    Listener.closed_step_removes s t a ho hstep⟩
  rcases Listener.delivered_grows s t a hstep with h1 | ⟨n, p, q, ha, hg, hd, hc⟩
  · exact Or.inl h1
  · right
    subst ha
    obtain ⟨_, conn, hpc⟩ := Listener.step_push s t "message" n p hstep
    have hcl : s.closed = false := by
      cases hcl : s.closed with
      | false => rfl
      | true =>
        have := (hi.term hcl).1
        rw [hpc] at this
        cases this
    have hopen := ho.opened hcl n q (hi.sub n q hg)
    refine ⟨n, p, q, rfl, hg, hd, hopen, ?_⟩
    rw [hc]
    exact hopen

/-- C22, at a listener that has closed the queue of `x` and holds the queue
of `y`: a message for `y` is handed to the open queue 1, and a later
`unsubscribe` push frame for `y` closes that queue once. -/
theorem queues_closed_once_witness :
    Listener.sampleUnsubscribed.Reachable ∧
      Listener.sampleUnsubscribed.closedQueues = [0] ∧
      Listener.sampleUnsubscribed.subs = [("y", 1)] ∧
      Listener.sampleUnsubscribed.channels = [("y", 1)] ∧
      (Listener.sampleUnsubscribed.step (.push "message" "y" [7])).map
        (fun t => t.delivered) = some [(1, [7])] ∧
      (Listener.sampleUnsubscribed.step (.push "unsubscribe" "y" [])).map
        (fun t => t.closedQueues) = some [0, 1] ∧
      Listener.sampleUnsubscribed.closedQueues.Nodup ∧
      ∀ n q, mapGet Listener.sampleUnsubscribed.subs n = some q →
        q ∉ Listener.sampleUnsubscribed.closedQueues :=
  ⟨⟨Listener.sampleUnsubscribedActs, by decide⟩, by decide, by decide, by decide, by decide,
    by decide,
    (queues_closed_once Listener.sampleUnsubscribed
      ⟨Listener.sampleUnsubscribedActs, by decide⟩).1,
    (queues_closed_once Listener.sampleUnsubscribed
      ⟨Listener.sampleUnsubscribedActs, by decide⟩).2.1 (by decide)⟩

end Redis
